import Mathlib

/-!
# simfatlib: a verification development

`main.go` merges the simulator and device builds of an Xcode static-library
framework with `lipo`, rewrites `CFBundleSupportedPlatforms` in the device
bundle's `Info.plist`, and copies the bundle to an output folder.

The program is embedded by explicit state passing over a `World`: a file system,
the process's working directory and umask, the operating system's path-length
limit, a schedule of injected I/O faults, the record of the system calls made,
and the two output streams.  Go's `path` package, the calls into `os`, `io` and
`ioutil`, and the two external collaborators (the `lipo` command and the plist
codec) are modelled in the first half of the file; the four functions of
`main.go` follow; the theorems come last.
-/

set_option autoImplicit false

deriving instance DecidableEq for Except

namespace Simfatlib

/-! ## Go's `path` package -/

/-- The elements of a slash-separated path, empty elements included. -/
def splitSlash : List Char → List (List Char)
  | [] => [[]]
  | c :: cs =>
    if c = '/' then [] :: splitSlash cs
    else (c :: (splitSlash cs).headD []) :: (splitSlash cs).tail

/-- The elements written out with a slash between neighbours. -/
def joinSlash : List (List Char) → List Char
  | [] => []
  | [a] => a
  | a :: b :: rest => a ++ '/' :: joinSlash (b :: rest)

/-- One round of the loop of `path.Clean`, on the stack of elements kept so far
(most recent first): empty and `.` elements are dropped, `..` removes the
element before it, is dropped at the root, and is kept at the start of a
relative path. -/
def cleanStep (rooted : Bool) (st : List (List Char)) (c : List Char) : List (List Char) :=
  if c = [] ∨ c = ['.'] then st
  else if c = ['.', '.'] then
    match st with
    | top :: rest => if top = ['.', '.'] then c :: st else rest
    | [] => if rooted then [] else [c]
  else c :: st

/-- The elements `path.Clean` keeps, in order. -/
def cleanElems (rooted : Bool) (s : List Char) : List (List Char) :=
  ((splitSlash s).foldl (cleanStep rooted) []).reverse

/-- Whether the path starts at the root. -/
def isRooted (s : List Char) : Bool :=
  match s with
  | c :: _ => c = '/'
  | [] => false

/-- Go's `path.Clean`. -/
def pathClean (path : String) : String :=
  if path.data = [] then "."
  else
    let out := joinSlash (cleanElems (isRooted path.data) path.data)
    if isRooted path.data then String.mk ('/' :: out)
    else if out = [] then "." else String.mk out

/-- Go's `strings.Join`. -/
def stringsJoin : List String → String → String
  | [], _ => ""
  | [a], _ => a
  | a :: b :: rest, sep => a ++ sep ++ stringsJoin (b :: rest) sep

/-- Go's `path.Join`: leading empty elements are ignored, the rest is joined with
slashes and cleaned; the result is empty when every element is. -/
def pathJoin (elem : List String) : String :=
  match elem.dropWhile (fun e => e = "") with
  | [] => ""
  | e :: rest => pathClean (stringsJoin (e :: rest) "/")

/-- Go's `strings.HasPrefix`. -/
def stringsHasPrefix (s pre : String) : Bool :=
  pre.data.isPrefixOf s.data

/-- The length of a Go string: its size in bytes. -/
def byteLen (s : String) : Nat :=
  (s.data.map Char.utf8Size).sum

/-! ## The file system -/

/-- A location: the names on the way from the root. -/
abbrev Loc := List String

/-- A file with its permission bits and content, or a directory with its
permission bits. -/
inductive Node where
  | file (mode : Nat) (data : List Nat)
  | dir (mode : Nat)
  deriving DecidableEq, Repr

/-- The file system: the bindings of locations to nodes, the first binding of a
location being the current one. -/
abbrev FS := List (Loc × Node)

/-- What `os.FileInfo` tells the program about an entry. -/
structure FileInfo where
  name : String
  mode : Nat
  isDir : Bool
  deriving DecidableEq, Repr

/-- The error numbers of the system calls. -/
inductive Errno where
  | ENOENT | ENOTDIR | EISDIR | ENOTEMPTY | EINVAL | ENAMETOOLONG | EACCES
  deriving DecidableEq, Repr

/-- The text of an error number. -/
def Errno.message : Errno → String
  | .ENOENT => "no such file or directory"
  | .ENOTDIR => "not a directory"
  | .EISDIR => "is a directory"
  | .ENOTEMPTY => "directory not empty"
  | .EINVAL => "invalid argument"
  | .ENAMETOOLONG => "file name too long"
  | .EACCES => "permission denied"

/-- A name an entry of a directory can have. -/
def validName (n : String) : Bool :=
  n.data ≠ [] ∧ '/' ∉ n.data ∧ n.data ≠ ['.'] ∧ n.data ≠ ['.', '.']

/-- One element of a path followed from `loc`. There are no symbolic links, and
`..` is taken to be the parent of the location reached so far, which is where the
system gets to when the directories on the way are there. The program gives the
system cleaned paths only, in which `..` can but start a relative path. -/
def resolveStep (loc : Loc) (c : List Char) : Loc :=
  if c = [] ∨ c = ['.'] then loc
  else if c = ['.', '.'] then loc.dropLast
  else loc ++ [String.mk c]

/-- The location a path names for a process whose working directory is `cwd`. -/
def resolve (cwd : Loc) (p : String) : Loc :=
  (splitSlash p.data).foldl resolveStep (if isRooted p.data then [] else cwd)

/-- The node at a location. The root is a directory even when not bound. -/
def FS.node (fs : FS) (loc : Loc) : Option Node :=
  match fs.lookup loc with
  | some n => some n
  | none => if loc = [] then some (Node.dir 0o755) else none

/-- Whether a regular file is there. -/
def Node.isFile : Option Node → Bool
  | some (Node.file _ _) => true
  | _ => false

/-- Why a location is missing: a file on the way to it, or nothing there. -/
def FS.missing (fs : FS) (loc : Loc) : Errno :=
  if loc.inits.any (fun q => Node.isFile (fs.node q)) then Errno.ENOTDIR else Errno.ENOENT

/-- The `os.FileInfo` of a node. -/
def Node.info (name : String) : Node → FileInfo
  | Node.file m _ => ⟨name, m, false⟩
  | Node.dir m => ⟨name, m, true⟩

/-- The permission bits left by the umask. -/
def applyUmask (perm umask : Nat) : Nat :=
  perm ^^^ (perm &&& umask)

/-- The system call `stat`. -/
def FS.stat (fs : FS) (loc : Loc) : Except Errno FileInfo :=
  match fs.node loc with
  | some n => .ok (n.info (loc.getLast?.getD "/"))
  | none => .error (fs.missing loc)

/-- Go's `os.MkdirAll` on a location given with its last name first: a directory
already there is left as it is and a file there is an error; otherwise the
parent is made in the same way and the directory is created with the given
permission bits less the umask. -/
def FS.mkdirAllRev (umask perm : Nat) (fs : FS) : List String → Except Errno FS
  | [] =>
    match fs.node [] with
    | some (Node.dir _) => .ok fs
    | _ => .error Errno.ENOTDIR
  | n :: parent =>
    match fs.node (n :: parent).reverse with
    | some (Node.dir _) => .ok fs
    | some (Node.file _ _) => .error Errno.ENOTDIR
    | none =>
      match FS.mkdirAllRev umask perm fs parent with
      | .error e => .error e
      | .ok fs1 => .ok (((n :: parent).reverse, Node.dir (applyUmask perm umask)) :: fs1)

/-- Go's `os.MkdirAll` on a location. -/
def FS.mkdirAll (umask perm : Nat) (fs : FS) (loc : Loc) : Except Errno FS :=
  FS.mkdirAllRev umask perm fs loc.reverse

/-- The name under which a binding is an entry of the directory `parent`. -/
def FS.childName (parent key : Loc) : Option String :=
  match key.drop parent.length with
  | [n] => if key.take parent.length = parent ∧ validName n = true then some n else none
  | _ => none

/-- The order of file names: byte-wise. -/
def bytesLe : List Nat → List Nat → Bool
  | [], _ => true
  | _ :: _, [] => false
  | a :: as, b :: bs => decide (a < b) || (decide (a = b) && bytesLe as bs)

/-- The order `ioutil.ReadDir` sorts names by. -/
def nameLe (a b : String) : Prop :=
  bytesLe (a.data.map Char.toNat) (b.data.map Char.toNat) = true

instance : DecidableRel nameLe := fun a b =>
  inferInstanceAs (Decidable (bytesLe (a.data.map Char.toNat) (b.data.map Char.toNat) = true))

/-- The names of the entries of a directory, sorted as `ioutil.ReadDir` does. -/
def FS.names (fs : FS) (loc : Loc) : List String :=
  ((fs.filterMap (fun e => FS.childName loc e.1)).dedup).insertionSort nameLe

/-- The entries of a directory, in the order of their names. -/
def FS.readDir (fs : FS) (loc : Loc) : Except Errno (List FileInfo) :=
  match fs.node loc with
  | none => .error (fs.missing loc)
  | some (Node.file _ _) => .error Errno.ENOTDIR
  | some (Node.dir _) =>
    .ok ((fs.names loc).filterMap (fun n => (fs.node (loc ++ [n])).map (Node.info n)))

/-- Opening for reading: the path has to exist. -/
def FS.openRead (fs : FS) (loc : Loc) : Except Errno Unit :=
  match fs.node loc with
  | some _ => .ok ()
  | none => .error (fs.missing loc)

/-- Opening with `O_CREATE|O_TRUNC`: an existing file is emptied and keeps its
permission bits, a new one gets `perm` less the umask. -/
def FS.create (umask perm : Nat) (fs : FS) (loc : Loc) : Except Errno FS :=
  match fs.node loc with
  | some (Node.dir _) => .error Errno.EISDIR
  | some (Node.file m _) => .ok ((loc, Node.file m []) :: fs)
  | none =>
    match fs.node loc.dropLast with
    | some (Node.dir _) => .ok ((loc, Node.file (applyUmask perm umask) []) :: fs)
    | some (Node.file _ _) => .error Errno.ENOTDIR
    | none => .error (fs.missing loc)

/-- The content of a file. -/
def FS.readFile (fs : FS) (loc : Loc) : Except Errno (List Nat) :=
  match fs.node loc with
  | some (Node.file _ d) => .ok d
  | some (Node.dir _) => .error Errno.EISDIR
  | none => .error (fs.missing loc)

/-- New content for an existing file. -/
def FS.write (fs : FS) (loc : Loc) (data : List Nat) : Except Errno FS :=
  match fs.node loc with
  | some (Node.file m _) => .ok ((loc, Node.file m data) :: fs)
  | some (Node.dir _) => .error Errno.EISDIR
  | none => .error (fs.missing loc)

/-- The system call `chmod`. -/
def FS.chmod (fs : FS) (loc : Loc) (mode : Nat) : Except Errno FS :=
  match fs.node loc with
  | some (Node.file _ d) => .ok ((loc, Node.file mode d) :: fs)
  | some (Node.dir _) => .ok ((loc, Node.dir mode) :: fs)
  | none => .error (fs.missing loc)

/-- Whether a directory has an entry. -/
def FS.hasEntries (fs : FS) (loc : Loc) : Bool :=
  fs.any (fun e => (FS.childName loc e.1).isSome)

/-- The bindings after a move: what was at or under `new` is gone, what was at or
under `old` is at or under `new`. -/
def FS.move (fs : FS) (old new : Loc) : FS :=
  (fs.filter (fun e => ¬ new <+: e.1)).map
    (fun e => if old <+: e.1 then (new ++ e.1.drop old.length, e.2) else e)

/-- The system call `rename`. -/
def FS.rename (fs : FS) (old new : Loc) : Except Errno FS :=
  match fs.node old with
  | none => .error (fs.missing old)
  | some src =>
    if old = new then .ok fs
    else if old = [] ∨ new = [] ∨ old <+: new then .error Errno.EINVAL
    else if new <+: old then .error Errno.ENOTEMPTY
    else
      match fs.node new.dropLast with
      | none => .error (fs.missing new)
      | some (Node.file _ _) => .error Errno.ENOTDIR
      | some (Node.dir _) =>
        match src, fs.node new with
        | Node.file _ _, some (Node.dir _) => .error Errno.EISDIR
        | Node.dir _, some (Node.file _ _) => .error Errno.ENOTDIR
        | Node.dir _, some (Node.dir _) =>
          if fs.hasEntries new then .error Errno.ENOTEMPTY else .ok (fs.move old new)
        | _, _ => .ok (fs.move old new)

/-! ## The process and its system calls -/

/-- An error value of the Go program: an `*os.PathError`, an `*os.LinkError`, or
an error made of text (by `fmt.Errorf`, a command, or the plist package). -/
inductive Error where
  | path (op : String) (path : String) (errno : Errno)
  | link (op : String) (old : String) (new : String) (errno : Errno)
  | text (msg : String)
  deriving DecidableEq, Repr

/-- Go's `err.Error()`. -/
def Error.toStr : Error → String
  | .path op p e => op ++ " " ++ p ++ ": " ++ e.message
  | .link op old new e => op ++ " " ++ old ++ " " ++ new ++ ": " ++ e.message
  | .text msg => msg

/-- Go's `os.IsNotExist`. -/
def osIsNotExist : Error → Bool
  | .path _ _ Errno.ENOENT => true
  | .link _ _ _ Errno.ENOENT => true
  | _ => false

/-- One call out of the program: a system call or a command run, with its path
or command-line arguments and whether it failed. -/
structure Event where
  op : String
  args : List String
  failed : Bool
  deriving DecidableEq, Repr

/-- The state the program runs in. `faults` is the schedule of I/O failures: the
next system call fails with `EACCES` when the head of the list is `true`. A failing
call leaves the file system as it found it. -/
structure World where
  fs : FS
  cwd : Loc
  umask : Nat
  pathMax : Nat
  faults : List Bool
  trace : List Event
  stdout : List String
  stderr : List String
  deriving DecidableEq, Repr

/-- The location of a path argument of a system call. -/
def World.locate (w : World) (p : String) : Except Errno Loc :=
  if p.data = [] then .error Errno.ENOENT
  else if w.pathMax < byteLen p then .error Errno.ENAMETOOLONG
  else .ok (resolve w.cwd p)

/-- The state after a call: the file system it left, one fault decision taken,
the call recorded. -/
def World.record (w : World) (fs : FS) (ev : Event) : World :=
  { w with fs := fs, faults := w.faults.tail, trace := w.trace ++ [ev] }

/-- A system call: it takes the next fault decision, runs on the file system
unless it is made to fail, and is recorded. -/
def World.sys {α : Type} (w : World) (op : String) (args : List String)
    (run : Except Errno (α × FS)) : Except Errno α × World :=
  match (if w.faults.head? = some true then Except.error Errno.EACCES else run) with
  | .error e => (.error e, w.record w.fs ⟨op, args, true⟩)
  | .ok (a, fs) => (.ok a, w.record fs ⟨op, args, false⟩)

/-- The result of a call that returns only an error. -/
def errorOnly (op path : String) : Except Errno Unit × World → Option Error × World
  | (.error e, w) => (some (Error.path op path e), w)
  | (.ok _, w) => (none, w)

/-- The result of a call that returns a value and an error. -/
def withError {α : Type} (op path : String) : Except Errno α × World → Except Error α × World
  | (.error e, w) => (.error (Error.path op path e), w)
  | (.ok a, w) => (.ok a, w)

/-- Go's `os.Stat`. -/
def osStat (w : World) (name : String) : Except Error FileInfo × World :=
  withError "stat" name
    (w.sys "stat" [name] (do
      let loc ← w.locate name
      let fi ← w.fs.stat loc
      pure (fi, w.fs)))

/-- Go's `os.MkdirAll`, taken as one call: when it fails it has made no directory,
and the error names the path it was given. -/
def osMkdirAll (w : World) (path : String) (perm : Nat) : Option Error × World :=
  errorOnly "mkdir" path
    (w.sys "mkdirall" [path] (do
      let loc ← w.locate path
      let fs ← FS.mkdirAll w.umask perm w.fs loc
      pure ((), fs)))

/-- Go's `ioutil.ReadDir`: the entries of a directory, sorted by name. -/
def ioutilReadDir (w : World) (dirname : String) : Except Error (List FileInfo) × World :=
  withError "open" dirname
    (w.sys "readdir" [dirname] (do
      let loc ← w.locate dirname
      let fds ← w.fs.readDir loc
      pure (fds, w.fs)))

/-- Go's `os.Open`. The handle it returns is the path: the program does nothing
between opening a file and using it that could move or remove the file. -/
def osOpen (w : World) (name : String) : Option Error × World :=
  errorOnly "open" name
    (w.sys "open" [name] (do
      let loc ← w.locate name
      let _ ← w.fs.openRead loc
      pure ((), w.fs)))

/-- Go's `os.Create`: `O_RDWR|O_CREATE|O_TRUNC` with permission bits `0666`. -/
def osCreate (w : World) (name : String) : Option Error × World :=
  errorOnly "open" name
    (w.sys "create" [name] (do
      let loc ← w.locate name
      let fs ← FS.create w.umask 0o666 w.fs loc
      pure ((), fs)))

/-- Go's `io.Copy(dstfd, srcfd)` on two files just opened by `os.Open` and
`os.Create`: the content of the source is read, as it is now, and written to the
destination from its start. -/
def ioCopy (w : World) (dst src : String) : Option Error × World :=
  errorOnly "read" src
    (w.sys "copy" [dst, src] (do
      let s ← w.locate src
      let d ← w.locate dst
      let data ← w.fs.readFile s
      let fs ← w.fs.write d data
      pure ((), fs)))

/-- Go's `os.Chmod`. -/
def osChmod (w : World) (name : String) (mode : Nat) : Option Error × World :=
  errorOnly "chmod" name
    (w.sys "chmod" [name] (do
      let loc ← w.locate name
      let fs ← w.fs.chmod loc mode
      pure ((), fs)))

/-- Go's `os.Rename`. -/
def osRename (w : World) (oldpath newpath : String) : Option Error × World :=
  match w.sys "rename" [oldpath, newpath] (do
      let o ← w.locate oldpath
      let n ← w.locate newpath
      let fs ← w.fs.rename o n
      pure ((), fs)) with
  | (.error e, w1) => (some (Error.link "rename" oldpath newpath e), w1)
  | (.ok _, w1) => (none, w1)

/-- Go's `ioutil.ReadFile`. -/
def ioutilReadFile (w : World) (filename : String) : Except Error (List Nat) × World :=
  withError "open" filename
    (w.sys "readfile" [filename] (do
      let loc ← w.locate filename
      let data ← w.fs.readFile loc
      pure (data, w.fs)))

/-- Go's `ioutil.WriteFile`: the file is opened with `O_WRONLY|O_CREATE|O_TRUNC`
and the data written. -/
def ioutilWriteFile (w : World) (filename : String) (data : List Nat) (perm : Nat) :
    Option Error × World :=
  errorOnly "open" filename
    (w.sys "writefile" [filename] (do
      let loc ← w.locate filename
      let fs ← FS.create w.umask perm w.fs loc
      let fs ← fs.write loc data
      pure ((), fs)))

/-- Go's `fmt.Println` of an error. -/
def fmtPrintln (w : World) (err : Error) : World :=
  { w with stdout := w.stdout ++ [err.toStr] }

/-! ## The external collaborators -/

/-- A value of a property list, as the plist package decodes it into
`interface\x7b\x7d`. Reals and dates are carried as their encoded bits. -/
inductive PValue where
  | str (s : String)
  | int (n : Int)
  | real (bits : Nat)
  | bool (b : Bool)
  | data (bytes : List Nat)
  | date (bits : Nat)
  | array (items : List PValue)
  | dict (entries : List (String × PValue))

/-- A Go `map[string]interface\x7b\x7d`: the first binding of a key is its value. -/
abbrev Doc := List (String × PValue)

/-- Go's `pl[key] = value`. -/
def Doc.set (pl : Doc) (key : String) (value : PValue) : Doc :=
  (key, value) :: pl.filter (fun e => e.1 ≠ key)

/-- The serialization formats of the plist package. -/
inductive Format where
  | xml | binary | openStep | gnuStep
  deriving DecidableEq, Repr

/-- What the program does not implement itself: the `lipo` command, which is
given its arguments, the working directory and the file system and leaves a file
system and possibly an error behind, and the plist package's `Unmarshal` (into a
map) and `Marshal`. -/
structure Env where
  lipo : List String → Loc → FS → Option String × FS
  unmarshal : List Nat → Except String (Doc × Format)
  marshal : Doc → Format → Except String (List Nat)

/-- Go's `exec.Command(name, args...).Run()`. -/
def execRun (env : Env) (w : World) (name : String) (args : List String) : Option Error × World :=
  match env.lipo args w.cwd w.fs with
  | (some msg, fs) =>
    (some (Error.text msg), { w with fs := fs, trace := w.trace ++ [⟨name, args, true⟩] })
  | (none, fs) =>
    (none, { w with fs := fs, trace := w.trace ++ [⟨name, args, false⟩] })

/-- Go's `fmt.Errorf(format, err)` for a format that ends in `: %v`. -/
def fmtErrorf (msg : String) (err : Error) : Error :=
  Error.text (msg ++ ": " ++ err.toStr)

/-! ## The program -/

/-- The function `copyFile`: open the source, create the destination, copy the
content, stat the source, give the destination its permission bits; the first
error ends it. -/
def copyFile (w : World) (src dst : String) : Option Error × World :=
  match osOpen w src with
  | (some err, w1) => (some err, w1)
  | (none, w1) =>
    match osCreate w1 dst with
    | (some err, w2) => (some err, w2)
    | (none, w2) =>
      match ioCopy w2 dst src with
      | (some err, w3) => (some err, w3)
      | (none, w3) =>
        match osStat w3 src with
        | (.error err, w4) => (some err, w4)
        | (.ok srcinfo, w4) => osChmod w4 dst srcinfo.mode

/-- The body of the loop of `copyDir` for one entry, `rec` being `copyDir`
itself. The result is `none` when the nested call does not return. -/
def copyEntry (rec : World → String → String → Option (Option Error × World))
    (src dst : String) (w : World) (fd : FileInfo) : Option World :=
  let srcfp := pathJoin [src, fd.name]
  let dstfp := pathJoin [dst, fd.name]
  if fd.isDir then
    match rec w srcfp dstfp with
    | none => none
    | some (some err, w1) => some (fmtPrintln w1 err)
    | some (none, w1) => some w1
  else
    match copyFile w srcfp dstfp with
    | (some err, w1) => some (fmtPrintln w1 err)
    | (none, w1) => some w1

/-- The loop of `copyDir` over the entries read. -/
def copyEntries (rec : World → String → String → Option (Option Error × World))
    (src dst : String) : World → List FileInfo → Option World
  | w, [] => some w
  | w, fd :: fds =>
    match copyEntry rec src dst w fd with
    | none => none
    | some w1 => copyEntries rec src dst w1 fds

/-- The function `copyDir`. The first argument bounds the depth of the recursion;
the result is `none` when the bound is reached. -/
def copyDir : Nat → World → String → String → Option (Option Error × World)
  | 0, _, _, _ => none
  | fuel + 1, w, src, dst =>
    match osStat w src with
    | (.error err, w1) => some (some err, w1)
    | (.ok srcinfo, w1) =>
      match osMkdirAll w1 dst srcinfo.mode with
      | (some err, w2) => some (some err, w2)
      | (none, w2) =>
        match ioutilReadDir w2 src with
        | (.error err, w3) => some (some err, w3)
        | (.ok fds, w3) =>
          match copyEntries (copyDir fuel) src dst w3 fds with
          | none => none
          | some w4 => some (none, w4)

/-- The function `pathExists`. -/
def pathExists (w : World) (path : String) : (Bool × Option Error) × World :=
  match osStat w path with
  | (.ok _, w1) => ((true, none), w1)
  | (.error err, w1) =>
    if osIsNotExist err then ((false, none), w1)
    else ((false, some err), w1)

/-- The value the program stores under `CFBundleSupportedPlatforms`. -/
def supportedPlatforms : PValue :=
  PValue.array [PValue.str "iPhoneOS", PValue.str "iPhoneSimulator"]

/-- Lines 95 to 106 of `combineStaticLibraries`: `lipo` is run and its output
moved into the device bundle. -/
def mergeLibraries (env : Env) (w : World) (name simulatorBuildPath osBuildPath : String) :
    Option Error × World :=
  let libSubpath := name ++ ".framework/" ++ name
  let simulatorLibraryPath := pathJoin [simulatorBuildPath, libSubpath]
  let osLibraryPath := pathJoin [osBuildPath, libSubpath]
  let combinedLibraryPath := pathJoin [osBuildPath, name]
  match execRun env w "lipo"
      ["-create", simulatorLibraryPath, osLibraryPath, "-output", combinedLibraryPath] with
  | (some err, w1) => (some (fmtErrorf "failed to run lipo to combine static libraries" err), w1)
  | (none, w1) =>
    match osRename w1 combinedLibraryPath osLibraryPath with
    | (some err, w2) => (some (fmtErrorf "failed to move combined static library" err), w2)
    | (none, w2) => (none, w2)

/-- Lines 108 to 136 of `combineStaticLibraries`: the device bundle's `Info.plist`
is read, decoded, given its new `CFBundleSupportedPlatforms`, encoded in the
format it was found in, and written back. -/
def patchInfoPlist (env : Env) (w : World) (name osBuildPath : String) : Option Error × World :=
  let plistPath := pathJoin [osBuildPath, name ++ ".framework/Info.plist"]
  match ioutilReadFile w plistPath with
  | (.error err, w1) => (some (fmtErrorf "failed to read info plist file" err), w1)
  | (.ok plistData, w1) =>
    match env.unmarshal plistData with
    | .error msg => (some (fmtErrorf "failed to unmarshal plist file" (Error.text msg)), w1)
    | .ok (pl, format) =>
      match env.marshal (pl.set "CFBundleSupportedPlatforms" supportedPlatforms) format with
      | .error msg => (some (fmtErrorf "failed to marshal plist file" (Error.text msg)), w1)
      | .ok plistData' =>
        match ioutilWriteFile w1 plistPath plistData' 0o644 with
        | (some err, w2) => (some (fmtErrorf "failed to write plist file" err), w2)
        | (none, w2) => (none, w2)

/-- The function `combineStaticLibraries`: the merge, the patch of `Info.plist`,
and the copy of the device bundle to the output folder. The result is `none` when
the copy does not return within `fuel`. -/
def combineStaticLibraries (env : Env) (fuel : Nat) (w : World)
    (name simulatorBuildPath osBuildPath outputPath : String) : Option (Option Error × World) :=
  let frameworkPath := name ++ ".framework"
  match mergeLibraries env w name simulatorBuildPath osBuildPath with
  | (some err, w1) => some (some err, w1)
  | (none, w1) =>
    match patchInfoPlist env w1 name osBuildPath with
    | (some err, w2) => some (some err, w2)
    | (none, w2) =>
      copyDir fuel w2 (pathJoin [osBuildPath, frameworkPath]) (pathJoin [outputPath, frameworkPath])

/-- The values of the command-line flags. -/
structure Flags where
  user : String
  sdkProjectName : String
  buildConfig : String
  frameworkName : String
  outputFolder : String
  deriving DecidableEq, Repr

/-- The defaults given to `flag.StringVar`. -/
def flagDefaults : Flags :=
  ⟨"", "", "Release", "", ""⟩

/-- One `-name value` pair of the command line; `none` for a flag not defined. -/
def flagSet (f : Flags) (name value : String) : Option Flags :=
  if name = "user" then some { f with user := value }
  else if name = "project" then some { f with sdkProjectName := value }
  else if name = "buildconfig" then some { f with buildConfig := value }
  else if name = "framework" then some { f with frameworkName := value }
  else if name = "output" then some { f with outputFolder := value }
  else none

/-- Go's `flag.Parse` on the `-name value` pairs of the command line. -/
def flagParse : Flags → List (String × String) → Option Flags
  | f, [] => some f
  | f, (name, value) :: rest =>
    match flagSet f name value with
    | none => none
    | some f1 => flagParse f1 rest

/-- Go's `log.Fatalf`: the message goes to standard error and the process exits
with status 1. -/
def logFatalf (w : World) (msg : String) : Nat × World :=
  (1, { w with stderr := w.stderr ++ [msg] })

/-- The loop of `main` over the listing of the derived-data folder. -/
def findProject (derivedDataPath sdkProjectName : String) : List FileInfo → String
  | [] => ""
  | f :: files =>
    if stringsHasPrefix f.name sdkProjectName then pathJoin [derivedDataPath, f.name]
    else findProject derivedDataPath sdkProjectName files

/-- The function `main`: the exit status and the final state, `none` when the copy
does not return within `fuel`. -/
def main (env : Env) (fuel : Nat) (w : World) (args : List (String × String)) :
    Option (Nat × World) :=
  match flagParse flagDefaults args with
  | none => some (2, { w with stderr := w.stderr ++ ["flag provided but not defined"] })
  | some fl =>
    if fl.user = "" then some (logFatalf w "user must be set\n")
    else if fl.sdkProjectName = "" then some (logFatalf w "project must be set\n")
    else if fl.frameworkName = "" then some (logFatalf w "framework must be set\n")
    else if fl.outputFolder = "" then some (logFatalf w "output must be set\n")
    else
      let derivedDataPath := pathJoin ["/Users", fl.user, "/Library/Developer/Xcode/DerivedData"]
      match pathExists w derivedDataPath with
      | ((_, some err), w1) =>
        some (logFatalf w1 ("failed to os.Stat() derived data folder: " ++ err.toStr ++ "\n"))
      | ((false, none), w1) => some (logFatalf w1 "can't find Xcode derived data folder\n")
      | ((true, none), w1) =>
        match ioutilReadDir w1 derivedDataPath with
        | (.error err, w2) =>
          some (logFatalf w2
            ("failed to read contents of derived data path: " ++ err.toStr ++ "\n"))
        | (.ok files, w2) =>
          let sdkProjectPath := findProject derivedDataPath fl.sdkProjectName files
          let simulatorBuildPath :=
            pathJoin [sdkProjectPath, "Build/Products/" ++ fl.buildConfig ++ "-iphonesimulator"]
          let osBuildPath :=
            pathJoin [sdkProjectPath, "Build/Products/" ++ fl.buildConfig ++ "-iphoneos"]
          match combineStaticLibraries env fuel w2 fl.frameworkName simulatorBuildPath
              osBuildPath fl.outputFolder with
          | none => none
          | some (some err, w3) => some (logFatalf w3 (err.toStr ++ "\n"))
          | some (none, w3) =>
            some (0, { w3 with stderr := w3.stderr ++ ["created fat library with simulator support"] })

/-! ## Vocabulary of the theorems -/

/-- What a run leaves alone and what it only adds to: the working directory, the
umask, the path-length limit and standard error stay, standard output and the
record of calls grow at the end. -/
def World.Extends (w w' : World) : Prop :=
  w'.cwd = w.cwd ∧ w'.umask = w.umask ∧ w'.pathMax = w.pathMax ∧ w'.stderr = w.stderr ∧
    w.stdout <+: w'.stdout ∧ w.trace <+: w'.trace

/-- The path the program builds for the entry reached from `base` by the names
`rel`: one `path.Join` per name. -/
def entryPath (base : String) (rel : List String) : String :=
  rel.foldl (fun p n => pathJoin [p, n]) base

/-- The names `rel` lead from the directory at `root` down to an entry: each is
the name of an entry of the directory reached before it. -/
def FS.reaches (fs : FS) (root : Loc) : List String → Prop
  | [] => True
  | n :: rel =>
    validName n = true ∧ (∃ m, fs.node root = some (Node.dir m)) ∧ FS.reaches fs (root ++ [n]) rel

/-- The path an error is about. -/
def Error.subject : Error → Option String
  | .path _ p _ => some p
  | _ => none

/-- The error value a failed call hands to the program, given the error number
the system reported: the operation and path that `os` and `ioutil` put into an
`*os.PathError`, resp. `*os.LinkError`. -/
def Event.error (ev : Event) (errno : Errno) : Option Error :=
  match ev.args with
  | [p] =>
    if ev.op = "stat" then some (Error.path "stat" p errno)
    else if ev.op = "mkdirall" then some (Error.path "mkdir" p errno)
    else if ev.op = "chmod" then some (Error.path "chmod" p errno)
    else if ev.op = "readdir" ∨ ev.op = "open" ∨ ev.op = "create" ∨ ev.op = "readfile" ∨
        ev.op = "writefile" then some (Error.path "open" p errno)
    else none
  | [a, b] =>
    if ev.op = "copy" then some (Error.path "read" b errno)
    else if ev.op = "rename" then some (Error.link "rename" a b errno)
    else none
  | _ => none

/-- Among the calls `calls` one failed that was made on the entry `rel` of the
tree copied from `src` to `dst`, or on a directory of the tree on the way to it:
a call with the entry's source path or destination path as an argument. -/
def copyFailed (calls : List Event) (src dst : String) (rel : List String) : Prop :=
  ∃ k, 0 < k ∧ k ≤ rel.length ∧ ∃ ev ∈ calls, ev.failed = true ∧
    (entryPath src (rel.take k) ∈ ev.args ∨ entryPath dst (rel.take k) ∈ ev.args)

/-- The lines `out` are the errors of the failed calls among `calls`: one line for
each failed call, in the order of the calls, the line being the text of an error
such a call returns (its operation, its path, and the message of an error
number; the record of calls does not keep the number). -/
def Printed (calls : List Event) (out : List String) : Prop :=
  List.Forall₂ (fun ev line => ∃ errno e, ev.error errno = some e ∧ line = e.toStr)
    (calls.filter (fun ev => ev.failed)) out

/-- What a run from `w` to `w'` with result `r` did and printed: it added calls to
the record and lines to the standard output; when it returned nil the lines are
the errors of the failed calls; when it returned an error, that is the error of
the last call, which failed, and the lines are the errors of the failed calls
before it. -/
def Logged (w w' : World) (r : Option Error) : Prop :=
  ∃ calls out, w'.trace = w.trace ++ calls ∧ w'.stdout = w.stdout ++ out ∧
    match r with
    | none => Printed calls out
    | some e => ∃ pre ev errno, calls = pre ++ [ev] ∧ ev.failed = true ∧
        ev.error errno = some e ∧ Printed pre out

/-- The permission bits of a node. -/
def Node.mode : Node → Nat
  | Node.file m _ => m
  | Node.dir m => m

/-- The node `after` in the destination is the copy of the source node `x`, where
the destination had `before`: a file has the content and permission bits of the
source file; a directory is a directory, with the permission bits of the source
directory less the umask when the copy made it and with its own when it was
there already. -/
def Mirrored (umask : Nat) (before after : Option Node) : Node → Prop
  | Node.file m d => after = some (Node.file m d)
  | Node.dir m =>
    ∃ m', after = some (Node.dir m') ∧ (before = none → m' = applyUmask m umask) ∧
      (∀ m0, before = some (Node.dir m0) → m' = m0)

/-- The node `after` in the destination is a copy of the source node `x`: for a
file, a file with the same content and permission bits; for a directory, a
directory. -/
def Copied (after : Option Node) : Node → Prop
  | Node.file m d => after = some (Node.file m d)
  | Node.dir _ => ∃ m', after = some (Node.dir m')

/-- Neither location is at or under the other. -/
def Apart (a b : Loc) : Prop :=
  ¬ a <+: b ∧ ¬ b <+: a

/-- The arguments `combineStaticLibraries` gives to `lipo`. -/
def lipoArgs (name simulatorBuildPath osBuildPath : String) : List String :=
  ["-create", pathJoin [simulatorBuildPath, name ++ ".framework/" ++ name],
    pathJoin [osBuildPath, name ++ ".framework/" ++ name], "-output",
    pathJoin [osBuildPath, name]]

/-- The path `main` builds for the derived-data folder of a user. -/
def derivedDataPathOf (user : String) : String :=
  pathJoin ["/Users", user, "/Library/Developer/Xcode/DerivedData"]

/-- The path `main` builds for the simulator build under a project folder. -/
def simulatorBuildPathOf (sdkProjectPath buildConfig : String) : String :=
  pathJoin [sdkProjectPath, "Build/Products/" ++ buildConfig ++ "-iphonesimulator"]

/-- The path `main` builds for the device build under a project folder. -/
def osBuildPathOf (sdkProjectPath buildConfig : String) : String :=
  pathJoin [sdkProjectPath, "Build/Products/" ++ buildConfig ++ "-iphoneos"]

/-- The end of `main`: what it makes of the result of `combineStaticLibraries`. -/
def mainExit : Option (Option Error × World) → Option (Nat × World)
  | none => none
  | some (some err, w) => some (logFatalf w (err.toStr ++ "\n"))
  | some (none, w) =>
    some (0, { w with stderr := w.stderr ++ ["created fat library with simulator support"] })

/-- The path of a framework's bundle under a build folder. -/
def bundlePathOf (name buildPath : String) : String :=
  pathJoin [buildPath, name ++ ".framework"]

/-- The path of a framework's binary under a build folder. -/
def libraryPathOf (name buildPath : String) : String :=
  pathJoin [buildPath, name ++ ".framework/" ++ name]

/-- The path of the device bundle's `Info.plist`. -/
def plistPathOf (name osBuildPath : String) : String :=
  pathJoin [osBuildPath, name ++ ".framework/Info.plist"]

/-- What a run that writes at or under `d` leaves of the file system: a location
not at or under `d` keeps the node it has, and keeps having none unless it is on
the way to `d`. -/
def FS.Frame (d : Loc) (fs fs' : FS) : Prop :=
  ∀ p, ¬ d <+: p →
    (¬ p <+: d → fs'.node p = fs.node p) ∧ (∀ n, fs.node p = some n → fs'.node p = some n)

/-- What is asked of the function called for a subdirectory. -/
def RecOk (rec : World → String → String → Option (Option Error × World)) : Prop :=
  ∀ w s d r w', rec w s d = some (r, w') →
    w.Extends w' ∧ FS.Frame (resolve w.cwd d) w.fs w'.fs

/-- The depth of recursion that `copyDir` cannot exceed in a world: the
path-length limit stops it. -/
def World.depthBound (w : World) : Nat :=
  w.cwd.length + w.pathMax + 3

/-! ## Worlds of the examples -/

/-- A tree at `/s`: two files and a directory holding a file. -/
def treeFS : FS :=
  [(["s"], Node.dir 0o755), (["s", "a"], Node.file 0o644 [1, 2, 3]),
    (["s", "b"], Node.dir 0o750), (["s", "b", "g"], Node.file 0o600 [9]),
    (["s", "c"], Node.file 0o640 [4])]

/-- A process at the root with umask `022`, a path-length limit of 64 bytes and no
fault scheduled. -/
def worldOf (fs : FS) : World :=
  ⟨fs, [], 0o022, 64, [], [], [], []⟩

/-- The tree, and a destination `/d` in which the name `a` is taken by a
directory and the name `b` by a file. -/
def clashFS : FS :=
  treeFS ++ [(["d"], Node.dir 0o700), (["d", "a"], Node.dir 0o700),
    (["d", "b"], Node.file 0o600 [])]

/-- The tree, and a destination `/d` that has a directory `b` already, with
permission bits of its own. -/
def staleFS : FS :=
  treeFS ++ [(["d"], Node.dir 0o700), (["d", "b"], Node.dir 0o700)]

/-- A stand-in for `lipo`: it fails when one of the two inputs cannot be read, and
otherwise writes the one after the other to the output. -/
def demoLipo : List String → Loc → FS → Option String × FS
  | [_, a, b, _, out], cwd, fs =>
    match fs.readFile (resolve cwd a), fs.readFile (resolve cwd b) with
    | .ok x, .ok y => (none, (resolve cwd out, Node.file 0o644 (x ++ y)) :: fs)
    | _, _ => (some "exit status 1", fs)
  | _, _, fs => (some "exit status 1", fs)

/-- A stand-in for `plist.Unmarshal`, for documents that hold a version number and
possibly the supported platforms. -/
def demoUnmarshal : List Nat → Except String (Doc × Format)
  | [0, n] => .ok ([("CFBundleVersion", PValue.int n)], Format.xml)
  | [1, n] =>
    .ok ([("CFBundleSupportedPlatforms", supportedPlatforms),
      ("CFBundleVersion", PValue.int n)], Format.xml)
  | _ => .error "unexpected plist data"

/-- A stand-in for `plist.Marshal`, for the same documents. -/
def demoMarshal : Doc → Format → Except String (List Nat)
  | [(k1, PValue.array [PValue.str a, PValue.str b]), (k2, PValue.int (Int.ofNat n))],
      Format.xml =>
    if k1 = "CFBundleSupportedPlatforms" ∧ a = "iPhoneOS" ∧ b = "iPhoneSimulator" ∧
        k2 = "CFBundleVersion" then .ok [1, n]
    else .error "unsupported document"
  | _, _ => .error "unsupported document"

/-- The stand-ins together. -/
def demoEnv : Env :=
  ⟨demoLipo, demoUnmarshal, demoMarshal⟩

/-- The two builds of a framework `Lib` under `/b`, and an output folder `/out`. -/
def bundleFS : FS :=
  [(["b"], Node.dir 0o755), (["b", "sim"], Node.dir 0o755),
    (["b", "sim", "Lib.framework"], Node.dir 0o755),
    (["b", "sim", "Lib.framework", "Lib"], Node.file 0o755 [1]),
    (["b", "sim", "Lib.framework", "Info.plist"], Node.file 0o644 [0, 7]),
    (["b", "os"], Node.dir 0o755), (["b", "os", "Lib.framework"], Node.dir 0o755),
    (["b", "os", "Lib.framework", "Lib"], Node.file 0o755 [2]),
    (["b", "os", "Lib.framework", "Info.plist"], Node.file 0o644 [0, 7]),
    (["out"], Node.dir 0o755)]

/-- The two builds, the device bundle's `Info.plist` holding something that is no
property list. -/
def brokenFS : FS :=
  (["b", "os", "Lib.framework", "Info.plist"], Node.file 0o644 [9, 9]) :: bundleFS

/-- The derived-data folder of the user `u`, holding one folder, `Other-abc`. -/
def derivedFS : FS :=
  [(["Users"], Node.dir 0o755), (["Users", "u"], Node.dir 0o755),
    (["Users", "u", "Library"], Node.dir 0o755),
    (["Users", "u", "Library", "Developer"], Node.dir 0o755),
    (["Users", "u", "Library", "Developer", "Xcode"], Node.dir 0o755),
    (["Users", "u", "Library", "Developer", "Xcode", "DerivedData"], Node.dir 0o755),
    (["Users", "u", "Library", "Developer", "Xcode", "DerivedData", "Other-abc"],
      Node.dir 0o755)]

/-- The derived-data folder of the user `u`, holding a folder that does not match
the prefix `Proj`, a file that does, and a folder that does. -/
def projectsFS : FS :=
  [(["Users", "u", "Library", "Developer", "Xcode", "DerivedData", "Proj-fgh"],
      Node.dir 0o755),
    (["Users", "u", "Library", "Developer", "Xcode", "DerivedData", "Proj-build.log"],
      Node.file 0o644 [])] ++ derivedFS

/-- The state `main` is in after the stat and the listing of the derived-data
folder of `u`. -/
def listedWorld : World :=
  ((worldOf derivedFS).record derivedFS ⟨"stat", [derivedDataPathOf "u"], false⟩).record
    derivedFS ⟨"readdir", [derivedDataPathOf "u"], false⟩

/-- A command line that sets the four required flags. -/
def demoArgs : List (String × String) :=
  [("user", "u"), ("project", "Proj"), ("framework", "Lib"), ("output", "/out")]

/-! ## Paths -/

theorem splitSlash_ne_nil (s : List Char) : splitSlash s ≠ [] := by
  cases s with
  | nil => simp [splitSlash]
  | cons c cs =>
    simp only [splitSlash]
    split <;> simp

theorem splitSlash_append_slash (a b : List Char) :
    splitSlash (a ++ '/' :: b) = splitSlash a ++ splitSlash b := by
  induction a with
  | nil => simp [splitSlash]
  | cons c cs ih =>
    by_cases hc : c = '/'
    · simp [splitSlash, hc, ih]
    · simp only [List.cons_append, splitSlash, hc, if_false]
      have ih2 : splitSlash (cs.append ('/' :: b)) = splitSlash cs ++ splitSlash b := ih
      rw [ih2]
      rcases hs : splitSlash cs with _ | ⟨h, t⟩
      · exact absurd hs (splitSlash_ne_nil cs)
      · simp

theorem splitSlash_of_noSlash (u : List Char) (h : '/' ∉ u) : splitSlash u = [u] := by
  induction u with
  | nil => simp [splitSlash]
  | cons c cs ih =>
    simp only [List.mem_cons, not_or] at h
    have hc : c ≠ '/' := fun e => h.1 e.symm
    simp [splitSlash, hc, ih h.2]

theorem noSlash_of_mem_splitSlash (s e : List Char) (h : e ∈ splitSlash s) : '/' ∉ e := by
  induction s generalizing e with
  | nil => simp [splitSlash] at h; simp [h]
  | cons c cs ih =>
    by_cases hc : c = '/'
    · simp only [splitSlash, hc, if_true, List.mem_cons] at h
      rcases h with h | h
      · simp [h]
      · exact ih e h
    · simp only [splitSlash, hc, if_false] at h
      rcases hs : splitSlash cs with _ | ⟨x, t⟩
      · exact absurd hs (splitSlash_ne_nil cs)
      · rw [hs] at h
        simp only [List.mem_cons, List.headD_cons, List.tail_cons] at h
        rcases h with h | h
        · have hx := ih x (by simp [hs])
          subst h
          simp only [List.mem_cons, not_or]
          exact ⟨fun e => hc e.symm, hx⟩
        · exact ih e (by simp [hs, h])

theorem splitSlash_joinSlash (st : List (List Char)) (hne : st ≠ [])
    (h : ∀ e ∈ st, '/' ∉ e) : splitSlash (joinSlash st) = st := by
  induction st with
  | nil => exact absurd rfl hne
  | cons a rest ih =>
    cases rest with
    | nil => simpa [joinSlash] using splitSlash_of_noSlash a (h a (by simp))
    | cons b rest =>
      simp only [joinSlash]
      rw [splitSlash_append_slash, splitSlash_of_noSlash a (h a (by simp)),
        ih (by simp) (fun e he => h e (List.mem_cons_of_mem _ he))]
      rfl

theorem splitSlash_length_le (s : List Char) : (splitSlash s).length ≤ s.length + 1 := by
  induction s with
  | nil => simp [splitSlash]
  | cons c cs ih =>
    have := splitSlash_ne_nil cs
    simp only [splitSlash]
    split
    · simp; omega
    · simp only [List.length_cons, List.length_tail]; omega

/-- The elements kept so far are neither empty nor `.`. -/
theorem cleanStep_inv (r : Bool) (st : List (List Char)) (c : List Char)
    (h : ∀ e ∈ st, e ≠ [] ∧ e ≠ ['.']) : ∀ e ∈ cleanStep r st c, e ≠ [] ∧ e ≠ ['.'] := by
  unfold cleanStep
  split
  · exact h
  · rename_i h1
    simp only [not_or] at h1
    split
    · rename_i h2
      split
      · split
        · intro e he
          simp only [List.mem_cons] at he
          rcases he with he | he | he
          · subst he; exact h1
          · exact h e (by simp [he])
          · exact h e (by simp [he])
        · intro e he; exact h e (by simp [he])
      · split
        · simp
        · intro e he
          simp only [List.mem_singleton] at he
          subst he; exact h1
    · intro e he
      simp only [List.mem_cons] at he
      rcases he with he | he
      · subst he; exact h1
      · exact h e he

theorem cleanFold_inv (r : Bool) (cs : List (List Char)) (st : List (List Char))
    (h : ∀ e ∈ st, e ≠ [] ∧ e ≠ ['.']) :
    ∀ e ∈ cs.foldl (cleanStep r) st, e ≠ [] ∧ e ≠ ['.'] := by
  induction cs generalizing st with
  | nil => simpa using h
  | cons c cs ih => exact ih _ (cleanStep_inv r st c h)

theorem noSlash_cleanStep (r : Bool) (st : List (List Char)) (c : List Char)
    (hc : '/' ∉ c) (h : ∀ e ∈ st, '/' ∉ e) : ∀ e ∈ cleanStep r st c, '/' ∉ e := by
  unfold cleanStep
  split
  · exact h
  · split
    · split
      · split
        · intro e he
          simp only [List.mem_cons] at he
          rcases he with he | he | he
          · subst he; exact hc
          · exact h e (by simp [he])
          · exact h e (by simp [he])
        · intro e he; exact h e (by simp [he])
      · split
        · simp
        · intro e he
          simp only [List.mem_singleton] at he
          subst he; exact hc
    · intro e he
      simp only [List.mem_cons] at he
      rcases he with he | he
      · subst he; exact hc
      · exact h e he

theorem noSlash_cleanFold (r : Bool) (cs : List (List Char)) (st : List (List Char))
    (hcs : ∀ c ∈ cs, '/' ∉ c) (h : ∀ e ∈ st, '/' ∉ e) :
    ∀ e ∈ cs.foldl (cleanStep r) st, '/' ∉ e := by
  induction cs generalizing st with
  | nil => simpa using h
  | cons c cs ih =>
    exact ih _ (fun c' hc' => hcs c' (List.mem_cons_of_mem _ hc'))
      (noSlash_cleanStep r st c (hcs c (by simp)) h)

theorem resolveStep_skip (loc : Loc) (c : List Char) (h : c = [] ∨ c = ['.']) :
    resolveStep loc c = loc := by
  simp [resolveStep, h]

theorem resolveStep_dotdot (loc : Loc) : resolveStep loc ['.', '.'] = loc.dropLast := by
  simp [resolveStep]

theorem resolveStep_name (loc : Loc) (c : List Char) (h1 : c ≠ []) (h2 : c ≠ ['.'])
    (h3 : c ≠ ['.', '.']) : resolveStep loc c = loc ++ [String.mk c] := by
  simp [resolveStep, h1, h2, h3]

theorem resolve_cleanStep (r : Bool) (base : Loc) (hb : r = true → base = [])
    (st : List (List Char)) (c : List Char) (h : ∀ e ∈ st, e ≠ [] ∧ e ≠ ['.']) :
    (cleanStep r st c).reverse.foldl resolveStep base
      = resolveStep (st.reverse.foldl resolveStep base) c := by
  by_cases h1 : c = [] ∨ c = ['.']
  · rw [resolveStep_skip _ _ h1]; simp [cleanStep, h1]
  · by_cases h2 : c = ['.', '.']
    · subst h2
      rw [resolveStep_dotdot]
      cases st with
      | nil =>
        cases r with
        | true => simp [cleanStep, hb rfl]
        | false => simp [cleanStep, resolveStep]
      | cons top rest =>
        by_cases h3 : top = ['.', '.']
        · subst h3
          simp [cleanStep, List.foldl_append, resolveStep]
        · have ht := h top (by simp)
          simp [cleanStep, h3, List.foldl_append, resolveStep_name _ top ht.1 ht.2 h3]
    · simp only [not_or] at h1
      simp [cleanStep, h1, h2, List.foldl_append]

/-- Following the cleaned elements leads where following the elements leads. -/
theorem resolve_cleanFold (r : Bool) (base : Loc) (hb : r = true → base = [])
    (cs : List (List Char)) (st : List (List Char)) (h : ∀ e ∈ st, e ≠ [] ∧ e ≠ ['.']) :
    (cs.foldl (cleanStep r) st).reverse.foldl resolveStep base
      = cs.foldl resolveStep (st.reverse.foldl resolveStep base) := by
  induction cs generalizing st with
  | nil => rfl
  | cons c cs ih =>
    simp only [List.foldl_cons]
    rw [ih _ (cleanStep_inv r st c h), resolve_cleanStep r base hb st c h]

theorem isRooted_append (a b : List Char) (h : a ≠ []) : isRooted (a ++ b) = isRooted a := by
  cases a with
  | nil => exact absurd rfl h
  | cons c cs => rfl

theorem joinSlash_eq_nil (st : List (List Char)) (h : ∀ e ∈ st, e ≠ [])
    (hj : joinSlash st = []) : st = [] := by
  cases st with
  | nil => rfl
  | cons a rest =>
    cases rest with
    | nil => simp [joinSlash] at hj; exact absurd hj (h a (by simp))
    | cons b rest => simp [joinSlash] at hj

theorem isRooted_joinSlash (st : List (List Char)) (h : ∀ e ∈ st, e ≠ [] ∧ '/' ∉ e) :
    isRooted (joinSlash st) = false := by
  cases st with
  | nil => rfl
  | cons a rest =>
    have ha := h a (by simp)
    cases a with
    | nil => exact absurd rfl ha.1
    | cons c cs =>
      have hc : c ≠ '/' := fun e => ha.2 (by simp [e])
      cases rest with
      | nil => simp [joinSlash, isRooted, hc]
      | cons b rest => simp [joinSlash, isRooted, hc]

/-- The elements of a cleaned path, followed from anywhere. -/
theorem foldl_resolveStep_render (base : Loc) (st : List (List Char))
    (h : ∀ e ∈ st, '/' ∉ e) :
    (splitSlash (joinSlash st)).foldl resolveStep base = st.foldl resolveStep base := by
  cases st with
  | nil => simp [joinSlash, splitSlash, resolveStep]
  | cons a rest => rw [splitSlash_joinSlash _ (by simp) h]

theorem cleanElems_inv (r : Bool) (s : List Char) :
    ∀ e ∈ cleanElems r s, (e ≠ [] ∧ e ≠ ['.']) ∧ '/' ∉ e := by
  intro e he
  simp only [cleanElems, List.mem_reverse] at he
  exact ⟨cleanFold_inv r _ [] (by simp) e he,
    noSlash_cleanFold r _ [] (fun c hc => noSlash_of_mem_splitSlash s c hc) (by simp) e he⟩

theorem resolve_of_rooted (cwd : Loc) (p : String) (h : isRooted p.data = true) :
    resolve cwd p = (splitSlash p.data).foldl resolveStep [] := by
  simp [resolve, h]

theorem resolve_of_not_rooted (cwd : Loc) (p : String) (h : isRooted p.data = false) :
    resolve cwd p = (splitSlash p.data).foldl resolveStep cwd := by
  simp [resolve, h]

theorem foldl_splitSlash_slash (base : Loc) (j : List Char) :
    (splitSlash ('/' :: j)).foldl resolveStep base = (splitSlash j).foldl resolveStep base := by
  simp [splitSlash, resolveStep]

/-- A path and its cleaned form name the same location. -/
theorem resolve_pathClean (cwd : Loc) (p : String) :
    resolve cwd (pathClean p) = resolve cwd p := by
  unfold pathClean
  by_cases hp : p.data = []
  · simp [hp, resolve, splitSlash, resolveStep, isRooted]
  · simp only [hp, if_false]
    have hinv := cleanElems_inv (isRooted p.data) p.data
    have key : ∀ base : Loc, (isRooted p.data = true → base = []) →
        (cleanElems (isRooted p.data) p.data).foldl resolveStep base
          = (splitSlash p.data).foldl resolveStep base := by
      intro base hb
      have := resolve_cleanFold (isRooted p.data) base hb (splitSlash p.data) [] (by simp)
      simpa [cleanElems] using this
    by_cases hr : isRooted p.data = true
    · rw [if_pos hr, resolve_of_rooted cwd p hr, resolve_of_rooted _ _ (by rfl)]
      show (splitSlash ('/' :: _)).foldl resolveStep [] = _
      rw [foldl_splitSlash_slash, foldl_resolveStep_render _ _ (fun e he => (hinv e he).2)]
      exact key [] (fun _ => rfl)
    · simp only [Bool.not_eq_true] at hr
      rw [if_neg (by simp [hr]), resolve_of_not_rooted cwd p hr]
      have k := key cwd (by simp [hr])
      by_cases hj : joinSlash (cleanElems (isRooted p.data) p.data) = []
      · have hnil := joinSlash_eq_nil _ (fun e he => (hinv e he).1.1) hj
        rw [hnil] at k
        rw [if_pos hj, ← k]
        rfl
      · rw [if_neg hj, resolve_of_not_rooted, ← k]
        · exact foldl_resolveStep_render _ _ (fun e he => (hinv e he).2)
        · exact isRooted_joinSlash _ (fun e he => ⟨(hinv e he).1.1, (hinv e he).2⟩)

theorem pathJoin_pair (s n : String) (hs : s.data ≠ []) :
    pathJoin [s, n] = pathClean (s ++ "/" ++ n) := by
  have : s ≠ "" := fun e => hs (by rw [e])
  simp [pathJoin, List.dropWhile, this, stringsJoin]

theorem validName_iff (n : String) :
    validName n = true ↔ n.data ≠ [] ∧ '/' ∉ n.data ∧ n.data ≠ ['.'] ∧ n.data ≠ ['.', '.'] := by
  simp [validName]

/-- The location of an entry of a directory: the directory's, then the name. -/
theorem resolve_pathJoin_name (cwd : Loc) (s n : String) (hs : s.data ≠ [])
    (hn : validName n = true) : resolve cwd (pathJoin [s, n]) = resolve cwd s ++ [n] := by
  rw [validName_iff] at hn
  rw [pathJoin_pair s n hs, resolve_pathClean]
  have hd : (s ++ "/" ++ n).data = s.data ++ '/' :: n.data := by
    simp [String.data_append]
  unfold resolve
  rw [hd, isRooted_append _ _ hs, splitSlash_append_slash, List.foldl_append,
    splitSlash_of_noSlash _ hn.2.1]
  simp only [List.foldl_cons, List.foldl_nil]
  rw [resolveStep_name _ _ hn.1 hn.2.2.1 hn.2.2.2]

theorem pathClean_ne_nil (p : String) : (pathClean p).data ≠ [] := by
  unfold pathClean
  by_cases hp : p.data = []
  · simp [hp]
  · by_cases hr : isRooted p.data = true
    · simp [hp, hr]
    · simp only [Bool.not_eq_true] at hr
      by_cases hj : joinSlash (cleanElems false p.data) = []
      · simp [hp, hr, hj]
      · simp [hp, hr, hj]

theorem foldl_resolveStep_length (cs : List (List Char)) (base : Loc) :
    (cs.foldl resolveStep base).length ≤ base.length + cs.length := by
  induction cs generalizing base with
  | nil => simp
  | cons c cs ih =>
    simp only [List.foldl_cons, List.length_cons]
    have h1 := ih (resolveStep base c)
    have h2 : (resolveStep base c).length ≤ base.length + 1 := by
      unfold resolveStep
      split
      · omega
      · split
        · simp; omega
        · simp
    omega

theorem length_le_byteLen (s : String) : s.data.length ≤ byteLen s := by
  unfold byteLen
  induction s.data with
  | nil => simp
  | cons c cs ih =>
    have := Char.utf8Size_pos c
    simp only [List.length_cons, List.map_cons, List.sum_cons]
    omega

theorem resolve_length_le (cwd : Loc) (p : String) :
    (resolve cwd p).length ≤ cwd.length + byteLen p + 1 := by
  unfold resolve
  have h1 := foldl_resolveStep_length (splitSlash p.data) (if isRooted p.data then [] else cwd)
  have h2 := splitSlash_length_le p.data
  have h3 := length_le_byteLen p
  have h4 : (if isRooted p.data = true then ([] : Loc) else cwd).length ≤ cwd.length := by
    split <;> simp
  omega

/-! ## The file system calls -/

theorem FS.node_cons (fs : FS) (loc p : Loc) (n : Node) :
    FS.node ((loc, n) :: fs) p = if p = loc then some n else fs.node p := by
  unfold FS.node
  by_cases h : p = loc
  · subst h; simp [List.lookup]
  · have : (p == loc) = false := by simpa using h
    simp [List.lookup, this, h]

theorem FS.node_cons_self (fs : FS) (loc : Loc) (n : Node) :
    FS.node ((loc, n) :: fs) loc = some n := by
  simp [FS.node_cons]

theorem FS.node_cons_ne (fs : FS) (loc p : Loc) (n : Node) (h : p ≠ loc) :
    FS.node ((loc, n) :: fs) p = fs.node p := by
  simp [FS.node_cons, h]

/-- What `os.MkdirAll` leaves behind: a directory at the location; what was
there before stays; only locations on the way to it can have changed. -/
theorem FS.mkdirAllRev_spec (umask perm : Nat) (rl : List String) (fs fs' : FS)
    (h : FS.mkdirAllRev umask perm fs rl = .ok fs') :
    (∃ m, fs'.node rl.reverse = some (Node.dir m) ∧
        (fs.node rl.reverse = none → m = applyUmask perm umask) ∧
        (∀ m0, fs.node rl.reverse = some (Node.dir m0) → m = m0)) ∧
      (∀ p n, fs.node p = some n → fs'.node p = some n) ∧
      (∀ p, ¬ p <+: rl.reverse → fs'.node p = fs.node p) := by
  induction rl generalizing fs' with
  | nil =>
    simp only [FS.mkdirAllRev] at h
    split at h
    · rename_i m hm
      cases h
      refine ⟨⟨m, by simpa using hm, ?_, ?_⟩, fun _ _ hp => hp, fun _ _ => rfl⟩
      · intro hn; simp [hm] at hn
      · intro m0 h0; simp [hm] at h0; exact h0
    · cases h
  | cons n parent ih =>
    simp only [FS.mkdirAllRev] at h
    split at h
    · rename_i m hm
      cases h
      refine ⟨⟨m, hm, ?_, ?_⟩, fun _ _ hp => hp, fun _ _ => rfl⟩
      · intro hn; rw [hm] at hn; cases hn
      · intro m0 h0; rw [hm] at h0; cases h0; rfl
    · cases h
    · rename_i hn
      split at h
      · cases h
      · rename_i fs1 h1
        cases h
        obtain ⟨_, hpres, hframe⟩ := ih fs1 h1
        refine ⟨⟨_, FS.node_cons_self _ _ _, fun _ => rfl, ?_⟩, ?_, ?_⟩
        · intro m0 h0; rw [hn] at h0; cases h0
        · intro p x hp
          have hne : p ≠ (n :: parent).reverse := by
            intro e; rw [e, hn] at hp; cases hp
          rw [FS.node_cons_ne _ _ _ _ hne]
          exact hpres p x hp
        · intro p hp
          have hne : p ≠ (n :: parent).reverse := by
            intro e; exact hp (e ▸ List.prefix_refl _)
          rw [FS.node_cons_ne _ _ _ _ hne]
          apply hframe
          intro hpp
          apply hp
          simp only [List.reverse_cons]
          exact hpp.trans (List.prefix_append _ _)

theorem FS.mkdirAll_spec (umask perm : Nat) (loc : Loc) (fs fs' : FS)
    (h : FS.mkdirAll umask perm fs loc = .ok fs') :
    (∃ m, fs'.node loc = some (Node.dir m) ∧
        (fs.node loc = none → m = applyUmask perm umask) ∧
        (∀ m0, fs.node loc = some (Node.dir m0) → m = m0)) ∧
      (∀ p n, fs.node p = some n → fs'.node p = some n) ∧
      (∀ p, ¬ p <+: loc → fs'.node p = fs.node p) := by
  have := FS.mkdirAllRev_spec umask perm loc.reverse fs fs' h
  simpa using this

theorem FS.create_spec (umask perm : Nat) (fs fs' : FS) (loc : Loc)
    (h : FS.create umask perm fs loc = .ok fs') :
    ∃ m, fs' = (loc, Node.file m []) :: fs ∧
      (∀ m0 d, fs.node loc = some (Node.file m0 d) → m = m0) ∧
      (fs.node loc = none → m = applyUmask perm umask) := by
  unfold FS.create at h
  split at h
  · cases h
  · rename_i m d hm
    cases h
    exact ⟨m, rfl, fun m0 d0 h0 => by rw [hm] at h0; cases h0; rfl,
      fun hn => by rw [hm] at hn; cases hn⟩
  · rename_i hn
    split at h
    · cases h
      refine ⟨_, rfl, ?_, fun _ => rfl⟩
      intro m0 d0 h0
      rw [hn] at h0; cases h0
    · cases h
    · cases h

theorem FS.readFile_spec (fs : FS) (loc : Loc) (data : List Nat)
    (h : fs.readFile loc = .ok data) : ∃ m, fs.node loc = some (Node.file m data) := by
  unfold FS.readFile at h
  split at h
  · rename_i m d hm; cases h; exact ⟨m, hm⟩
  · cases h
  · cases h

theorem FS.write_spec (fs fs' : FS) (loc : Loc) (data : List Nat)
    (h : fs.write loc data = .ok fs') :
    ∃ m d, fs.node loc = some (Node.file m d) ∧ fs' = (loc, Node.file m data) :: fs := by
  unfold FS.write at h
  split at h
  · rename_i m d hm; cases h; exact ⟨m, d, hm, rfl⟩
  · cases h
  · cases h

theorem FS.chmod_spec (fs fs' : FS) (loc : Loc) (mode : Nat)
    (h : fs.chmod loc mode = .ok fs') :
    (∃ m d, fs.node loc = some (Node.file m d) ∧ fs' = (loc, Node.file mode d) :: fs) ∨
      (∃ m, fs.node loc = some (Node.dir m) ∧ fs' = (loc, Node.dir mode) :: fs) := by
  unfold FS.chmod at h
  split at h
  · rename_i m d hm; cases h; exact Or.inl ⟨m, d, hm, rfl⟩
  · rename_i m hm; cases h; exact Or.inr ⟨m, hm, rfl⟩
  · cases h

theorem FS.stat_spec (fs : FS) (loc : Loc) (fi : FileInfo) (h : fs.stat loc = .ok fi) :
    ∃ n, fs.node loc = some n ∧ fi = n.info (loc.getLast?.getD "/") := by
  unfold FS.stat at h
  split at h
  · rename_i n hn; cases h; exact ⟨n, hn, rfl⟩
  · cases h

/-! ## The system calls of the process -/

theorem bind_eq_ok {ε α β : Type} (x : Except ε α) (f : α → Except ε β) (b : β) :
    (x >>= f) = .ok b ↔ ∃ a, x = .ok a ∧ f a = .ok b := by
  cases x with
  | error e => simp [bind, Except.bind]
  | ok a => simp [bind, Except.bind]

theorem pure_eq_ok {ε α : Type} (a b : α) : (pure a : Except ε α) = .ok b ↔ a = b := by
  simp [pure, Except.pure]

theorem World.locate_ok (w : World) (p : String) (loc : Loc) :
    w.locate p = .ok loc ↔ p.data ≠ [] ∧ byteLen p ≤ w.pathMax ∧ loc = resolve w.cwd p := by
  unfold World.locate
  by_cases h1 : p.data = []
  · simp [h1]
  · by_cases h2 : w.pathMax < byteLen p
    · simp [h1, h2]
    · simp only [h1, h2, if_false, Except.ok.injEq]
      constructor
      · intro h; exact ⟨fun e => h1 e, by omega, h.symm⟩
      · intro h; exact h.2.2.symm

/-- The two ways a system call ends. -/
theorem World.sys_cases {α : Type} (w : World) (op : String) (args : List String)
    (run : Except Errno (α × FS)) :
    (∃ e, w.sys op args run = (.error e, w.record w.fs ⟨op, args, true⟩)) ∨
      (∃ a fs, run = .ok (a, fs) ∧ w.faults.head? ≠ some true ∧
        w.sys op args run = (.ok a, w.record fs ⟨op, args, false⟩)) := by
  unfold World.sys
  by_cases hf : w.faults.head? = some true
  · left; exact ⟨Errno.EACCES, by simp [hf]⟩
  · cases run with
    | error e => left; exact ⟨e, by simp [hf]⟩
    | ok r =>
      obtain ⟨a, fs⟩ := r
      right; exact ⟨a, fs, rfl, hf, by simp [hf]⟩

theorem World.sys_ok {α : Type} (w w' : World) (op : String) (args : List String)
    (run : Except Errno (α × FS)) (a : α) (h : w.sys op args run = (.ok a, w')) :
    ∃ fs, run = .ok (a, fs) ∧ w' = w.record fs ⟨op, args, false⟩ := by
  rcases World.sys_cases w op args run with ⟨e, he⟩ | ⟨a1, fs, hr, _, hs⟩
  · rw [he] at h; cases h
  · rw [hs] at h; cases h; exact ⟨fs, hr, rfl⟩

theorem World.sys_error {α : Type} (w w' : World) (op : String) (args : List String)
    (run : Except Errno (α × FS)) (e : Errno) (h : w.sys op args run = (.error e, w')) :
    w' = w.record w.fs ⟨op, args, true⟩ := by
  rcases World.sys_cases w op args run with ⟨e1, he⟩ | ⟨a1, fs, hr, _, hs⟩
  · rw [he] at h; cases h; rfl
  · rw [hs] at h; cases h

theorem World.extends_refl (w : World) : w.Extends w :=
  ⟨rfl, rfl, rfl, rfl, List.prefix_refl _, List.prefix_refl _⟩

theorem World.extends_trans (a b c : World) (h1 : a.Extends b) (h2 : b.Extends c) :
    a.Extends c := by
  unfold World.Extends at *
  refine ⟨h2.1.trans h1.1, h2.2.1.trans h1.2.1, h2.2.2.1.trans h1.2.2.1,
    h2.2.2.2.1.trans h1.2.2.2.1, ?_, ?_⟩
  · exact h1.2.2.2.2.1.trans h2.2.2.2.2.1
  · exact h1.2.2.2.2.2.trans h2.2.2.2.2.2

theorem World.Extends.trans {a b c : World} (h1 : a.Extends b) (h2 : b.Extends c) :
    a.Extends c :=
  World.extends_trans a b c h1 h2

theorem World.extends_record (w : World) (fs : FS) (ev : Event) :
    w.Extends (w.record fs ev) ∧ (w.record fs ev).stdout = w.stdout ∧
      (w.record fs ev).fs = fs :=
  ⟨⟨rfl, rfl, rfl, rfl, List.prefix_refl _, List.prefix_append _ _⟩, rfl, rfl⟩

theorem errorOnly_none (op path : String) (x : Except Errno Unit × World) (w' : World)
    (h : errorOnly op path x = (none, w')) : x = (.ok (), w') := by
  obtain ⟨r, w1⟩ := x
  cases r with
  | error e => simp [errorOnly] at h
  | ok u => simp [errorOnly] at h; simp [h]

theorem errorOnly_some (op path : String) (x : Except Errno Unit × World) (w' : World)
    (err : Error) (h : errorOnly op path x = (some err, w')) :
    ∃ e, x = (.error e, w') ∧ err = Error.path op path e := by
  obtain ⟨r, w1⟩ := x
  cases r with
  | error e => simp [errorOnly] at h; exact ⟨e, by simp [h], h.1.symm⟩
  | ok u => simp [errorOnly] at h

theorem withError_ok {α : Type} (op path : String) (x : Except Errno α × World) (w' : World)
    (a : α) (h : withError op path x = (.ok a, w')) : x = (.ok a, w') := by
  obtain ⟨r, w1⟩ := x
  cases r with
  | error e => simp [withError] at h
  | ok u => simp [withError] at h; simp [h]

theorem withError_error {α : Type} (op path : String) (x : Except Errno α × World)
    (w' : World) (err : Error) (h : withError op path x = (.error err, w')) :
    ∃ e, x = (.error e, w') ∧ err = Error.path op path e := by
  obtain ⟨r, w1⟩ := x
  cases r with
  | error e => simp [withError] at h; exact ⟨e, by simp [h], h.1.symm⟩
  | ok u => simp [withError] at h

theorem osStat_ok (w w' : World) (name : String) (fi : FileInfo)
    (h : osStat w name = (.ok fi, w')) :
    (name.data ≠ [] ∧ byteLen name ≤ w.pathMax) ∧
      (∃ n nm, w.fs.node (resolve w.cwd name) = some n ∧ fi = n.info nm) ∧
      w' = w.record w.fs ⟨"stat", [name], false⟩ := by
  unfold osStat at h
  obtain ⟨fs, hrun, hw⟩ := World.sys_ok _ _ _ _ _ _ (withError_ok _ _ _ _ _ h)
  simp only [bind_eq_ok, pure_eq_ok, World.locate_ok, Prod.mk.injEq] at hrun
  obtain ⟨loc, ⟨h1, h2, h3⟩, fi1, hst, hfi, hfs⟩ := hrun
  subst h3 hfi hfs
  obtain ⟨n, hn, hfi⟩ := FS.stat_spec _ _ _ hst
  exact ⟨⟨h1, h2⟩, ⟨n, _, hn, hfi⟩, hw⟩

theorem osStat_error (w w' : World) (name : String) (err : Error)
    (h : osStat w name = (.error err, w')) :
    (∃ e, err = Error.path "stat" name e) ∧ w' = w.record w.fs ⟨"stat", [name], true⟩ := by
  unfold osStat at h
  obtain ⟨e, hx, he⟩ := withError_error _ _ _ _ _ h
  exact ⟨⟨e, he⟩, World.sys_error _ _ _ _ _ _ hx⟩

theorem osMkdirAll_ok (w w' : World) (path : String) (perm : Nat)
    (h : osMkdirAll w path perm = (none, w')) :
    (path.data ≠ [] ∧ byteLen path ≤ w.pathMax) ∧
      ∃ fs, FS.mkdirAll w.umask perm w.fs (resolve w.cwd path) = .ok fs ∧
        w' = w.record fs ⟨"mkdirall", [path], false⟩ := by
  unfold osMkdirAll at h
  obtain ⟨fs, hrun, hw⟩ := World.sys_ok _ _ _ _ _ _ (errorOnly_none _ _ _ _ h)
  simp only [bind_eq_ok, pure_eq_ok, World.locate_ok, Prod.mk.injEq, true_and] at hrun
  obtain ⟨loc, ⟨h1, h2, h3⟩, fs1, hmk, hfs⟩ := hrun
  subst h3 hfs
  exact ⟨⟨h1, h2⟩, fs1, hmk, hw⟩

theorem osMkdirAll_error (w w' : World) (path : String) (perm : Nat) (err : Error)
    (h : osMkdirAll w path perm = (some err, w')) :
    (∃ e, err = Error.path "mkdir" path e) ∧
      w' = w.record w.fs ⟨"mkdirall", [path], true⟩ := by
  unfold osMkdirAll at h
  obtain ⟨e, hx, he⟩ := errorOnly_some _ _ _ _ _ h
  exact ⟨⟨e, he⟩, World.sys_error _ _ _ _ _ _ hx⟩

theorem ioutilReadDir_ok (w w' : World) (dirname : String) (fds : List FileInfo)
    (h : ioutilReadDir w dirname = (.ok fds, w')) :
    (dirname.data ≠ [] ∧ byteLen dirname ≤ w.pathMax) ∧
      w.fs.readDir (resolve w.cwd dirname) = .ok fds ∧
      w' = w.record w.fs ⟨"readdir", [dirname], false⟩ := by
  unfold ioutilReadDir at h
  obtain ⟨fs, hrun, hw⟩ := World.sys_ok _ _ _ _ _ _ (withError_ok _ _ _ _ _ h)
  simp only [bind_eq_ok, pure_eq_ok, World.locate_ok, Prod.mk.injEq] at hrun
  obtain ⟨loc, ⟨h1, h2, h3⟩, fds1, hrd, hfds, hfs⟩ := hrun
  subst h3 hfds hfs
  exact ⟨⟨h1, h2⟩, hrd, hw⟩

theorem ioutilReadDir_error (w w' : World) (dirname : String) (err : Error)
    (h : ioutilReadDir w dirname = (.error err, w')) :
    (∃ e, err = Error.path "open" dirname e) ∧
      w' = w.record w.fs ⟨"readdir", [dirname], true⟩ := by
  unfold ioutilReadDir at h
  obtain ⟨e, hx, he⟩ := withError_error _ _ _ _ _ h
  exact ⟨⟨e, he⟩, World.sys_error _ _ _ _ _ _ hx⟩

theorem osOpen_ok (w w' : World) (name : String) (h : osOpen w name = (none, w')) :
    (name.data ≠ [] ∧ byteLen name ≤ w.pathMax) ∧
      w' = w.record w.fs ⟨"open", [name], false⟩ := by
  unfold osOpen at h
  obtain ⟨fs, hrun, hw⟩ := World.sys_ok _ _ _ _ _ _ (errorOnly_none _ _ _ _ h)
  simp only [bind_eq_ok, pure_eq_ok, World.locate_ok, Prod.mk.injEq, true_and] at hrun
  obtain ⟨loc, ⟨h1, h2, h3⟩, _, _, hfs⟩ := hrun
  subst h3 hfs
  exact ⟨⟨h1, h2⟩, hw⟩

theorem osOpen_error (w w' : World) (name : String) (err : Error)
    (h : osOpen w name = (some err, w')) :
    (∃ e, err = Error.path "open" name e) ∧ w' = w.record w.fs ⟨"open", [name], true⟩ := by
  unfold osOpen at h
  obtain ⟨e, hx, he⟩ := errorOnly_some _ _ _ _ _ h
  exact ⟨⟨e, he⟩, World.sys_error _ _ _ _ _ _ hx⟩

theorem osCreate_ok (w w' : World) (name : String) (h : osCreate w name = (none, w')) :
    (name.data ≠ [] ∧ byteLen name ≤ w.pathMax) ∧
      ∃ fs, FS.create w.umask 0o666 w.fs (resolve w.cwd name) = .ok fs ∧
        w' = w.record fs ⟨"create", [name], false⟩ := by
  unfold osCreate at h
  obtain ⟨fs, hrun, hw⟩ := World.sys_ok _ _ _ _ _ _ (errorOnly_none _ _ _ _ h)
  simp only [bind_eq_ok, pure_eq_ok, World.locate_ok, Prod.mk.injEq, true_and] at hrun
  obtain ⟨loc, ⟨h1, h2, h3⟩, fs1, hc, hfs⟩ := hrun
  subst h3 hfs
  exact ⟨⟨h1, h2⟩, fs1, hc, hw⟩

theorem osCreate_error (w w' : World) (name : String) (err : Error)
    (h : osCreate w name = (some err, w')) :
    (∃ e, err = Error.path "open" name e) ∧ w' = w.record w.fs ⟨"create", [name], true⟩ := by
  unfold osCreate at h
  obtain ⟨e, hx, he⟩ := errorOnly_some _ _ _ _ _ h
  exact ⟨⟨e, he⟩, World.sys_error _ _ _ _ _ _ hx⟩

theorem ioCopy_ok (w w' : World) (dst src : String) (h : ioCopy w dst src = (none, w')) :
    ∃ data fs, w.fs.readFile (resolve w.cwd src) = .ok data ∧
      w.fs.write (resolve w.cwd dst) data = .ok fs ∧
      w' = w.record fs ⟨"copy", [dst, src], false⟩ := by
  unfold ioCopy at h
  obtain ⟨fs, hrun, hw⟩ := World.sys_ok _ _ _ _ _ _ (errorOnly_none _ _ _ _ h)
  simp only [bind_eq_ok, pure_eq_ok, World.locate_ok, Prod.mk.injEq, true_and] at hrun
  obtain ⟨s, ⟨_, _, h3⟩, d, ⟨_, _, h4⟩, data, hr, fs1, hwr, hfs⟩ := hrun
  subst h3 h4 hfs
  exact ⟨data, fs1, hr, hwr, hw⟩

theorem ioCopy_error (w w' : World) (dst src : String) (err : Error)
    (h : ioCopy w dst src = (some err, w')) :
    (∃ e, err = Error.path "read" src e) ∧
      w' = w.record w.fs ⟨"copy", [dst, src], true⟩ := by
  unfold ioCopy at h
  obtain ⟨e, hx, he⟩ := errorOnly_some _ _ _ _ _ h
  exact ⟨⟨e, he⟩, World.sys_error _ _ _ _ _ _ hx⟩

theorem osChmod_ok (w w' : World) (name : String) (mode : Nat)
    (h : osChmod w name mode = (none, w')) :
    ∃ fs, w.fs.chmod (resolve w.cwd name) mode = .ok fs ∧
      w' = w.record fs ⟨"chmod", [name], false⟩ := by
  unfold osChmod at h
  obtain ⟨fs, hrun, hw⟩ := World.sys_ok _ _ _ _ _ _ (errorOnly_none _ _ _ _ h)
  simp only [bind_eq_ok, pure_eq_ok, World.locate_ok, Prod.mk.injEq, true_and] at hrun
  obtain ⟨loc, ⟨_, _, h3⟩, fs1, hc, hfs⟩ := hrun
  subst h3 hfs
  exact ⟨fs1, hc, hw⟩

theorem osChmod_error (w w' : World) (name : String) (mode : Nat) (err : Error)
    (h : osChmod w name mode = (some err, w')) :
    (∃ e, err = Error.path "chmod" name e) ∧ w' = w.record w.fs ⟨"chmod", [name], true⟩ := by
  unfold osChmod at h
  obtain ⟨e, hx, he⟩ := errorOnly_some _ _ _ _ _ h
  exact ⟨⟨e, he⟩, World.sys_error _ _ _ _ _ _ hx⟩

theorem ioutilReadFile_ok (w w' : World) (filename : String) (data : List Nat)
    (h : ioutilReadFile w filename = (.ok data, w')) :
    w.fs.readFile (resolve w.cwd filename) = .ok data ∧
      w' = w.record w.fs ⟨"readfile", [filename], false⟩ := by
  unfold ioutilReadFile at h
  obtain ⟨fs, hrun, hw⟩ := World.sys_ok _ _ _ _ _ _ (withError_ok _ _ _ _ _ h)
  simp only [bind_eq_ok, pure_eq_ok, World.locate_ok, Prod.mk.injEq] at hrun
  obtain ⟨loc, ⟨_, _, h3⟩, d1, hr, hd, hfs⟩ := hrun
  subst h3 hd hfs
  exact ⟨hr, hw⟩

theorem ioutilReadFile_error (w w' : World) (filename : String) (err : Error)
    (h : ioutilReadFile w filename = (.error err, w')) :
    (∃ e, err = Error.path "open" filename e) ∧
      w' = w.record w.fs ⟨"readfile", [filename], true⟩ := by
  unfold ioutilReadFile at h
  obtain ⟨e, hx, he⟩ := withError_error _ _ _ _ _ h
  exact ⟨⟨e, he⟩, World.sys_error _ _ _ _ _ _ hx⟩

theorem ioutilWriteFile_ok (w w' : World) (filename : String) (data : List Nat) (perm : Nat)
    (h : ioutilWriteFile w filename data perm = (none, w')) :
    ∃ fs1 fs, FS.create w.umask perm w.fs (resolve w.cwd filename) = .ok fs1 ∧
      fs1.write (resolve w.cwd filename) data = .ok fs ∧
      w' = w.record fs ⟨"writefile", [filename], false⟩ := by
  unfold ioutilWriteFile at h
  obtain ⟨fs, hrun, hw⟩ := World.sys_ok _ _ _ _ _ _ (errorOnly_none _ _ _ _ h)
  simp only [bind_eq_ok, pure_eq_ok, World.locate_ok, Prod.mk.injEq, true_and] at hrun
  obtain ⟨loc, ⟨_, _, h3⟩, fs1, hc, fs2, hwr, hfs⟩ := hrun
  subst h3 hfs
  exact ⟨fs1, fs2, hc, hwr, hw⟩

theorem ioutilWriteFile_error (w w' : World) (filename : String) (data : List Nat)
    (perm : Nat) (err : Error) (h : ioutilWriteFile w filename data perm = (some err, w')) :
    (∃ e, err = Error.path "open" filename e) ∧
      w' = w.record w.fs ⟨"writefile", [filename], true⟩ := by
  unfold ioutilWriteFile at h
  obtain ⟨e, hx, he⟩ := errorOnly_some _ _ _ _ _ h
  exact ⟨⟨e, he⟩, World.sys_error _ _ _ _ _ _ hx⟩

theorem osRename_ok (w w' : World) (oldpath newpath : String)
    (h : osRename w oldpath newpath = (none, w')) :
    ∃ fs, w.fs.rename (resolve w.cwd oldpath) (resolve w.cwd newpath) = .ok fs ∧
      w' = w.record fs ⟨"rename", [oldpath, newpath], false⟩ := by
  unfold osRename at h
  split at h
  · cases h
  · rename_i u w1 hs
    cases h
    obtain ⟨fs, hrun, hw⟩ := World.sys_ok _ _ _ _ _ _ hs
    simp only [bind_eq_ok, pure_eq_ok, World.locate_ok, Prod.mk.injEq, true_and] at hrun
    obtain ⟨o, ⟨_, _, h3⟩, n, ⟨_, _, h4⟩, fs1, hr, hfs⟩ := hrun
    subst h3 h4 hfs
    exact ⟨fs1, hr, hw⟩

theorem osRename_error (w w' : World) (oldpath newpath : String) (err : Error)
    (h : osRename w oldpath newpath = (some err, w')) :
    (∃ e, err = Error.link "rename" oldpath newpath e) ∧
      w' = w.record w.fs ⟨"rename", [oldpath, newpath], true⟩ := by
  unfold osRename at h
  split at h
  · rename_i e w1 hs
    cases h
    exact ⟨⟨e, rfl⟩, World.sys_error _ _ _ _ _ _ hs⟩
  · cases h

/-! ## `copyFile` -/

/-- What is known of the state after a recorded call. -/
theorem record_facts (w w' : World) (fs : FS) (ev : Event) (h : w' = w.record fs ev) :
    w'.fs = fs ∧ w'.cwd = w.cwd ∧ w'.umask = w.umask ∧
      (w.Extends w' ∧ w'.stdout = w.stdout) ∧ w'.trace = w.trace ++ [ev] := by
  subst h
  exact ⟨rfl, rfl, rfl, ⟨(World.extends_record _ _ _).1, rfl⟩, rfl⟩

theorem quiet_trans (a b c : World) (h1 : a.Extends b ∧ b.stdout = a.stdout)
    (h2 : b.Extends c ∧ c.stdout = b.stdout) : a.Extends c ∧ c.stdout = a.stdout :=
  ⟨World.extends_trans _ _ _ h1.1 h2.1, h2.2.trans h1.2⟩

theorem trace_first (w w1 w' : World) (ev : Event) (h1 : w1.trace = w.trace ++ [ev])
    (h : w1.Extends w') : ∃ rest, w'.trace = w.trace ++ ev :: rest := by
  obtain ⟨t, ht⟩ := h.2.2.2.2.2
  exact ⟨t, by rw [← ht, h1]; simp⟩

/-- Everything `copyFile` can be seen to do. -/
theorem copyFile_spec (w w' : World) (src dst : String) (r : Option Error)
    (h : copyFile w src dst = (r, w')) :
    (w.Extends w' ∧ w'.stdout = w.stdout) ∧
      (∀ p, p ≠ resolve w.cwd dst → w'.fs.node p = w.fs.node p) ∧
      (∃ f rest, w'.trace = w.trace ++ ⟨"open", [src], f⟩ :: rest) ∧
      (∀ err, r = some err → err.subject = some src ∨ err.subject = some dst) ∧
      (r = none → resolve w.cwd src ≠ resolve w.cwd dst →
        ∃ m d, w.fs.node (resolve w.cwd src) = some (Node.file m d) ∧
          w'.fs.node (resolve w.cwd dst) = some (Node.file m d)) := by
  unfold copyFile at h
  rcases h1 : osOpen w src with ⟨_ | e1, w1⟩
  swap
  · simp only [h1] at h; cases h
    obtain ⟨⟨e, he⟩, hw⟩ := osOpen_error _ _ _ _ h1
    obtain ⟨f1, c1, u1, E1, t1⟩ := record_facts _ _ _ _ hw
    exact ⟨E1, fun _ _ => by rw [f1], ⟨_, [], t1⟩,
      fun err he' => by cases he'; rw [he]; exact Or.inl rfl, fun hn => by cases hn⟩
  simp only [h1] at h
  obtain ⟨_, hw1⟩ := osOpen_ok _ _ _ h1
  obtain ⟨f1, c1, u1, E1, t1⟩ := record_facts _ _ _ _ hw1
  rcases h2 : osCreate w1 dst with ⟨_ | e2, w2⟩
  swap
  · simp only [h2] at h; cases h
    obtain ⟨⟨e, he⟩, hw⟩ := osCreate_error _ _ _ _ h2
    obtain ⟨f2, c2, u2, E2, t2⟩ := record_facts _ _ _ _ hw
    exact ⟨quiet_trans _ _ _ E1 E2, fun _ _ => by rw [f2, f1],
      ⟨_, trace_first _ _ _ _ t1 E2.1⟩,
      fun err he' => by cases he'; rw [he]; exact Or.inr rfl, fun hn => by cases hn⟩
  simp only [h2] at h
  obtain ⟨_, fs2, hc, hw2⟩ := osCreate_ok _ _ _ h2
  obtain ⟨f2, c2, u2, E2, t2⟩ := record_facts _ _ _ _ hw2
  obtain ⟨m2, hfs2, _, _⟩ := FS.create_spec _ _ _ _ _ hc
  rw [c1, f1] at hfs2
  rw [c1] at c2
  have E12 := quiet_trans _ _ _ E1 E2
  rcases h3 : ioCopy w2 dst src with ⟨_ | e3, w3⟩
  swap
  · simp only [h3] at h; cases h
    obtain ⟨⟨e, he⟩, hw⟩ := ioCopy_error _ _ _ _ _ h3
    obtain ⟨f3, c3, u3, E3, t3⟩ := record_facts _ _ _ _ hw
    refine ⟨quiet_trans _ _ _ E12 E3, ?_, ⟨_, trace_first _ _ _ _ t1 (E2.1.trans E3.1)⟩,
      fun err he' => by cases he'; rw [he]; exact Or.inl rfl, fun hn => by cases hn⟩
    intro p hp
    rw [f3, f2, hfs2]
    exact FS.node_cons_ne _ _ _ _ hp
  simp only [h3] at h
  obtain ⟨data, fs3, hrd, hwr, hw3⟩ := ioCopy_ok _ _ _ _ h3
  obtain ⟨f3, c3, u3, E3, t3⟩ := record_facts _ _ _ _ hw3
  obtain ⟨m3, d3, hn3, hfs3⟩ := FS.write_spec _ _ _ _ hwr
  rw [c2, f2, hfs2] at hfs3 hrd
  rw [c2] at c3
  have E13 := quiet_trans _ _ _ E12 E3
  rcases h4 : osStat w3 src with ⟨e4 | srcinfo, w4⟩
  · simp only [h4] at h; cases h
    obtain ⟨⟨e, he⟩, hw⟩ := osStat_error _ _ _ _ h4
    obtain ⟨f4, c4, u4, E4, t4⟩ := record_facts _ _ _ _ hw
    refine ⟨quiet_trans _ _ _ E13 E4, ?_,
      ⟨_, trace_first _ _ _ _ t1 (E2.1.trans (E3.1.trans E4.1))⟩,
      fun err he' => by cases he'; rw [he]; exact Or.inl rfl, fun hn => by cases hn⟩
    intro p hp
    rw [f4, f3, hfs3, FS.node_cons_ne _ _ _ _ hp, FS.node_cons_ne _ _ _ _ hp]
  simp only [h4] at h
  obtain ⟨_, ⟨n4, nm, hn4, hfi⟩, hw4⟩ := osStat_ok _ _ _ _ h4
  obtain ⟨f4, c4, u4, E4, t4⟩ := record_facts _ _ _ _ hw4
  rw [c3, f3, hfs3] at hn4
  rw [f3] at f4
  rw [c3] at c4
  have E14 := quiet_trans _ _ _ E13 E4
  cases r with
  | some err =>
    obtain ⟨⟨e, he⟩, hw⟩ := osChmod_error _ _ _ _ _ h
    obtain ⟨f5, c5, u5, E5, t5⟩ := record_facts _ _ _ _ hw
    refine ⟨quiet_trans _ _ _ E14 E5, ?_,
      ⟨_, trace_first _ _ _ _ t1 (E2.1.trans (E3.1.trans (E4.1.trans E5.1)))⟩,
      fun err he' => by cases he'; rw [he]; exact Or.inr rfl, fun hn => by cases hn⟩
    intro p hp
    rw [f5, f4, hfs3, FS.node_cons_ne _ _ _ _ hp, FS.node_cons_ne _ _ _ _ hp]
  | none =>
    obtain ⟨fs5, hch, hw5⟩ := osChmod_ok _ _ _ _ h
    obtain ⟨f5, c5, u5, E5, t5⟩ := record_facts _ _ _ _ hw5
    rw [c4, f4, hfs3] at hch
    have hfs5 : fs5 = (resolve w.cwd dst, Node.file srcinfo.mode data) ::
        (resolve w.cwd dst, Node.file m3 data) ::
          (resolve w.cwd dst, Node.file m2 []) :: w.fs := by
      rcases FS.chmod_spec _ _ _ _ hch with ⟨m, d, hn, hfs⟩ | ⟨m, hn, hfs⟩
      · rw [FS.node_cons_self] at hn
        cases hn
        exact hfs
      · rw [FS.node_cons_self] at hn
        cases hn
    refine ⟨quiet_trans _ _ _ E14 E5, ?_,
      ⟨_, trace_first _ _ _ _ t1 (E2.1.trans (E3.1.trans (E4.1.trans E5.1)))⟩,
      fun err he => by simp at he, ?_⟩
    · intro p hp
      rw [f5, hfs5, FS.node_cons_ne _ _ _ _ hp, FS.node_cons_ne _ _ _ _ hp,
        FS.node_cons_ne _ _ _ _ hp]
    · intro _ hne
      obtain ⟨m, hm⟩ := FS.readFile_spec _ _ _ hrd
      rw [FS.node_cons_ne _ _ _ _ hne] at hm
      rw [FS.node_cons_ne _ _ _ _ hne, FS.node_cons_ne _ _ _ _ hne, hm] at hn4
      cases hn4
      refine ⟨m, data, hm, ?_⟩
      rw [f5, hfs5, FS.node_cons_self]
      simp [hfi, Node.info]

/-! ## Directory listings -/

theorem FS.childName_eq_some (parent key : Loc) (n : String) :
    FS.childName parent key = some n ↔ key = parent ++ [n] ∧ validName n = true := by
  unfold FS.childName
  constructor
  · intro h
    split at h
    · rename_i m hd
      split at h
      · rename_i hc
        cases h
        refine ⟨?_, hc.2⟩
        have := List.take_append_drop parent.length key
        rw [hd, hc.1] at this
        exact this.symm
      · cases h
    · cases h
  · rintro ⟨rfl, hv⟩
    simp [hv]

theorem lookup_isSome_of_mem (fs : FS) (k : Loc) (v : Node) (h : (k, v) ∈ fs) :
    ∃ v', fs.lookup k = some v' := by
  induction fs with
  | nil => cases h
  | cons e rest ih =>
    obtain ⟨k1, v1⟩ := e
    by_cases hk : k = k1
    · subst hk; exact ⟨v1, by simp [List.lookup]⟩
    · have : (k == k1) = false := by simpa using hk
      simp only [List.lookup, this]
      apply ih
      simp only [List.mem_cons, Prod.mk.injEq] at h
      rcases h with ⟨h1, _⟩ | h
      · exact absurd h1 hk
      · exact h

theorem mem_of_lookup (fs : FS) (k : Loc) (v : Node) (h : fs.lookup k = some v) :
    (k, v) ∈ fs := by
  induction fs with
  | nil => cases h
  | cons e rest ih =>
    obtain ⟨k1, v1⟩ := e
    by_cases hk : k = k1
    · subst hk
      simp [List.lookup] at h
      simp [h]
    · have : (k == k1) = false := by simpa using hk
      simp only [List.lookup, this] at h
      exact List.mem_cons_of_mem _ (ih h)

theorem FS.node_of_ne_nil (fs : FS) (p : Loc) (hp : p ≠ []) : fs.node p = fs.lookup p := by
  unfold FS.node
  cases fs.lookup p <;> simp [hp]

theorem FS.mem_names (fs : FS) (loc : Loc) (n : String) :
    n ∈ fs.names loc ↔ validName n = true ∧ ∃ x, fs.node (loc ++ [n]) = some x := by
  unfold FS.names
  rw [(List.perm_insertionSort nameLe _).mem_iff, List.mem_dedup, List.mem_filterMap]
  have hne : loc ++ [n] ≠ [] := by simp
  rw [FS.node_of_ne_nil _ _ hne]
  constructor
  · rintro ⟨⟨k, v⟩, hmem, hc⟩
    rw [FS.childName_eq_some] at hc
    obtain ⟨hk, hv⟩ := hc
    simp only at hk
    subst hk
    exact ⟨hv, lookup_isSome_of_mem fs _ v hmem⟩
  · rintro ⟨hv, x, hx⟩
    exact ⟨(loc ++ [n], x), mem_of_lookup fs _ x hx, by
      rw [FS.childName_eq_some]; exact ⟨rfl, hv⟩⟩

theorem FS.names_nodup (fs : FS) (loc : Loc) : (fs.names loc).Nodup := by
  unfold FS.names
  rw [(List.perm_insertionSort nameLe _).nodup_iff]
  exact List.nodup_dedup _

theorem Node.info_name (n : String) (x : Node) : (x.info n).name = n := by
  cases x <;> rfl

theorem listing_names_sublist (f : String → Option Node) (l : List String) :
    ((l.filterMap (fun n => (f n).map (Node.info n))).map (fun fd => fd.name)).Sublist l := by
  induction l with
  | nil => simp
  | cons a l ih =>
    rw [List.filterMap_cons]
    cases h : f a with
    | none => simp only [Option.map_none']; exact ih.trans (List.sublist_cons_self _ _)
    | some x =>
      simp only [Option.map_some', List.map_cons, Node.info_name]
      exact ih.cons₂ a

/-- What a listing holds: under valid and distinct names, the entries of the
directory as they are. -/
theorem FS.readDir_spec (fs : FS) (loc : Loc) (fds : List FileInfo)
    (h : fs.readDir loc = .ok fds) :
    (∃ m, fs.node loc = some (Node.dir m)) ∧
      (∀ fd ∈ fds, validName fd.name = true ∧
        ∃ x, fs.node (loc ++ [fd.name]) = some x ∧ fd = x.info fd.name) ∧
      (fds.map (fun fd => fd.name)).Nodup ∧
      (∀ n x, validName n = true → fs.node (loc ++ [n]) = some x → x.info n ∈ fds) := by
  unfold FS.readDir at h
  split at h
  · cases h
  · cases h
  · rename_i m hm
    cases h
    refine ⟨⟨m, hm⟩, ?_, ?_, ?_⟩
    · intro fd hfd
      rw [List.mem_filterMap] at hfd
      obtain ⟨n, hn, hfd⟩ := hfd
      rw [FS.mem_names] at hn
      obtain ⟨hv, x, hx⟩ := hn
      rw [hx] at hfd
      simp only [Option.map_some', Option.some.injEq] at hfd
      subst hfd
      rw [Node.info_name]
      exact ⟨hv, x, hx, rfl⟩
    · exact (listing_names_sublist _ _).nodup (FS.names_nodup fs loc)
    · intro n x hv hx
      rw [List.mem_filterMap]
      exact ⟨n, (FS.mem_names fs loc n).2 ⟨hv, x, hx⟩, by simp [hx]⟩

/-! ## What `copyDir` leaves alone -/

theorem FS.Frame.refl (d : Loc) (fs : FS) : FS.Frame d fs fs :=
  fun _ _ => ⟨fun _ => rfl, fun _ h => h⟩

theorem FS.Frame.compose {d : Loc} {a b c : FS} (h1 : FS.Frame d a b) (h2 : FS.Frame d b c) :
    FS.Frame d a c := by
  intro p hp
  refine ⟨fun hq => ?_, fun n hn => ?_⟩
  · rw [(h2 p hp).1 hq, (h1 p hp).1 hq]
  · exact (h2 p hp).2 n ((h1 p hp).2 n hn)

theorem FS.Frame.of_eq {d : Loc} {a b : FS} (h : b = a) : FS.Frame d a b := by
  subst h; exact FS.Frame.refl d _

theorem FS.Frame.of_ne {d : Loc} {a b : FS} (h : ∀ p, p ≠ d → b.node p = a.node p) :
    FS.Frame d a b := by
  intro p hp
  have hne : p ≠ d := fun e => hp (e ▸ List.prefix_refl _)
  exact ⟨fun _ => h p hne, fun x hx => by rw [h p hne]; exact hx⟩

theorem FS.Frame.of_mkdirAll {umask perm : Nat} {loc : Loc} {fs fs' : FS}
    (h : FS.mkdirAll umask perm fs loc = .ok fs') : FS.Frame loc fs fs' := by
  obtain ⟨_, hpres, hframe⟩ := FS.mkdirAll_spec _ _ _ _ _ h
  exact fun p _ => ⟨fun hq => hframe p hq, hpres p⟩

theorem fmtPrintln_facts (w : World) (err : Error) :
    (fmtPrintln w err).fs = w.fs ∧ w.Extends (fmtPrintln w err) ∧
      (fmtPrintln w err).stdout = w.stdout ++ [err.toStr] ∧
      (fmtPrintln w err).trace = w.trace :=
  ⟨rfl, ⟨rfl, rfl, rfl, rfl, List.prefix_append _ _, List.prefix_refl _⟩, rfl, rfl⟩

theorem copyEntry_frame (rec : World → String → String → Option (Option Error × World))
    (hrec : RecOk rec) (src dst : String) (hd : dst.data ≠ []) (w w' : World) (fd : FileInfo)
    (hv : validName fd.name = true) (h : copyEntry rec src dst w fd = some w') :
    w.Extends w' ∧ FS.Frame (resolve w.cwd dst ++ [fd.name]) w.fs w'.fs := by
  unfold copyEntry at h
  have hloc := resolve_pathJoin_name w.cwd dst fd.name hd hv
  by_cases hdir : fd.isDir = true
  · simp only [hdir, if_true] at h
    rcases hr : rec w (pathJoin [src, fd.name]) (pathJoin [dst, fd.name])
      with _ | ⟨_ | err, w1⟩
    · simp only [hr] at h; cases h
    · simp only [hr] at h
      cases h
      obtain ⟨hE, hF⟩ := hrec _ _ _ _ _ hr
      rw [hloc] at hF
      exact ⟨hE, hF⟩
    · simp only [hr] at h
      cases h
      obtain ⟨hE, hF⟩ := hrec _ _ _ _ _ hr
      rw [hloc] at hF
      exact ⟨hE.trans (fmtPrintln_facts w1 err).2.1, hF⟩
  · simp only [hdir] at h
    rcases hr : copyFile w (pathJoin [src, fd.name]) (pathJoin [dst, fd.name])
      with ⟨_ | err, w1⟩
    · simp only [hr] at h
      cases h
      obtain ⟨hE, hF, _⟩ := copyFile_spec _ _ _ _ _ hr
      rw [hloc] at hF
      exact ⟨hE.1, FS.Frame.of_ne hF⟩
    · simp only [hr] at h
      cases h
      obtain ⟨hE, hF, _⟩ := copyFile_spec _ _ _ _ _ hr
      rw [hloc] at hF
      exact ⟨hE.1.trans (fmtPrintln_facts w1 err).2.1, FS.Frame.of_ne hF⟩

theorem copyEntries_frame (rec : World → String → String → Option (Option Error × World))
    (hrec : RecOk rec) (src dst : String) (hd : dst.data ≠ []) (fds : List FileInfo)
    (w w' : World) (hv : ∀ fd ∈ fds, validName fd.name = true)
    (h : copyEntries rec src dst w fds = some w') :
    w.Extends w' ∧ ∀ p, (∀ fd ∈ fds, ¬ (resolve w.cwd dst ++ [fd.name]) <+: p) →
      ((∀ fd ∈ fds, ¬ p <+: resolve w.cwd dst ++ [fd.name]) → w'.fs.node p = w.fs.node p) ∧
        (∀ n, w.fs.node p = some n → w'.fs.node p = some n) := by
  induction fds generalizing w with
  | nil =>
    simp only [copyEntries] at h
    cases h
    exact ⟨World.extends_refl _, fun _ _ => ⟨fun _ => rfl, fun _ hn => hn⟩⟩
  | cons fd fds ih =>
    simp only [copyEntries] at h
    rcases h1 : copyEntry rec src dst w fd with _ | w1
    · simp only [h1] at h; cases h
    · simp only [h1] at h
      obtain ⟨hE1, hF1⟩ := copyEntry_frame rec hrec src dst hd w w1 fd (hv fd (by simp)) h1
      obtain ⟨hE2, hF2⟩ := ih w1 (fun x hx => hv x (List.mem_cons_of_mem _ hx)) h
      rw [hE1.1] at hF2
      refine ⟨hE1.trans hE2, fun p hp => ?_⟩
      have hp1 := hF1 p (hp fd (by simp))
      have hp2 := hF2 p (fun x hx => hp x (List.mem_cons_of_mem _ hx))
      refine ⟨fun hq => ?_, fun n hn => hp2.2 n (hp1.2 n hn)⟩
      rw [hp2.1 (fun x hx => hq x (List.mem_cons_of_mem _ hx)), hp1.1 (hq fd (by simp))]

theorem not_prefix_child {d p : Loc} (n : String) (h : ¬ d <+: p) : ¬ (d ++ [n]) <+: p :=
  fun x => h ((List.prefix_append d [n]).trans x)

theorem not_prefix_of_child {d p : Loc} (n : String) (h1 : ¬ d <+: p) (h2 : ¬ p <+: d) :
    ¬ p <+: d ++ [n] := by
  intro x
  rcases List.prefix_or_prefix_of_prefix x (List.prefix_append d [n]) with y | y
  · exact h2 y
  · exact h1 y

/-- The run of `copyDir`: what it leaves alone in the state, and that it writes
only at or under its destination, or makes directories on the way there. -/
theorem copyDir_frame (fuel : Nat) : RecOk (copyDir fuel) := by
  induction fuel with
  | zero => intro w s d r w' h; simp [copyDir] at h
  | succ fuel ih =>
    intro w src dst r w' h
    simp only [copyDir] at h
    rcases h1 : osStat w src with ⟨e1 | srcinfo, w1⟩
    · simp only [h1] at h; cases h
      obtain ⟨_, hw⟩ := osStat_error _ _ _ _ h1
      obtain ⟨f1, c1, u1, E1, t1⟩ := record_facts _ _ _ _ hw
      exact ⟨E1.1, FS.Frame.of_eq f1⟩
    simp only [h1] at h
    obtain ⟨_, _, hw1⟩ := osStat_ok _ _ _ _ h1
    obtain ⟨f1, c1, u1, E1, t1⟩ := record_facts _ _ _ _ hw1
    rcases h2 : osMkdirAll w1 dst srcinfo.mode with ⟨_ | e2, w2⟩
    swap
    · simp only [h2] at h; cases h
      obtain ⟨_, hw⟩ := osMkdirAll_error _ _ _ _ _ h2
      obtain ⟨f2, c2, u2, E2, t2⟩ := record_facts _ _ _ _ hw
      exact ⟨E1.1.trans E2.1, FS.Frame.of_eq (by rw [f2, f1])⟩
    simp only [h2] at h
    obtain ⟨⟨hd, _⟩, fs2, hmk, hw2⟩ := osMkdirAll_ok _ _ _ _ h2
    obtain ⟨f2, c2, u2, E2, t2⟩ := record_facts _ _ _ _ hw2
    rw [c1, f1] at hmk
    have F2 : FS.Frame (resolve w.cwd dst) w.fs w2.fs := by
      rw [f2]; exact FS.Frame.of_mkdirAll hmk
    rcases h3 : ioutilReadDir w2 src with ⟨e3 | fds, w3⟩
    · simp only [h3] at h; cases h
      obtain ⟨_, hw⟩ := ioutilReadDir_error _ _ _ _ h3
      obtain ⟨f3, c3, u3, E3, t3⟩ := record_facts _ _ _ _ hw
      exact ⟨E1.1.trans (E2.1.trans E3.1), by rw [f3]; exact F2⟩
    simp only [h3] at h
    obtain ⟨_, hrd, hw3⟩ := ioutilReadDir_ok _ _ _ _ h3
    obtain ⟨f3, c3, u3, E3, t3⟩ := record_facts _ _ _ _ hw3
    obtain ⟨_, hsound, _, _⟩ := FS.readDir_spec _ _ _ hrd
    rcases h4 : copyEntries (copyDir fuel) src dst w3 fds with _ | w4
    · simp only [h4] at h; cases h
    · simp only [h4, Option.some.injEq, Prod.mk.injEq] at h
      obtain ⟨hr, hw⟩ := h
      subst hr hw
      obtain ⟨E4, hF4⟩ := copyEntries_frame (copyDir fuel) ih src dst hd fds w3 w4
        (fun fd hfd => (hsound fd hfd).1) h4
      have c3' : w3.cwd = w.cwd := by rw [c3, c2, c1]
      rw [c3', f3] at hF4
      refine ⟨E1.1.trans (E2.1.trans (E3.1.trans E4)), FS.Frame.compose F2 ?_⟩
      intro p hp
      have := hF4 p (fun fd _ => not_prefix_child fd.name hp)
      exact ⟨fun hq => this.1 (fun fd _ => not_prefix_of_child fd.name hp hq), this.2⟩

/-! ## `copyDir` returns -/

theorem copyEntries_append (rec : World → String → String → Option (Option Error × World))
    (src dst : String) (l1 l2 : List FileInfo) (w : World) :
    copyEntries rec src dst w (l1 ++ l2)
      = (copyEntries rec src dst w l1).bind (fun w1 => copyEntries rec src dst w1 l2) := by
  induction l1 generalizing w with
  | nil => simp [copyEntries]
  | cons fd l1 ih =>
    simp only [List.cons_append, copyEntries]
    rcases copyEntry rec src dst w fd with _ | w1
    · simp
    · simp [ih]

/-- The run of the loop at one of its entries: the state it is reached in, the
state it is left in, and the rest of the loop. -/
theorem copyEntries_split (rec : World → String → String → Option (Option Error × World))
    (src dst : String) (pre post : List FileInfo) (fd : FileInfo) (w w' : World)
    (h : copyEntries rec src dst w (pre ++ fd :: post) = some w') :
    ∃ wa wb, copyEntries rec src dst w pre = some wa ∧
      copyEntry rec src dst wa fd = some wb ∧ copyEntries rec src dst wb post = some w' := by
  rw [copyEntries_append] at h
  rcases ha : copyEntries rec src dst w pre with _ | wa
  · simp [ha] at h
  · simp only [ha, Option.some_bind, copyEntries] at h
    rcases hb : copyEntry rec src dst wa fd with _ | wb
    · simp [hb] at h
    · simp only [hb] at h
      exact ⟨wa, wb, rfl, hb, h⟩

theorem copyEntry_returns (rec : World → String → String → Option (Option Error × World))
    (src dst : String) (w : World) (fd : FileInfo)
    (h : fd.isDir = true →
      ∃ r w', rec w (pathJoin [src, fd.name]) (pathJoin [dst, fd.name]) = some (r, w')) :
    ∃ w', copyEntry rec src dst w fd = some w' := by
  unfold copyEntry
  by_cases hdir : fd.isDir = true
  · obtain ⟨r, w1, hr⟩ := h hdir
    simp only [hdir, if_true, hr]
    cases r with
    | none => exact ⟨_, rfl⟩
    | some e => exact ⟨_, rfl⟩
  · simp only [hdir]
    rcases copyFile w (pathJoin [src, fd.name]) (pathJoin [dst, fd.name]) with ⟨_ | e, w1⟩
    · exact ⟨_, rfl⟩
    · exact ⟨_, rfl⟩

theorem copyEntries_returns (rec : World → String → String → Option (Option Error × World))
    (hrec : RecOk rec) (src dst : String) (hd : dst.data ≠ []) (fds : List FileInfo)
    (w : World) (hv : ∀ fd ∈ fds, validName fd.name = true)
    (h : ∀ w1, w.Extends w1 → ∀ fd ∈ fds,
      ∃ r w', rec w1 (pathJoin [src, fd.name]) (pathJoin [dst, fd.name]) = some (r, w')) :
    ∃ w', copyEntries rec src dst w fds = some w' := by
  induction fds generalizing w with
  | nil => exact ⟨w, rfl⟩
  | cons fd fds ih =>
    obtain ⟨w1, h1⟩ := copyEntry_returns rec src dst w fd
      (fun _ => h w (World.extends_refl w) fd (by simp))
    obtain ⟨hE, _⟩ := copyEntry_frame rec hrec src dst hd w w1 fd (hv fd (by simp)) h1
    obtain ⟨w', h2⟩ := ih w1 (fun x hx => hv x (List.mem_cons_of_mem _ hx))
      (fun w2 hw2 x hx => h w2 (hE.trans hw2) x (List.mem_cons_of_mem _ hx))
    exact ⟨w', by simp only [copyEntries, h1, h2]⟩

theorem depthBound_of_extends (w w' : World) (h : w.Extends w') :
    w'.depthBound = w.depthBound := by
  unfold World.depthBound
  rw [h.1, h.2.2.1]

/-- The path-length limit bounds the recursion: with enough fuel `copyDir`
returns, whatever the file system holds. -/
theorem copyDir_returns_aux (fuel : Nat) : ∀ (w : World) (src dst : String), 1 ≤ fuel →
    ((src.data ≠ [] ∧ byteLen src ≤ w.pathMax) →
      w.depthBound ≤ fuel + (resolve w.cwd src).length) →
    ∃ r w', copyDir fuel w src dst = some (r, w') := by
  induction fuel with
  | zero => intro w src dst h; omega
  | succ fuel ih =>
    intro w src dst _ hb
    simp only [copyDir]
    rcases h1 : osStat w src with ⟨e1 | srcinfo, w1⟩
    · exact ⟨_, _, rfl⟩
    simp only
    obtain ⟨hs, _, hw1⟩ := osStat_ok _ _ _ _ h1
    obtain ⟨f1, c1, u1, E1, t1⟩ := record_facts _ _ _ _ hw1
    rcases h2 : osMkdirAll w1 dst srcinfo.mode with ⟨_ | e2, w2⟩
    swap
    · exact ⟨_, _, rfl⟩
    simp only
    obtain ⟨⟨hd, _⟩, fs2, hmk, hw2⟩ := osMkdirAll_ok _ _ _ _ h2
    obtain ⟨f2, c2, u2, E2, t2⟩ := record_facts _ _ _ _ hw2
    rcases h3 : ioutilReadDir w2 src with ⟨e3 | fds, w3⟩
    · exact ⟨_, _, rfl⟩
    simp only
    obtain ⟨_, hrd, hw3⟩ := ioutilReadDir_ok _ _ _ _ h3
    obtain ⟨f3, c3, u3, E3, t3⟩ := record_facts _ _ _ _ hw3
    obtain ⟨_, hsound, _, _⟩ := FS.readDir_spec _ _ _ hrd
    have E03 : w.Extends w3 := E1.1.trans (E2.1.trans E3.1)
    have hbound := hb hs
    have hlen := resolve_length_le w.cwd src
    have hfuel : 1 ≤ fuel := by
      unfold World.depthBound at hbound
      omega
    obtain ⟨w4, h4⟩ := copyEntries_returns (copyDir fuel) (copyDir_frame fuel) src dst hd fds w3
      (fun fd hfd => (hsound fd hfd).1) (by
        intro wa hwa fd hfd
        have E0a : w.Extends wa := E03.trans hwa
        apply ih wa _ _ hfuel
        intro _
        rw [depthBound_of_extends w wa E0a, E0a.1,
          resolve_pathJoin_name w.cwd src fd.name hs.1 (hsound fd hfd).1]
        simp only [List.length_append, List.length_singleton]
        omega)
    exact ⟨none, w4, by simp only [h4]⟩

theorem copyDir_returns (fuel : Nat) (w : World) (src dst : String)
    (h : w.depthBound ≤ fuel) : ∃ r w', copyDir fuel w src dst = some (r, w') := by
  apply copyDir_returns_aux fuel w src dst
  · unfold World.depthBound at h; omega
  · intro _; omega

/-! ## The copy is a mirror -/

theorem singleton_prefix_singleton {n n' : String} (h : [n] <+: [n']) : n = n' := by
  have := h.eq_of_length rfl
  simpa using this

theorem Apart.child {s d : Loc} (h : Apart s d) (n : String) : Apart (s ++ [n]) (d ++ [n]) := by
  constructor
  · intro x
    rcases List.prefix_concat_iff.1 x with e | e
    · have := List.append_inj_left' e rfl
      exact h.1 (this ▸ List.prefix_refl _)
    · exact h.1 ((List.prefix_append s [n]).trans e)
  · intro x
    rcases List.prefix_concat_iff.1 x with e | e
    · have := List.append_inj_left' e rfl
      exact h.2 (this ▸ List.prefix_refl _)
    · exact h.2 ((List.prefix_append d [n]).trans e)

/-- A location under the source is away from everything the copy writes. -/
theorem under_src {s d p : Loc} (h : Apart s d) (hp : s <+: p) (n : String) :
    ¬ d <+: p ∧ ¬ p <+: d ∧ ¬ (d ++ [n]) <+: p ∧ ¬ p <+: d ++ [n] := by
  have h1 : ¬ d <+: p := by
    intro x
    rcases List.prefix_or_prefix_of_prefix hp x with y | y
    · exact h.1 y
    · exact h.2 y
  have h2 : ¬ p <+: d := fun x => h.1 (hp.trans x)
  refine ⟨h1, h2, not_prefix_child n h1, not_prefix_of_child n h1 h2⟩

theorem not_prefix_of_under_child {d p : Loc} {n : String} (hp : (d ++ [n]) <+: p) :
    ¬ p <+: d := by
  intro x
  have := (hp.trans x).length_le
  simp at this

/-- A location under the copy of one entry is away from the copy of another. -/
theorem under_dst_child {d p : Loc} {n n' : String} (hn : n ≠ n') (hp : (d ++ [n]) <+: p) :
    ¬ p <+: d ∧ ¬ (d ++ [n']) <+: p ∧ ¬ p <+: d ++ [n'] := by
  have h0 : ¬ p <+: d := by
    intro x
    have := (hp.trans x).length_le
    simp at this
  refine ⟨h0, ?_, ?_⟩
  · intro x
    rcases List.prefix_or_prefix_of_prefix hp x with y | y
    · exact hn (singleton_prefix_singleton ((List.prefix_append_right_inj d).1 y))
    · exact hn (singleton_prefix_singleton ((List.prefix_append_right_inj d).1 y)).symm
  · intro x
    exact hn (singleton_prefix_singleton ((List.prefix_append_right_inj d).1 (hp.trans x)))

theorem FS.reaches_congr (fs fs' : FS) (root : Loc) (rel : List String)
    (h : ∀ p, root <+: p → fs'.node p = fs.node p) (hr : fs.reaches root rel) :
    fs'.reaches root rel := by
  induction rel generalizing root with
  | nil => trivial
  | cons n rel ih =>
    obtain ⟨hv, ⟨m, hm⟩, hrest⟩ := hr
    refine ⟨hv, ⟨m, by rw [h root (List.prefix_refl _)]; exact hm⟩, ?_⟩
    exact ih (root ++ [n]) (fun p hp => h p ((List.prefix_append root [n]).trans hp)) hrest

/-- The entry reached first on the way down. -/
theorem FS.reaches_head (fs : FS) (root : Loc) (n : String) (rel : List String) (x : Node)
    (hr : fs.reaches root (n :: rel)) (hx : fs.node (root ++ n :: rel) = some x) :
    ∃ y, fs.node (root ++ [n]) = some y ∧ (rel = [] → y = x) ∧
      (rel ≠ [] → ∃ m, y = Node.dir m) := by
  cases rel with
  | nil => exact ⟨x, hx, fun _ => rfl, fun h => absurd rfl h⟩
  | cons n2 rel =>
    obtain ⟨_, _, _, ⟨m, hm⟩, _⟩ := hr
    exact ⟨Node.dir m, hm, ⟨fun h => by simp at h, fun _ => ⟨m, rfl⟩⟩⟩

theorem mem_drop_of_prefix {α : Type} {a a1 b1 b : List α} {x : α} (h0 : a <+: a1)
    (h1 : a1 <+: b1) (h2 : b1 <+: b) (hx : x ∈ b1.drop a1.length) : x ∈ b.drop a.length := by
  obtain ⟨t0, rfl⟩ := h0
  obtain ⟨t1, rfl⟩ := h1
  obtain ⟨t2, rfl⟩ := h2
  simp only [List.drop_left] at hx
  have : a ++ t0 ++ t1 ++ t2 = a ++ (t0 ++ t1 ++ t2) := by simp
  rw [this, List.drop_left]
  simp [hx]

theorem copyFailed_mono {calls calls' : List Event} {src dst : String} {rel : List String}
    (h : ∀ x ∈ calls, x ∈ calls') (hf : copyFailed calls src dst rel) :
    copyFailed calls' src dst rel := by
  obtain ⟨k, h1, h2, ev, he, hs⟩ := hf
  exact ⟨k, h1, h2, ev, h _ he, hs⟩

theorem copyFailed_cons {calls : List Event} {src dst : String} {n : String}
    {rel : List String}
    (hf : copyFailed calls (pathJoin [src, n]) (pathJoin [dst, n]) rel) :
    copyFailed calls src dst (n :: rel) := by
  obtain ⟨k, h1, h2, ev, he, hs⟩ := hf
  refine ⟨k + 1, by omega, by simp; omega, ev, he, ?_⟩
  simpa [entryPath] using hs

theorem copyFailed_head {calls : List Event} {src dst : String} {n : String}
    {rel : List String} (ev : Event) (he : ev ∈ calls) (hf : ev.failed = true)
    (hs : pathJoin [src, n] ∈ ev.args ∨ pathJoin [dst, n] ∈ ev.args) :
    copyFailed calls src dst (n :: rel) :=
  ⟨1, by omega, by simp, ev, he, hf, by simpa [entryPath] using hs⟩

/-- An error `copyDir` returns is about its source or its destination. -/
theorem copyDir_error_subject (fuel : Nat) (w w' : World) (src dst : String) (err : Error)
    (h : copyDir fuel w src dst = some (some err, w')) :
    err.subject = some src ∨ err.subject = some dst := by
  cases fuel with
  | zero => simp [copyDir] at h
  | succ fuel =>
    simp only [copyDir] at h
    rcases h1 : osStat w src with ⟨e1 | srcinfo, w1⟩
    · simp only [h1, Option.some.injEq, Prod.mk.injEq] at h
      obtain ⟨⟨e, he⟩, _⟩ := osStat_error _ _ _ _ h1
      rw [← h.1, he]; exact Or.inl rfl
    simp only [h1] at h
    rcases h2 : osMkdirAll w1 dst srcinfo.mode with ⟨_ | e2, w2⟩
    swap
    · simp only [h2, Option.some.injEq, Prod.mk.injEq] at h
      obtain ⟨⟨e, he⟩, _⟩ := osMkdirAll_error _ _ _ _ _ h2
      rw [← h.1, he]; exact Or.inr rfl
    simp only [h2] at h
    rcases h3 : ioutilReadDir w2 src with ⟨e3 | fds, w3⟩
    · simp only [h3, Option.some.injEq, Prod.mk.injEq] at h
      obtain ⟨⟨e, he⟩, _⟩ := ioutilReadDir_error _ _ _ _ h3
      rw [← h.1, he]; exact Or.inl rfl
    simp only [h3] at h
    rcases h4 : copyEntries (copyDir fuel) src dst w3 fds with _ | w4
    · simp [h4] at h
    · simp [h4] at h

/-- An error `copyDir` returns was not printed: the run wrote nothing to the
standard output. -/
theorem copyDir_error_quiet (fuel : Nat) (w w' : World) (src dst : String) (err : Error)
    (h : copyDir fuel w src dst = some (some err, w')) :
    w'.stdout = w.stdout := by
  cases fuel with
  | zero => simp [copyDir] at h
  | succ fuel =>
    simp only [copyDir] at h
    rcases h1 : osStat w src with ⟨e1 | srcinfo, w1⟩
    · simp only [h1, Option.some.injEq, Prod.mk.injEq] at h
      have q1 := (record_facts _ _ _ _ (osStat_error _ _ _ _ h1).2).2.2.2.1.2
      rw [← h.2]; exact q1
    have q1 := (record_facts _ _ _ _ (osStat_ok _ _ _ _ h1).2.2).2.2.2.1.2
    simp only [h1] at h
    rcases h2 : osMkdirAll w1 dst srcinfo.mode with ⟨_ | e2, w2⟩
    swap
    · simp only [h2, Option.some.injEq, Prod.mk.injEq] at h
      have q2 := (record_facts _ _ _ _ (osMkdirAll_error _ _ _ _ _ h2).2).2.2.2.1.2
      rw [← h.2, q2]; exact q1
    obtain ⟨-, fs2, -, hw2⟩ := osMkdirAll_ok _ _ _ _ h2
    have q2 := (record_facts _ _ _ _ hw2).2.2.2.1.2
    simp only [h2] at h
    rcases h3 : ioutilReadDir w2 src with ⟨e3 | fds, w3⟩
    · simp only [h3, Option.some.injEq, Prod.mk.injEq] at h
      have q3 := (record_facts _ _ _ _ (ioutilReadDir_error _ _ _ _ h3).2).2.2.2.1.2
      rw [← h.2, q3, q2]; exact q1
    simp only [h3] at h
    rcases h4 : copyEntries (copyDir fuel) src dst w3 fds with _ | w4
    · simp [h4] at h
    · simp [h4] at h

/-! ## Failed calls and printed lines -/

theorem Printed.nil : Printed [] [] := List.Forall₂.nil

theorem Forall₂_append {α β : Type} {R : α → β → Prop} {a1 a2 : List α} {b1 b2 : List β}
    (h1 : List.Forall₂ R a1 b1) (h2 : List.Forall₂ R a2 b2) :
    List.Forall₂ R (a1 ++ a2) (b1 ++ b2) := by
  induction h1 with
  | nil => exact h2
  | cons h _ ih => exact List.Forall₂.cons h ih

theorem Printed.append {c1 c2 : List Event} {o1 o2 : List String} (h1 : Printed c1 o1)
    (h2 : Printed c2 o2) : Printed (c1 ++ c2) (o1 ++ o2) := by
  unfold Printed at *
  rw [List.filter_append]
  exact Forall₂_append h1 h2

theorem Printed.quiet_call (ev : Event) (h : ev.failed = false) : Printed [ev] [] := by
  unfold Printed
  simp [List.filter, h]

theorem Printed.one_line (ev : Event) (errno : Errno) (e : Error) (h : ev.failed = true)
    (he : ev.error errno = some e) : Printed [ev] [e.toStr] := by
  unfold Printed
  simp only [List.filter, h]
  exact List.Forall₂.cons ⟨errno, e, he, rfl⟩ List.Forall₂.nil

/-- The error of a failed call is about one of the paths the call was given. -/
theorem Event.error_subject (ev : Event) (errno : Errno) (e : Error) (p : String)
    (h : ev.error errno = some e) (hp : e.subject = some p) : p ∈ ev.args := by
  unfold Event.error at h
  split at h
  · rename_i q hq
    rw [hq]
    split_ifs at h <;> cases h <;> (simp [Error.subject] at hp; simp [hp])
  · rename_i a b hq
    rw [hq]
    split_ifs at h
    · cases h
      simp [Error.subject] at hp
      simp [hp]
    · cases h
      simp [Error.subject] at hp
  · cases h

theorem Logged.start (w : World) : Logged w w none :=
  ⟨[], [], by simp, by simp, Printed.nil⟩

theorem Logged.ok_call (w w' : World) (fs : FS) (op : String) (args : List String)
    (h : w' = w.record fs ⟨op, args, false⟩) : Logged w w' none := by
  subst h
  exact ⟨[⟨op, args, false⟩], [], rfl, by simp [World.record], Printed.quiet_call _ rfl⟩

theorem Logged.failed_call (w w' : World) (fs : FS) (op : String) (args : List String)
    (errno : Errno) (e : Error) (h : w' = w.record fs ⟨op, args, true⟩)
    (he : Event.error ⟨op, args, true⟩ errno = some e) : Logged w w' (some e) := by
  subst h
  exact ⟨[⟨op, args, true⟩], [], rfl, by simp [World.record],
    [], ⟨op, args, true⟩, errno, rfl, rfl, he, Printed.nil⟩

theorem Logged.seq {w w1 w2 : World} {r : Option Error} (h1 : Logged w w1 none)
    (h2 : Logged w1 w2 r) : Logged w w2 r := by
  obtain ⟨c1, o1, t1, s1, p1⟩ := h1
  obtain ⟨c2, o2, t2, s2, p2⟩ := h2
  refine ⟨c1 ++ c2, o1 ++ o2, by rw [t2, t1, List.append_assoc],
    by rw [s2, s1, List.append_assoc], ?_⟩
  cases r with
  | none => exact Printed.append p1 p2
  | some e =>
    obtain ⟨pre, ev, errno, hc, hf, he, hp⟩ := p2
    refine ⟨c1 ++ pre, ev, errno, by rw [hc, List.append_assoc], hf, he, ?_⟩
    have := Printed.append p1 hp
    exact this

theorem Logged.print {w w1 : World} {e : Error} (h : Logged w w1 (some e)) :
    Logged w (fmtPrintln w1 e) none := by
  obtain ⟨c, o, t, s, pre, ev, errno, hc, hf, he, hp⟩ := h
  refine ⟨c, o ++ [e.toStr], t, ?_, ?_⟩
  · show w1.stdout ++ [e.toStr] = _
    rw [s, List.append_assoc]
  · show Printed c (o ++ [e.toStr])
    rw [hc]
    exact Printed.append hp (Printed.one_line ev errno e hf he)

/-- The failed call behind an error a run returned. -/
theorem Logged.failed {w w' : World} {e : Error} {p : String} (h : Logged w w' (some e))
    (hp : e.subject = some p) :
    ∃ ev ∈ w'.trace.drop w.trace.length, ev.failed = true ∧ p ∈ ev.args := by
  obtain ⟨c, o, t, s, pre, ev, errno, hc, hf, he, _⟩ := h
  refine ⟨ev, ?_, hf, Event.error_subject ev errno e p he hp⟩
  rw [t, List.drop_left, hc]
  simp

theorem Logged.printed {w w' : World} (h : Logged w w' none) :
    Printed (w'.trace.drop w.trace.length) (w'.stdout.drop w.stdout.length) := by
  obtain ⟨c, o, t, s, hp⟩ := h
  rw [t, s, List.drop_left, List.drop_left]
  exact hp

theorem copyFile_logged (w w' : World) (src dst : String) (r : Option Error)
    (h : copyFile w src dst = (r, w')) : Logged w w' r := by
  unfold copyFile at h
  rcases h1 : osOpen w src with ⟨_ | e1, w1⟩
  swap
  · simp only [h1, Prod.mk.injEq] at h
    obtain ⟨⟨e, he⟩, hw⟩ := osOpen_error _ _ _ _ h1
    rw [← h.1, ← h.2, he]
    exact Logged.failed_call _ _ _ _ _ e _ hw (by simp [Event.error])
  have L1 := Logged.ok_call _ _ _ _ _ (osOpen_ok _ _ _ h1).2
  simp only [h1] at h
  rcases h2 : osCreate w1 dst with ⟨_ | e2, w2⟩
  swap
  · simp only [h2, Prod.mk.injEq] at h
    obtain ⟨⟨e, he⟩, hw⟩ := osCreate_error _ _ _ _ h2
    rw [← h.1, ← h.2, he]
    exact L1.seq (Logged.failed_call _ _ _ _ _ e _ hw (by simp [Event.error]))
  obtain ⟨_, fs2, _, hw2⟩ := osCreate_ok _ _ _ h2
  have L2 := L1.seq (Logged.ok_call _ _ _ _ _ hw2)
  simp only [h2] at h
  rcases h3 : ioCopy w2 dst src with ⟨_ | e3, w3⟩
  swap
  · simp only [h3, Prod.mk.injEq] at h
    obtain ⟨⟨e, he⟩, hw⟩ := ioCopy_error _ _ _ _ _ h3
    rw [← h.1, ← h.2, he]
    exact L2.seq (Logged.failed_call _ _ _ _ _ e _ hw (by simp [Event.error]))
  obtain ⟨_, fs3, _, _, hw3⟩ := ioCopy_ok _ _ _ _ h3
  have L3 := L2.seq (Logged.ok_call _ _ _ _ _ hw3)
  simp only [h3] at h
  rcases h4 : osStat w3 src with ⟨e4 | fi, w4⟩
  · simp only [h4, Prod.mk.injEq] at h
    obtain ⟨⟨e, he⟩, hw⟩ := osStat_error _ _ _ _ h4
    rw [← h.1, ← h.2, he]
    exact L3.seq (Logged.failed_call _ _ _ _ _ e _ hw (by simp [Event.error]))
  have L4 := L3.seq (Logged.ok_call _ _ _ _ _ (osStat_ok _ _ _ _ h4).2.2)
  simp only [h4] at h
  cases r with
  | some err =>
    obtain ⟨⟨e, he⟩, hw⟩ := osChmod_error _ _ _ _ _ h
    rw [he]
    exact L4.seq (Logged.failed_call _ _ _ _ _ e _ hw (by simp [Event.error]))
  | none =>
    obtain ⟨fs5, _, hw5⟩ := osChmod_ok _ _ _ _ h
    exact L4.seq (Logged.ok_call _ _ _ _ _ hw5)

theorem copyEntry_logged (rec : World → String → String → Option (Option Error × World))
    (hrec : ∀ w s d r w', rec w s d = some (r, w') → Logged w w' r)
    (src dst : String) (w w' : World) (fd : FileInfo)
    (h : copyEntry rec src dst w fd = some w') : Logged w w' none := by
  unfold copyEntry at h
  by_cases hd : fd.isDir = true
  · simp only [hd, if_true] at h
    rcases hr : rec w (pathJoin [src, fd.name]) (pathJoin [dst, fd.name]) with _ | ⟨_ | err, w1⟩
    · simp [hr] at h
    · simp only [hr, Option.some.injEq] at h
      rw [← h]
      exact hrec _ _ _ _ _ hr
    · simp only [hr, Option.some.injEq] at h
      rw [← h]
      exact (hrec _ _ _ _ _ hr).print
  · simp only [hd, Bool.false_eq_true, if_false] at h
    rcases hr : copyFile w (pathJoin [src, fd.name]) (pathJoin [dst, fd.name]) with ⟨_ | err, w1⟩
    · simp only [hr, Option.some.injEq] at h
      rw [← h]
      exact copyFile_logged _ _ _ _ _ hr
    · simp only [hr, Option.some.injEq] at h
      rw [← h]
      exact (copyFile_logged _ _ _ _ _ hr).print

theorem copyEntries_logged (rec : World → String → String → Option (Option Error × World))
    (hrec : ∀ w s d r w', rec w s d = some (r, w') → Logged w w' r)
    (src dst : String) (fds : List FileInfo) : ∀ (w w' : World),
    copyEntries rec src dst w fds = some w' → Logged w w' none := by
  induction fds with
  | nil =>
    intro w w' h
    simp only [copyEntries, Option.some.injEq] at h
    rw [← h]
    exact Logged.start w
  | cons fd fds ih =>
    intro w w' h
    simp only [copyEntries] at h
    rcases h1 : copyEntry rec src dst w fd with _ | w1
    · simp [h1] at h
    · simp only [h1] at h
      exact (copyEntry_logged rec hrec src dst w w1 fd h1).seq (ih w1 w' h)

/-- The lines `copyDir` prints are the errors of its failed calls, but for the
error it returns. -/
theorem copyDir_logged (fuel : Nat) : ∀ (w w' : World) (src dst : String) (r : Option Error),
    copyDir fuel w src dst = some (r, w') → Logged w w' r := by
  induction fuel with
  | zero => intro w w' src dst r h; simp [copyDir] at h
  | succ fuel ih =>
    intro w w' src dst r h
    simp only [copyDir] at h
    rcases h1 : osStat w src with ⟨e1 | srcinfo, w1⟩
    · simp only [h1, Option.some.injEq, Prod.mk.injEq] at h
      obtain ⟨⟨e, he⟩, hw⟩ := osStat_error _ _ _ _ h1
      rw [← h.1, ← h.2, he]
      exact Logged.failed_call _ _ _ _ _ e _ hw (by simp [Event.error])
    have L1 := Logged.ok_call _ _ _ _ _ (osStat_ok _ _ _ _ h1).2.2
    simp only [h1] at h
    rcases h2 : osMkdirAll w1 dst srcinfo.mode with ⟨_ | e2, w2⟩
    swap
    · simp only [h2, Option.some.injEq, Prod.mk.injEq] at h
      obtain ⟨⟨e, he⟩, hw⟩ := osMkdirAll_error _ _ _ _ _ h2
      rw [← h.1, ← h.2, he]
      exact L1.seq (Logged.failed_call _ _ _ _ _ e _ hw (by simp [Event.error]))
    obtain ⟨_, fs2, _, hw2⟩ := osMkdirAll_ok _ _ _ _ h2
    have L2 := L1.seq (Logged.ok_call _ _ _ _ _ hw2)
    simp only [h2] at h
    rcases h3 : ioutilReadDir w2 src with ⟨e3 | fds, w3⟩
    · simp only [h3, Option.some.injEq, Prod.mk.injEq] at h
      obtain ⟨⟨e, he⟩, hw⟩ := ioutilReadDir_error _ _ _ _ h3
      rw [← h.1, ← h.2, he]
      exact L2.seq (Logged.failed_call _ _ _ _ _ e _ hw (by simp [Event.error]))
    have L3 := L2.seq (Logged.ok_call _ _ _ _ _ (ioutilReadDir_ok _ _ _ _ h3).2.2)
    simp only [h3] at h
    rcases h4 : copyEntries (copyDir fuel) src dst w3 fds with _ | w4
    · simp [h4] at h
    · simp only [h4, Option.some.injEq, Prod.mk.injEq] at h
      rw [← h.1, ← h.2]
      exact L3.seq (copyEntries_logged (copyDir fuel) (fun w s d r w' => ih w w' s d r)
        src dst fds w3 w4 h4)

theorem Node.info_mode (n : String) (x : Node) : (x.info n).mode = x.mode := by
  cases x <;> rfl

theorem Node.info_isDir_file (n : String) (m : Nat) (d : List Nat) :
    ((Node.file m d).info n).isDir = false := rfl

theorem Node.info_isDir_dir (n : String) (m : Nat) : ((Node.dir m).info n).isDir = true := rfl

/-- After `copyDir` has returned without error its destination is a directory:
made with the permission bits of the source less the umask, or the one that was
there. -/
theorem copyDir_root (fuel : Nat) (w w' : World) (src dst : String)
    (h : copyDir fuel w src dst = some (none, w')) :
    ∃ x, w.fs.node (resolve w.cwd src) = some x ∧ (∃ m, x = Node.dir m) ∧
      ∃ m', w'.fs.node (resolve w.cwd dst) = some (Node.dir m') ∧
        (w.fs.node (resolve w.cwd dst) = none → m' = applyUmask x.mode w.umask) ∧
        (∀ m0, w.fs.node (resolve w.cwd dst) = some (Node.dir m0) → m' = m0) := by
  cases fuel with
  | zero => simp [copyDir] at h
  | succ fuel =>
    simp only [copyDir] at h
    rcases h1 : osStat w src with ⟨e1 | srcinfo, w1⟩
    · simp [h1] at h
    simp only [h1] at h
    obtain ⟨hs, ⟨x, nm, hx, hfi⟩, hw1⟩ := osStat_ok _ _ _ _ h1
    obtain ⟨f1, c1, u1, E1, t1⟩ := record_facts _ _ _ _ hw1
    rcases h2 : osMkdirAll w1 dst srcinfo.mode with ⟨_ | e2, w2⟩
    swap
    · simp [h2] at h
    simp only [h2] at h
    obtain ⟨⟨hd, _⟩, fs2, hmk, hw2⟩ := osMkdirAll_ok _ _ _ _ h2
    obtain ⟨f2, c2, u2, E2, t2⟩ := record_facts _ _ _ _ hw2
    rw [c1, f1, u1] at hmk
    obtain ⟨⟨m', hm', hnew, hold⟩, hpres, _⟩ := FS.mkdirAll_spec _ _ _ _ _ hmk
    rcases h3 : ioutilReadDir w2 src with ⟨e3 | fds, w3⟩
    · simp [h3] at h
    simp only [h3] at h
    obtain ⟨_, hrd, hw3⟩ := ioutilReadDir_ok _ _ _ _ h3
    obtain ⟨f3, c3, u3, E3, t3⟩ := record_facts _ _ _ _ hw3
    obtain ⟨⟨ms, hms⟩, hsound, _, _⟩ := FS.readDir_spec _ _ _ hrd
    rw [c2, c1, f2, hpres _ _ hx] at hms
    rcases h4 : copyEntries (copyDir fuel) src dst w3 fds with _ | w4
    · simp [h4] at h
    simp only [h4, Option.some.injEq, Prod.mk.injEq, true_and] at h
    subst h
    obtain ⟨_, hF4⟩ := copyEntries_frame (copyDir fuel) (copyDir_frame fuel) src dst hd fds w3 w4
      (fun fd hfd => (hsound fd hfd).1) h4
    have c3' : w3.cwd = w.cwd := by rw [c3, c2, c1]
    rw [c3', f3, f2] at hF4
    refine ⟨x, hx, ⟨ms, Option.some.inj hms⟩, m', ?_, ?_, hold⟩
    · apply (hF4 (resolve w.cwd dst) ?_).2 _ hm'
      intro fd _ hp
      have := hp.length_le
      simp at this
    · intro hn
      rw [hnew hn, hfi, Node.info_mode]

/-- The mirror, by induction on the depth of the tree copied. -/
theorem copyDir_mirror_aux (fuel : Nat) : ∀ (w w' : World) (src dst : String),
    copyDir fuel w src dst = some (none, w') →
    Apart (resolve w.cwd src) (resolve w.cwd dst) →
    ∀ (rel : List String) (x : Node), rel ≠ [] → w.fs.reaches (resolve w.cwd src) rel →
      w.fs.node (resolve w.cwd src ++ rel) = some x →
      copyFailed (w'.trace.drop w.trace.length) src dst rel ∨
        Mirrored w.umask (w.fs.node (resolve w.cwd dst ++ rel))
          (w'.fs.node (resolve w.cwd dst ++ rel)) x := by
  induction fuel with
  | zero => intro w w' src dst h; simp [copyDir] at h
  | succ fuel ih =>
    intro w w' src dst h hA rel x hne hreach hx
    simp only [copyDir] at h
    rcases h1 : osStat w src with ⟨e1 | srcinfo, w1⟩
    · simp [h1] at h
    simp only [h1] at h
    obtain ⟨hs, _, hw1⟩ := osStat_ok _ _ _ _ h1
    obtain ⟨f1, c1, u1, E1, t1⟩ := record_facts _ _ _ _ hw1
    rcases h2 : osMkdirAll w1 dst srcinfo.mode with ⟨_ | e2, w2⟩
    swap
    · simp [h2] at h
    simp only [h2] at h
    obtain ⟨⟨hd, _⟩, fs2, hmk, hw2⟩ := osMkdirAll_ok _ _ _ _ h2
    obtain ⟨f2, c2, u2, E2, t2⟩ := record_facts _ _ _ _ hw2
    rw [c1, f1, u1] at hmk
    obtain ⟨_, hpres2, hframe2⟩ := FS.mkdirAll_spec _ _ _ _ _ hmk
    rcases h3 : ioutilReadDir w2 src with ⟨e3 | fds, w3⟩
    · simp [h3] at h
    simp only [h3] at h
    obtain ⟨_, hrd, hw3⟩ := ioutilReadDir_ok _ _ _ _ h3
    obtain ⟨f3, c3, u3, E3, t3⟩ := record_facts _ _ _ _ hw3
    rw [c2, c1, f2] at hrd
    obtain ⟨_, hsound, hnodup, hcomplete⟩ := FS.readDir_spec _ _ _ hrd
    rcases h4 : copyEntries (copyDir fuel) src dst w3 fds with _ | w4
    · simp [h4] at h
    simp only [h4, Option.some.injEq, Prod.mk.injEq, true_and] at h
    subst h
    have c3' : w3.cwd = w.cwd := by rw [c3, c2, c1]
    have f3' : w3.fs = fs2 := by rw [f3, f2]
    have E03 : w.Extends w3 := E1.1.trans (E2.1.trans E3.1)
    -- the entry the way down starts with
    cases rel with
    | nil => exact absurd rfl hne
    | cons n rel =>
    obtain ⟨y, hy, hy1, hy2⟩ := FS.reaches_head _ _ _ _ _ hreach hx
    obtain ⟨hv, _, hreach'⟩ := hreach
    have hfd : y.info n ∈ fds := hcomplete n y hv (hpres2 _ _ hy)
    obtain ⟨pre, post, hsplit⟩ := List.append_of_mem hfd
    subst hsplit
    obtain ⟨wa, wb, ha, hb, hc⟩ := copyEntries_split _ _ _ _ _ _ _ _ h4
    -- the names of the other entries
    have hpre : ∀ fd ∈ pre, fd.name ≠ n := by
      intro fd hfd' e
      simp only [List.map_append, List.map_cons, Node.info_name] at hnodup
      have := (List.nodup_append.1 hnodup).2.2
      exact this (List.mem_map_of_mem _ hfd') (by rw [e]; simp)
    have hpost : ∀ fd ∈ post, fd.name ≠ n := by
      intro fd hfd' e
      simp only [List.map_append, List.map_cons, Node.info_name] at hnodup
      have := (List.nodup_cons.1 (List.nodup_append.1 hnodup).2.1).1
      exact this (e ▸ List.mem_map_of_mem _ hfd')
    have hvalid : ∀ fd ∈ pre ++ y.info n :: post, validName fd.name = true :=
      fun fd hfd' => (hsound fd hfd').1
    obtain ⟨Ea, Fa⟩ := copyEntries_frame (copyDir fuel) (copyDir_frame fuel) src dst hd pre w3 wa
      (fun fd hfd' => hvalid fd (by simp [hfd'])) ha
    obtain ⟨Eb, _⟩ := copyEntry_frame (copyDir fuel) (copyDir_frame fuel) src dst hd wa wb
      (y.info n) (hvalid _ (by simp)) hb
    obtain ⟨Ec, Fc⟩ := copyEntries_frame (copyDir fuel) (copyDir_frame fuel) src dst hd post wb w4
      (fun fd hfd' => hvalid fd (by simp [hfd'])) hc
    have ca : wa.cwd = w.cwd := by rw [Ea.1, c3']
    have cb : wb.cwd = w.cwd := by rw [Eb.1, ca]
    have ua : wa.umask = w.umask := by rw [Ea.2.1, E03.2.1]
    rw [c3', f3'] at Fa
    rw [cb] at Fc
    have keyA : ∀ p, (resolve w.cwd src <+: p ∨ (resolve w.cwd dst ++ [n]) <+: p) →
        wa.fs.node p = w.fs.node p := by
      intro p hp
      rcases hp with hp | hp
      · rw [(Fa p (fun fd _ => (under_src hA hp fd.name).2.2.1)).1
          (fun fd _ => (under_src hA hp fd.name).2.2.2)]
        exact hframe2 p (under_src hA hp n).2.1
      · rw [(Fa p (fun fd hfd' => (under_dst_child (hpre fd hfd').symm hp).2.1)).1
          (fun fd hfd' => (under_dst_child (hpre fd hfd').symm hp).2.2)]
        exact hframe2 p (not_prefix_of_under_child hp)
    have keyC : ∀ p, (resolve w.cwd dst ++ [n]) <+: p → w4.fs.node p = wb.fs.node p := by
      intro p hp
      exact (Fc p (fun fd hfd' => (under_dst_child (hpost fd hfd').symm hp).2.1)).1
        (fun fd hfd' => (under_dst_child (hpost fd hfd').symm hp).2.2)
    have hout : ∀ ev, ev ∈ wb.trace.drop wa.trace.length →
        ev ∈ w4.trace.drop w.trace.length :=
      fun ev hl => mem_drop_of_prefix (E03.trans Ea).2.2.2.2.2 Eb.2.2.2.2.2 Ec.2.2.2.2.2 hl
    have hlocS : resolve wa.cwd (pathJoin [src, n]) = resolve w.cwd src ++ [n] := by
      rw [ca]; exact resolve_pathJoin_name _ _ _ hs.1 hv
    have hlocD : resolve wa.cwd (pathJoin [dst, n]) = resolve w.cwd dst ++ [n] := by
      rw [ca]; exact resolve_pathJoin_name _ _ _ hd hv
    have hDpre : ∀ rel', (resolve w.cwd dst ++ [n]) <+: resolve w.cwd dst ++ n :: rel' :=
      fun rel' => ⟨rel', by simp⟩
    have hSpre : ∀ rel', resolve w.cwd src <+: resolve w.cwd src ++ n :: rel' :=
      fun rel' => ⟨n :: rel', rfl⟩
    unfold copyEntry at hb
    simp only [Node.info_name] at hb
    cases y with
    | file m d =>
      have hrel : rel = [] := by
        by_contra hc
        obtain ⟨m', hm'⟩ := hy2 hc
        cases hm'
      subst hrel
      have hxy := hy1 rfl
      subst hxy
      simp only [Node.info_isDir_file, Bool.false_eq_true, if_false] at hb
      rcases hr : copyFile wa (pathJoin [src, n]) (pathJoin [dst, n]) with ⟨_ | err, w5⟩
      · simp only [hr, Option.some.injEq] at hb
        subst hb
        obtain ⟨_, _, _, _, hok⟩ := copyFile_spec _ _ _ _ _ hr
        rw [hlocS, hlocD] at hok
        obtain ⟨m', d', hsrc, hdst⟩ := hok rfl
          (fun e => hA.1 ((List.append_inj_left' e rfl) ▸ List.prefix_refl _))
        rw [keyA _ (Or.inl ⟨[n], rfl⟩), hy] at hsrc
        cases hsrc
        right
        show w4.fs.node _ = _
        rw [keyC _ (List.prefix_refl _)]
        exact hdst
      · simp only [hr, Option.some.injEq] at hb
        subst hb
        obtain ⟨_, _, _, hsub, _⟩ := copyFile_spec _ _ _ _ _ hr
        left
        rcases hsub err rfl with hp | hp
        · obtain ⟨ev, hev, hf, harg⟩ := (copyFile_logged _ _ _ _ _ hr).failed hp
          exact copyFailed_head ev (hout _ hev) hf (Or.inl harg)
        · obtain ⟨ev, hev, hf, harg⟩ := (copyFile_logged _ _ _ _ _ hr).failed hp
          exact copyFailed_head ev (hout _ hev) hf (Or.inr harg)
    | dir m =>
      simp only [Node.info_isDir_dir, if_true] at hb
      rcases hr : copyDir fuel wa (pathJoin [src, n]) (pathJoin [dst, n])
        with _ | ⟨_ | err, w5⟩
      · simp [hr] at hb
      · simp only [hr, Option.some.injEq] at hb
        subst hb
        by_cases hrel : rel = []
        · subst hrel
          have hxy := hy1 rfl
          subst hxy
          obtain ⟨x', hx', _, m', hm', hnew, hold⟩ := copyDir_root _ _ _ _ _ hr
          rw [hlocS, keyA _ (Or.inl ⟨[n], rfl⟩), hy] at hx'
          cases hx'
          rw [hlocD] at hm' hnew hold
          rw [keyA _ (Or.inr (List.prefix_refl _))] at hnew hold
          right
          refine ⟨m', ?_, ?_, hold⟩
          · rw [keyC _ (List.prefix_refl _)]
            exact hm'
          · intro hn
            rw [hnew hn, ua]
            rfl
        · have hstep := ih wa w5 _ _ hr (by rw [hlocS, hlocD]; exact hA.child n) rel x hrel
            (by
              rw [hlocS]
              exact FS.reaches_congr w.fs wa.fs _ rel
                (fun p hp => keyA p (Or.inl ((List.prefix_append _ _).trans hp))) hreach')
            (by
              rw [hlocS, List.append_assoc, List.singleton_append, keyA _ (Or.inl (hSpre rel))]
              exact hx)
          rcases hstep with hf | hm
          · left
            exact copyFailed_cons (copyFailed_mono hout hf)
          · right
            rw [hlocD, ua, List.append_assoc, List.singleton_append,
              keyA _ (Or.inr (hDpre rel)), ← keyC _ (hDpre rel)] at hm
            exact hm
      · simp only [hr, Option.some.injEq] at hb
        subst hb
        left
        rcases copyDir_error_subject _ _ _ _ _ _ hr with hp | hp
        · obtain ⟨ev, hev, hf, harg⟩ := (copyDir_logged _ _ _ _ _ _ hr).failed hp
          exact copyFailed_head ev (hout _ hev) hf (Or.inl harg)
        · obtain ⟨ev, hev, hf, harg⟩ := (copyDir_logged _ _ _ _ _ _ hr).failed hp
          exact copyFailed_head ev (hout _ hev) hf (Or.inr harg)

/-- The mirror, the root included. -/
theorem copyDir_mirror_all (fuel : Nat) (w w' : World) (src dst : String)
    (h : copyDir fuel w src dst = some (none, w'))
    (hA : Apart (resolve w.cwd src) (resolve w.cwd dst)) (rel : List String) (x : Node)
    (hreach : w.fs.reaches (resolve w.cwd src) rel)
    (hx : w.fs.node (resolve w.cwd src ++ rel) = some x) :
    copyFailed (w'.trace.drop w.trace.length) src dst rel ∨
      Mirrored w.umask (w.fs.node (resolve w.cwd dst ++ rel))
        (w'.fs.node (resolve w.cwd dst ++ rel)) x := by
  by_cases hrel : rel = []
  · subst hrel
    right
    obtain ⟨x', hx', ⟨m, hm⟩, m', hm', hnew, hold⟩ := copyDir_root _ _ _ _ _ h
    simp only [List.append_nil] at hx ⊢
    rw [hx] at hx'
    cases hx'
    subst hm
    exact ⟨m', hm', hnew, hold⟩
  · exact copyDir_mirror_aux fuel w w' src dst h hA rel x hrel hreach hx

theorem Mirrored.copied {umask : Nat} {before after : Option Node} {x : Node}
    (h : Mirrored umask before after x) : Copied after x := by
  cases x with
  | file m d => exact h
  | dir m =>
    obtain ⟨m', hm', _⟩ := h
    exact ⟨m', hm'⟩

/-! ## The loop of `copyDir`, entry by entry -/

/-- Every entry of the listing is gone through: the loop reaches it, copies it,
prints the error if there is one, and goes on. -/
theorem copyEntries_run (rec : World → String → String → Option (Option Error × World))
    (hrec : RecOk rec) (src dst : String) (hd : dst.data ≠ []) (pre post : List FileInfo)
    (fd : FileInfo) (w w' : World)
    (hv : ∀ x ∈ pre ++ fd :: post, validName x.name = true)
    (h : copyEntries rec src dst w (pre ++ fd :: post) = some w') :
    ∃ wa res wb, copyEntries rec src dst w pre = some wa ∧
      (if fd.isDir = true
        then rec wa (pathJoin [src, fd.name]) (pathJoin [dst, fd.name]) = some (res, wb)
        else copyFile wa (pathJoin [src, fd.name]) (pathJoin [dst, fd.name]) = (res, wb)) ∧
      (∀ err, res = some err → (wb.stdout ++ [err.toStr]) <+: w'.stdout) ∧
      wb.Extends w' := by
  obtain ⟨wa, wb, ha, hb, hc⟩ := copyEntries_split _ _ _ _ _ _ _ _ h
  obtain ⟨Ec, _⟩ := copyEntries_frame rec hrec src dst hd post wb w'
    (fun x hx => hv x (by simp [hx])) hc
  unfold copyEntry at hb
  by_cases hdir : fd.isDir = true
  · simp only [hdir, if_true] at hb ⊢
    rcases hr : rec wa (pathJoin [src, fd.name]) (pathJoin [dst, fd.name])
      with _ | ⟨_ | err, w5⟩
    · simp [hr] at hb
    · simp only [hr, Option.some.injEq] at hb
      subst hb
      exact ⟨wa, none, w5, ha, hr, fun err he => by simp at he, Ec⟩
    · simp only [hr, Option.some.injEq] at hb
      subst hb
      refine ⟨wa, some err, w5, ha, hr, ?_, (fmtPrintln_facts w5 err).2.1.trans Ec⟩
      intro e he
      cases he
      have := Ec.2.2.2.2.1
      rwa [(fmtPrintln_facts w5 err).2.2.1] at this
  · simp only [hdir, Bool.false_eq_true, if_false] at hb ⊢
    rcases hr : copyFile wa (pathJoin [src, fd.name]) (pathJoin [dst, fd.name])
      with ⟨_ | err, w5⟩
    · simp only [hr, Option.some.injEq] at hb
      subst hb
      exact ⟨wa, none, w5, ha, hr, fun err he => by simp at he, Ec⟩
    · simp only [hr, Option.some.injEq] at hb
      subst hb
      refine ⟨wa, some err, w5, ha, hr, ?_, (fmtPrintln_facts w5 err).2.1.trans Ec⟩
      intro e he
      cases he
      have := Ec.2.2.2.2.1
      rwa [(fmtPrintln_facts w5 err).2.2.1] at this

/-- The three ways `copyDir` ends at its root, and the run of its loop. -/
theorem copyDir_policy_aux (fuel : Nat) (w : World) (src dst : String)
    (hfuel : w.depthBound ≤ fuel + 1) :
    ∃ r w', copyDir (fuel + 1) w src dst = some (r, w') ∧
      (∀ err w1, osStat w src = (.error err, w1) →
        r = some err ∧ w' = w1 ∧ w'.fs = w.fs ∧ w'.stdout = w.stdout ∧
          w'.trace = w.trace ++ [⟨"stat", [src], true⟩]) ∧
      (∀ fi w1 err w2, osStat w src = (.ok fi, w1) →
        osMkdirAll w1 dst fi.mode = (some err, w2) →
        r = some err ∧ w' = w2 ∧ w'.fs = w.fs ∧ w'.stdout = w.stdout ∧
          w'.trace = w.trace ++ [⟨"stat", [src], false⟩, ⟨"mkdirall", [dst], true⟩]) ∧
      (∀ fi w1 w2 fds w3, osStat w src = (.ok fi, w1) →
        osMkdirAll w1 dst fi.mode = (none, w2) → ioutilReadDir w2 src = (.ok fds, w3) →
        r = none ∧ ∀ pre fd post, fds = pre ++ fd :: post →
          ∃ wa res wb, copyEntries (copyDir fuel) src dst w3 pre = some wa ∧
            (if fd.isDir = true
              then copyDir fuel wa (pathJoin [src, fd.name]) (pathJoin [dst, fd.name])
                = some (res, wb)
              else copyFile wa (pathJoin [src, fd.name]) (pathJoin [dst, fd.name])
                = (res, wb)) ∧
            (∀ e, res = some e → (wb.stdout ++ [e.toStr]) <+: w'.stdout) ∧
            wb.Extends w') := by
  obtain ⟨r, w', h⟩ := copyDir_returns (fuel + 1) w src dst hfuel
  refine ⟨r, w', h, ?_, ?_, ?_⟩
  · intro err w1 h1
    simp only [copyDir, h1, Option.some.injEq, Prod.mk.injEq] at h
    obtain ⟨_, hw⟩ := osStat_error _ _ _ _ h1
    obtain ⟨f1, c1, u1, E1, t1⟩ := record_facts _ _ _ _ hw
    obtain ⟨hr, hw'⟩ := h
    subst hr hw'
    exact ⟨rfl, rfl, f1, E1.2, t1⟩
  · intro fi w1 err w2 h1 h2
    simp only [copyDir, h1, h2, Option.some.injEq, Prod.mk.injEq] at h
    obtain ⟨_, _, hw1⟩ := osStat_ok _ _ _ _ h1
    obtain ⟨f1, c1, u1, E1, t1⟩ := record_facts _ _ _ _ hw1
    obtain ⟨_, hw⟩ := osMkdirAll_error _ _ _ _ _ h2
    obtain ⟨f2, c2, u2, E2, t2⟩ := record_facts _ _ _ _ hw
    obtain ⟨hr, hw'⟩ := h
    subst hr hw'
    exact ⟨rfl, rfl, by rw [f2, f1], by rw [E2.2, E1.2], by rw [t2, t1]; simp⟩
  · intro fi w1 w2 fds w3 h1 h2 h3
    simp only [copyDir, h1, h2, h3] at h
    obtain ⟨⟨hd, _⟩, _⟩ := osMkdirAll_ok _ _ _ _ h2
    obtain ⟨_, hrd, _⟩ := ioutilReadDir_ok _ _ _ _ h3
    obtain ⟨_, hsound, _, _⟩ := FS.readDir_spec _ _ _ hrd
    rcases h4 : copyEntries (copyDir fuel) src dst w3 fds with _ | w4
    · simp [h4] at h
    simp only [h4, Option.some.injEq, Prod.mk.injEq] at h
    obtain ⟨hr, hw'⟩ := h
    subst hr hw'
    refine ⟨rfl, ?_⟩
    intro pre fd post hsplit
    subst hsplit
    exact copyEntries_run (copyDir fuel) (copyDir_frame fuel) src dst hd pre post fd w3 w4
      (fun x hx => (hsound x hx).1) h4

/-! ## `rename` -/

theorem append_drop_eq_self_iff (old new k : Loc) (h : old <+: k) :
    new ++ k.drop old.length = new ↔ k = old := by
  obtain ⟨t, rfl⟩ := h
  simp

theorem FS.move_lookup_other (fs : FS) (old new p : Loc) (h1 : ¬ old <+: p)
    (h2 : ¬ new <+: p) : (fs.move old new).lookup p = fs.lookup p := by
  induction fs with
  | nil => rfl
  | cons e rest ih =>
    obtain ⟨k, v⟩ := e
    unfold FS.move at ih ⊢
    by_cases hn : new <+: k
    · have hpk : (p == k) = false := by
        simp only [beq_eq_false_iff_ne, ne_eq]
        intro e; exact h2 (e ▸ hn)
      simp only [List.filter_cons, hn, not_true_eq_false, decide_False, Bool.false_eq_true,
        if_false, List.lookup, hpk]
      exact ih
    · by_cases ho : old <+: k
      · have hpk : (p == k) = false := by
          simp only [beq_eq_false_iff_ne, ne_eq]
          intro e; exact h1 (e ▸ ho)
        have hpk' : (p == new ++ k.drop old.length) = false := by
          simp only [beq_eq_false_iff_ne, ne_eq]
          intro e; exact h2 (e ▸ List.prefix_append _ _)
        simp only [List.filter_cons, hn, not_false_eq_true, decide_True, if_true, List.map_cons,
          ho, List.lookup, hpk, hpk']
        exact ih
      · simp only [List.filter_cons, hn, not_false_eq_true, decide_True, if_true, List.map_cons,
          ho, if_false, List.lookup]
        cases p == k
        · exact ih
        · rfl

theorem FS.move_lookup_new (fs : FS) (old new : Loc) (h : Apart old new) :
    (fs.move old new).lookup new = fs.lookup old := by
  induction fs with
  | nil => rfl
  | cons e rest ih =>
    obtain ⟨k, v⟩ := e
    unfold FS.move at ih ⊢
    by_cases hn : new <+: k
    · have hok : (old == k) = false := by
        simp only [beq_eq_false_iff_ne, ne_eq]
        intro e; exact h.2 (e ▸ hn)
      simp only [List.filter_cons, hn, not_true_eq_false, decide_False, Bool.false_eq_true,
        if_false, List.lookup, hok]
      exact ih
    · by_cases ho : old <+: k
      · simp only [List.filter_cons, hn, not_false_eq_true, decide_True, if_true, List.map_cons,
          ho, List.lookup]
        by_cases hk : k = old
        · subst hk
          simp
        · have h1 : (old == k) = false := by
            simp only [beq_eq_false_iff_ne, ne_eq]
            exact fun e => hk e.symm
          have h2 : (new == new ++ k.drop old.length) = false := by
            simp only [beq_eq_false_iff_ne, ne_eq]
            intro e
            exact hk ((append_drop_eq_self_iff old new k ho).1 e.symm)
          simp only [h1, h2]
          exact ih
      · have h1 : (old == k) = false := by
          simp only [beq_eq_false_iff_ne, ne_eq]
          intro e; exact ho (e ▸ List.prefix_refl _)
        have h2 : (new == k) = false := by
          simp only [beq_eq_false_iff_ne, ne_eq]
          intro e; exact hn (e ▸ List.prefix_refl _)
        simp only [List.filter_cons, hn, not_false_eq_true, decide_True, if_true, List.map_cons,
          ho, if_false, List.lookup, h1, h2]
        exact ih

theorem FS.node_congr (fs fs' : FS) (p q : Loc) (hp : p = [] ↔ q = [])
    (h : fs'.lookup p = fs.lookup q) : fs'.node p = fs.node q := by
  unfold FS.node
  rw [h]
  cases fs.lookup q with
  | some n => rfl
  | none =>
    by_cases hq : q = []
    · simp [hq, hp.2 hq]
    · have hp' : p ≠ [] := fun e => hq (hp.1 e)
      simp [hq, hp']

/-- What a move leaves behind: at the new location the node of the old one;
elsewhere, away from both, what was there. -/
theorem FS.rename_spec (fs fs' : FS) (old new : Loc) (h : fs.rename old new = .ok fs') :
    (∃ src, fs.node old = some src) ∧ fs'.node new = fs.node old ∧
      (∀ p, ¬ old <+: p → ¬ new <+: p → fs'.node p = fs.node p) := by
  unfold FS.rename at h
  split at h
  · cases h
  · rename_i src hsrc
    by_cases heq : old = new
    · simp only [heq, if_true] at h
      cases h
      subst heq
      exact ⟨⟨src, hsrc⟩, rfl, fun _ _ _ => rfl⟩
    · simp only [heq, if_false] at h
      split at h
      · cases h
      · rename_i h1
        split at h
        · cases h
        · rename_i h2
          simp only [not_or] at h1
          have hA : Apart old new := ⟨h1.2.2, h2⟩
          have hmove : fs' = fs.move old new := by
            split at h
            · cases h
            · cases h
            · split at h
              · cases h
              · cases h
              · split at h
                · cases h
                · cases h; rfl
              · cases h; rfl
          subst hmove
          refine ⟨⟨src, hsrc⟩, ?_, ?_⟩
          · exact FS.node_congr _ _ _ _ (by simp [h1.1, h1.2.1]) (FS.move_lookup_new fs old new hA)
          · intro p hp1 hp2
            exact FS.node_congr _ _ _ _ Iff.rfl (FS.move_lookup_other fs old new p hp1 hp2)

/-! ## The merge and the patch -/

/-- The state after the command has run. -/
theorem execRun_spec (env : Env) (w w' : World) (name : String) (args : List String)
    (r : Option Error) (h : execRun env w name args = (r, w')) :
    w' = { w with fs := (env.lipo args w.cwd w.fs).2,
                  trace := w.trace ++ [⟨name, args, r.isSome⟩] } ∧
      r = (env.lipo args w.cwd w.fs).1.map Error.text := by
  unfold execRun at h
  rcases hl : env.lipo args w.cwd w.fs with ⟨_ | msg, fs⟩
  · simp only [hl, Prod.mk.injEq] at h
    obtain ⟨h1, h2⟩ := h
    subst h1 h2
    exact ⟨rfl, rfl⟩
  · simp only [hl, Prod.mk.injEq] at h
    obtain ⟨h1, h2⟩ := h
    subst h1 h2
    exact ⟨rfl, rfl⟩

theorem execRun_extends (env : Env) (w w' : World) (name : String) (args : List String)
    (r : Option Error) (h : execRun env w name args = (r, w')) :
    w.Extends w' ∧ w'.stdout = w.stdout ∧ w'.faults = w.faults := by
  obtain ⟨hw, _⟩ := execRun_spec env w w' name args r h
  subst hw
  exact ⟨⟨rfl, rfl, rfl, rfl, List.prefix_refl _, List.prefix_append _ _⟩, rfl, rfl⟩

/-- The merge step when it succeeds. -/
theorem mergeLibraries_ok (env : Env) (w w' : World) (name sim os : String)
    (h : mergeLibraries env w name sim os = (none, w')) :
    ∃ w1 fs, execRun env w "lipo" (lipoArgs name sim os) = (none, w1) ∧
      w1.fs.rename (resolve w.cwd (pathJoin [os, name]))
        (resolve w.cwd (pathJoin [os, name ++ ".framework/" ++ name])) = .ok fs ∧
      w' = w1.record fs
        ⟨"rename", [pathJoin [os, name], pathJoin [os, name ++ ".framework/" ++ name]],
          false⟩ := by
  unfold mergeLibraries at h
  rcases h1 : execRun env w "lipo" (lipoArgs name sim os) with ⟨_ | e1, w1⟩
  swap
  · simp only [lipoArgs] at h1
    simp [h1] at h
  simp only [lipoArgs] at h1
  simp only [h1] at h
  rcases h2 : osRename w1 (pathJoin [os, name]) (pathJoin [os, name ++ ".framework/" ++ name])
    with ⟨_ | e2, w2⟩
  swap
  · simp [h2] at h
  simp only [h2, Prod.mk.injEq, true_and] at h
  subst h
  obtain ⟨fs, hr, hw⟩ := osRename_ok _ _ _ _ h2
  rw [(execRun_extends _ _ _ _ _ _ h1).1.1] at hr
  exact ⟨w1, fs, rfl, hr, hw⟩

/-- The merge step when it fails: at the command, or at the move. -/
theorem mergeLibraries_error (env : Env) (w w' : World) (name sim os : String) (err : Error)
    (h : mergeLibraries env w name sim os = (some err, w')) :
    (∃ e, execRun env w "lipo" (lipoArgs name sim os) = (some e, w') ∧
        err = fmtErrorf "failed to run lipo to combine static libraries" e) ∨
      (∃ w1 e, execRun env w "lipo" (lipoArgs name sim os) = (none, w1) ∧
        osRename w1 (pathJoin [os, name]) (pathJoin [os, name ++ ".framework/" ++ name])
          = (some e, w') ∧
        err = fmtErrorf "failed to move combined static library" e) := by
  unfold mergeLibraries at h
  rcases h1 : execRun env w "lipo" (lipoArgs name sim os) with ⟨_ | e1, w1⟩
  swap
  · simp only [lipoArgs] at h1
    simp only [h1, Prod.mk.injEq, Option.some.injEq] at h
    obtain ⟨he, hw⟩ := h
    subst he hw
    exact Or.inl ⟨e1, rfl, rfl⟩
  simp only [lipoArgs] at h1
  simp only [h1] at h
  rcases h2 : osRename w1 (pathJoin [os, name]) (pathJoin [os, name ++ ".framework/" ++ name])
    with ⟨_ | e2, w2⟩
  · simp [h2] at h
  simp only [h2, Prod.mk.injEq, Option.some.injEq] at h
  obtain ⟨he, hw⟩ := h
  subst he hw
  exact Or.inr ⟨w1, e2, rfl, h2, rfl⟩

/-- The patch step when it succeeds: the calls made and their results. -/
theorem patchInfoPlist_ok (env : Env) (w w' : World) (name os : String)
    (h : patchInfoPlist env w name os = (none, w')) :
    ∃ data w1 pl format data',
      ioutilReadFile w (plistPathOf name os) = (.ok data, w1) ∧
      env.unmarshal data = .ok (pl, format) ∧
      env.marshal (pl.set "CFBundleSupportedPlatforms" supportedPlatforms) format = .ok data' ∧
      ioutilWriteFile w1 (plistPathOf name os) data' 0o644 = (none, w') := by
  unfold patchInfoPlist at h
  rcases h1 : ioutilReadFile w (plistPathOf name os) with ⟨e1 | data, w1⟩
  · simp only [plistPathOf] at h1
    simp [h1] at h
  simp only [plistPathOf] at h1
  simp only [h1] at h
  rcases h2 : env.unmarshal data with e2 | ⟨pl, format⟩
  · simp [h2] at h
  simp only [h2] at h
  rcases h3 : env.marshal (pl.set "CFBundleSupportedPlatforms" supportedPlatforms) format
    with e3 | data'
  · simp [h3] at h
  simp only [h3] at h
  rcases h4 : ioutilWriteFile w1 (pathJoin [os, name ++ ".framework/Info.plist"]) data' 0o644
    with ⟨_ | e4, w2⟩
  swap
  · simp [h4] at h
  simp only [h4, Prod.mk.injEq, true_and] at h
  subst h
  exact ⟨data, w1, pl, format, data', rfl, h2, h3, h4⟩

/-- The file after a successful write: the data, under the permission bits the
file had. -/
theorem writeFile_node (w w' : World) (filename : String) (data : List Nat) (perm : Nat)
    (h : ioutilWriteFile w filename data perm = (none, w')) :
    (∃ m, w'.fs.node (resolve w.cwd filename) = some (Node.file m data) ∧
        ∀ m0 d0, w.fs.node (resolve w.cwd filename) = some (Node.file m0 d0) → m = m0) ∧
      (∀ p, p ≠ resolve w.cwd filename → w'.fs.node p = w.fs.node p) ∧
      (w.Extends w' ∧ w'.stdout = w.stdout) := by
  obtain ⟨fs1, fs2, hc, hwr, hw⟩ := ioutilWriteFile_ok _ _ _ _ _ h
  obtain ⟨f, c, u, E, t⟩ := record_facts _ _ _ _ hw
  obtain ⟨m1, hfs1, hm1, _⟩ := FS.create_spec _ _ _ _ _ hc
  obtain ⟨m2, d2, hn2, hfs2⟩ := FS.write_spec _ _ _ _ hwr
  subst hfs1
  rw [FS.node_cons_self] at hn2
  cases hn2
  subst hfs2
  refine ⟨⟨m1, by rw [f, FS.node_cons_self], hm1⟩, ?_, E⟩
  intro p hp
  rw [f, FS.node_cons_ne _ _ _ _ hp, FS.node_cons_ne _ _ _ _ hp]

/-! ## `main` -/

/-- Past the flags, the stat and the listing, `main` is the call of
`combineStaticLibraries` and its exit. -/
theorem main_reach (env : Env) (fuel : Nat) (w w1 w2 : World) (args : List (String × String))
    (fl : Flags) (files : List FileInfo)
    (hp : flagParse flagDefaults args = some fl)
    (h1 : fl.user ≠ "") (h2 : fl.sdkProjectName ≠ "") (h3 : fl.frameworkName ≠ "")
    (h4 : fl.outputFolder ≠ "")
    (he : pathExists w (derivedDataPathOf fl.user) = ((true, none), w1))
    (hr : ioutilReadDir w1 (derivedDataPathOf fl.user) = (.ok files, w2)) :
    main env fuel w args =
      mainExit (combineStaticLibraries env fuel w2 fl.frameworkName
        (simulatorBuildPathOf
          (findProject (derivedDataPathOf fl.user) fl.sdkProjectName files) fl.buildConfig)
        (osBuildPathOf
          (findProject (derivedDataPathOf fl.user) fl.sdkProjectName files) fl.buildConfig)
        fl.outputFolder) := by
  unfold derivedDataPathOf at he hr
  unfold main
  simp only [hp, h1, h2, h3, h4, if_false, he, hr]
  unfold mainExit simulatorBuildPathOf osBuildPathOf derivedDataPathOf
  rfl

/-- A flag left empty: `main` exits with status 1 and a message, and that is all. -/
theorem main_flag_missing (env : Env) (fuel : Nat) (w : World) (args : List (String × String))
    (fl : Flags) (hp : flagParse flagDefaults args = some fl)
    (h : fl.user = "" ∨ fl.sdkProjectName = "" ∨ fl.frameworkName = "" ∨ fl.outputFolder = "") :
    ∃ msg, main env fuel w args = some (1, { w with stderr := w.stderr ++ [msg] }) ∧
      (msg = "user must be set\n" ∨ msg = "project must be set\n" ∨
        msg = "framework must be set\n" ∨ msg = "output must be set\n") := by
  unfold main
  simp only [hp]
  by_cases h1 : fl.user = ""
  · exact ⟨_, by simp only [h1, if_true, logFatalf], Or.inl rfl⟩
  by_cases h2 : fl.sdkProjectName = ""
  · exact ⟨_, by simp only [h1, h2, if_true, if_false, logFatalf], Or.inr (Or.inl rfl)⟩
  by_cases h3 : fl.frameworkName = ""
  · exact ⟨_, by simp only [h1, h2, h3, if_true, if_false, logFatalf],
      Or.inr (Or.inr (Or.inl rfl))⟩
  have h4 : fl.outputFolder = "" := by
    rcases h with h | h | h | h
    · exact absurd h h1
    · exact absurd h h2
    · exact absurd h h3
    · exact h
  exact ⟨_, by simp only [h1, h2, h3, h4, if_true, if_false, logFatalf],
    Or.inr (Or.inr (Or.inr rfl))⟩

/-! ## The paths `main` builds -/

theorem isRooted_pathClean (p : String) (hp : p.data ≠ []) :
    isRooted (pathClean p).data = isRooted p.data := by
  unfold pathClean
  simp only [hp, if_false]
  by_cases hr : isRooted p.data = true
  · rw [if_pos hr, hr]; rfl
  · simp only [Bool.not_eq_true] at hr
    rw [if_neg (by simp [hr]), hr]
    by_cases hj : joinSlash (cleanElems (isRooted p.data) p.data) = []
    · rw [hr] at hj
      rw [if_pos hj]; rfl
    · rw [hr] at hj
      rw [if_neg hj]
      have hinv := cleanElems_inv false p.data
      exact isRooted_joinSlash _ (fun e he => ⟨(hinv e he).1.1, (hinv e he).2⟩)

theorem derivedDataPathOf_eq (user : String) :
    derivedDataPathOf user
      = pathClean ("/Users" ++ "/" ++ (user ++ "/" ++ "/Library/Developer/Xcode/DerivedData")) := by
  unfold derivedDataPathOf pathJoin
  rfl

/-- A doubled slash makes no difference to `path.Clean`. -/
theorem pathClean_double_slash (a b : List Char) (ha : a ≠ []) :
    pathClean (String.mk (a ++ '/' :: '/' :: b)) = pathClean (String.mk (a ++ '/' :: b)) := by
  have hr : isRooted (a ++ '/' :: '/' :: b) = isRooted (a ++ '/' :: b) := by
    rw [isRooted_append _ _ ha, isRooted_append _ _ ha]
  have hc : ∀ r, cleanElems r (a ++ '/' :: '/' :: b) = cleanElems r (a ++ '/' :: b) := by
    intro r
    unfold cleanElems
    rw [splitSlash_append_slash, splitSlash_append_slash, List.foldl_append, List.foldl_append]
    have : splitSlash ('/' :: b) = [] :: splitSlash b := by simp [splitSlash]
    rw [this, List.foldl_cons]
    simp [cleanStep]
  unfold pathClean
  have h1 : (String.mk (a ++ '/' :: '/' :: b)).data ≠ [] := by simp
  have h2 : (String.mk (a ++ '/' :: b)).data ≠ [] := by simp
  simp only [h1, h2, if_false]
  rw [hr, hc]

/-- The derived-data path is the cleaned form of
`/Users/<user>/Library/Developer/Xcode/DerivedData`. -/
theorem derivedDataPathOf_clean (user : String) :
    derivedDataPathOf user
      = pathClean ("/Users/" ++ user ++ "/Library/Developer/Xcode/DerivedData") := by
  rw [derivedDataPathOf_eq]
  have e1 : "/Users" ++ "/" ++ (user ++ "/" ++ "/Library/Developer/Xcode/DerivedData")
      = String.mk (("/Users/".data ++ user.data) ++ '/' :: '/' ::
          "Library/Developer/Xcode/DerivedData".data) := by
    apply String.ext
    simp [String.data_append]
  have e2 : "/Users/" ++ user ++ "/Library/Developer/Xcode/DerivedData"
      = String.mk (("/Users/".data ++ user.data) ++ '/' ::
          "Library/Developer/Xcode/DerivedData".data) := by
    apply String.ext
    simp [String.data_append]
  rw [e1, e2]
  exact pathClean_double_slash _ _ (by simp)

/-- For a user name that can be the name of a directory the path is the template
itself. -/
theorem derivedDataPathOf_plain (user : String) (hv : validName user = true) :
    derivedDataPathOf user = "/Users/" ++ user ++ "/Library/Developer/Xcode/DerivedData" := by
  rw [validName_iff] at hv
  obtain ⟨h1, h2, h3, h4⟩ := hv
  rw [derivedDataPathOf_eq]
  have e1 : ("/Users" ++ "/" ++ (user ++ "/" ++ "/Library/Developer/Xcode/DerivedData")).data
      = '/' :: ("Users".data ++ '/' :: (user.data ++ '/' ::
          ('/' :: "Library/Developer/Xcode/DerivedData".data))) := by
    simp [String.data_append]
  have hsplit : splitSlash ('/' :: ("Users".data ++ '/' :: (user.data ++ '/' ::
      ('/' :: "Library/Developer/Xcode/DerivedData".data))))
      = [[], "Users".data, user.data, [], "Library".data, "Developer".data, "Xcode".data,
          "DerivedData".data] := by
    have s1 : splitSlash ('/' :: ("Users".data ++ '/' :: (user.data ++ '/' ::
        ('/' :: "Library/Developer/Xcode/DerivedData".data))))
        = [] :: splitSlash ("Users".data ++ '/' :: (user.data ++ '/' ::
          ('/' :: "Library/Developer/Xcode/DerivedData".data))) := by
      simp [splitSlash]
    rw [s1, splitSlash_append_slash, splitSlash_append_slash, splitSlash_of_noSlash _ h2]
    rfl
  have hne : ("/Users" ++ "/" ++ (user ++ "/" ++ "/Library/Developer/Xcode/DerivedData")).data
      ≠ [] := by
    rw [e1]; simp
  unfold pathClean
  simp only [hne, if_false]
  have hr : isRooted ("/Users" ++ "/" ++
      (user ++ "/" ++ "/Library/Developer/Xcode/DerivedData")).data = true := by
    rw [e1]; rfl
  rw [if_pos hr, hr]
  have hclean : cleanElems true ("/Users" ++ "/" ++
      (user ++ "/" ++ "/Library/Developer/Xcode/DerivedData")).data
      = ["Users".data, user.data, "Library".data, "Developer".data, "Xcode".data,
          "DerivedData".data] := by
    rw [e1]
    unfold cleanElems
    rw [hsplit]
    simp [cleanStep, h1, h3, h4]
  rw [hclean]
  apply String.ext
  simp [joinSlash, String.data_append]


theorem pathJoin_empty_left (x : String) (hx : x.data ≠ []) : pathJoin ["", x] = pathClean x := by
  have : x ≠ "" := fun e => hx (by rw [e])
  simp [pathJoin, List.dropWhile, this, stringsJoin]

theorem buildTemplate_data (cfg suffix : String) :
    ("Build/Products/" ++ cfg ++ suffix).data
      = "Build".data ++ '/' :: ("Products".data ++ '/' :: (cfg.data ++ suffix.data)) := by
  simp [String.data_append]

/-- Without a project folder the build path is the cleaned template, a relative
path. -/
theorem buildPath_of_empty (cfg suffix : String) :
    pathJoin ["", "Build/Products/" ++ cfg ++ suffix]
        = pathClean ("Build/Products/" ++ cfg ++ suffix) ∧
      isRooted (pathJoin ["", "Build/Products/" ++ cfg ++ suffix]).data = false := by
  have hne : ("Build/Products/" ++ cfg ++ suffix).data ≠ [] := by
    rw [buildTemplate_data]; simp
  have hj := pathJoin_empty_left _ hne
  refine ⟨hj, ?_⟩
  rw [hj, isRooted_pathClean _ hne, buildTemplate_data]
  rfl

/-- For a configuration name without a slash the template is clean already. -/
theorem buildTemplate_clean (cfg suffix : String) (hc : '/' ∉ cfg.data)
    (hs : '/' ∉ suffix.data) (hlen : 2 < suffix.data.length) :
    pathClean ("Build/Products/" ++ cfg ++ suffix) = "Build/Products/" ++ cfg ++ suffix := by
  have hne : ("Build/Products/" ++ cfg ++ suffix).data ≠ [] := by
    rw [buildTemplate_data]; simp
  have hlast : '/' ∉ cfg.data ++ suffix.data := by
    simp only [List.mem_append, not_or]; exact ⟨hc, hs⟩
  have hsplit : splitSlash ("Build/Products/" ++ cfg ++ suffix).data
      = ["Build".data, "Products".data, cfg.data ++ suffix.data] := by
    rw [buildTemplate_data, splitSlash_append_slash, splitSlash_append_slash,
      splitSlash_of_noSlash _ hlast]
    rfl
  have hl : 2 < (cfg.data ++ suffix.data).length := by
    rw [List.length_append]; omega
  have h1 : cfg.data ++ suffix.data ≠ [] := by
    intro e; rw [e] at hl; simp at hl
  have h2 : cfg.data ++ suffix.data ≠ ['.'] := by
    intro e; rw [e] at hl; simp at hl
  have h3 : cfg.data ++ suffix.data ≠ ['.', '.'] := by
    intro e; rw [e] at hl; simp at hl
  have hr : isRooted ("Build/Products/" ++ cfg ++ suffix).data = false := by
    rw [buildTemplate_data]; rfl
  have hclean : cleanElems false ("Build/Products/" ++ cfg ++ suffix).data
      = ["Build".data, "Products".data, cfg.data ++ suffix.data] := by
    unfold cleanElems
    rw [hsplit]
    simp [cleanStep, h1, h2, h3]
  unfold pathClean
  simp only [hne, if_false, hr, hclean, Bool.false_eq_true]
  apply String.ext
  simp [joinSlash, String.data_append]

/-! ## The run of `main` -/

theorem mergeLibraries_extends (env : Env) (w w' : World) (name sim os : String)
    (r : Option Error) (h : mergeLibraries env w name sim os = (r, w')) :
    w.Extends w' ∧ w'.stdout = w.stdout := by
  cases r with
  | none =>
    obtain ⟨w1, fs, h1, _, hw⟩ := mergeLibraries_ok env w w' name sim os h
    obtain ⟨E1, o1, _⟩ := execRun_extends _ _ _ _ _ _ h1
    obtain ⟨_, _, _, E2, _⟩ := record_facts _ _ _ _ hw
    exact quiet_trans _ _ _ ⟨E1, o1⟩ E2
  | some err =>
    rcases mergeLibraries_error env w w' name sim os err h with ⟨e, h1, _⟩ | ⟨w1, e, h1, h2, _⟩
    · obtain ⟨E1, o1, _⟩ := execRun_extends _ _ _ _ _ _ h1
      exact ⟨E1, o1⟩
    · obtain ⟨E1, o1, _⟩ := execRun_extends _ _ _ _ _ _ h1
      obtain ⟨_, hw⟩ := osRename_error _ _ _ _ _ h2
      obtain ⟨_, _, _, E2, _⟩ := record_facts _ _ _ _ hw
      exact quiet_trans _ _ _ ⟨E1, o1⟩ E2

theorem readFile_extends (w w' : World) (filename : String) (r : Except Error (List Nat))
    (h : ioutilReadFile w filename = (r, w')) :
    (w.Extends w' ∧ w'.stdout = w.stdout) ∧ w'.fs = w.fs := by
  cases r with
  | error e =>
    obtain ⟨_, hw⟩ := ioutilReadFile_error _ _ _ _ h
    obtain ⟨f, _, _, E, _⟩ := record_facts _ _ _ _ hw
    exact ⟨E, f⟩
  | ok d =>
    obtain ⟨_, hw⟩ := ioutilReadFile_ok _ _ _ _ h
    obtain ⟨f, _, _, E, _⟩ := record_facts _ _ _ _ hw
    exact ⟨E, f⟩

theorem writeFile_extends (w w' : World) (filename : String) (data : List Nat) (perm : Nat)
    (r : Option Error) (h : ioutilWriteFile w filename data perm = (r, w')) :
    w.Extends w' ∧ w'.stdout = w.stdout := by
  cases r with
  | some e =>
    obtain ⟨_, hw⟩ := ioutilWriteFile_error _ _ _ _ _ _ h
    obtain ⟨_, _, _, E, _⟩ := record_facts _ _ _ _ hw
    exact E
  | none => exact (writeFile_node _ _ _ _ _ h).2.2

theorem patchInfoPlist_extends (env : Env) (w w' : World) (name os : String)
    (r : Option Error) (h : patchInfoPlist env w name os = (r, w')) :
    w.Extends w' ∧ w'.stdout = w.stdout := by
  unfold patchInfoPlist at h
  rcases h1 : ioutilReadFile w (pathJoin [os, name ++ ".framework/Info.plist"])
    with ⟨e1 | data, w1⟩
  · simp only [h1, Prod.mk.injEq] at h
    rw [← h.2]
    exact (readFile_extends _ _ _ _ h1).1
  simp only [h1] at h
  have E1 := (readFile_extends _ _ _ _ h1).1
  rcases h2 : env.unmarshal data with e2 | ⟨pl, format⟩
  · simp only [h2, Prod.mk.injEq] at h
    rw [← h.2]; exact E1
  simp only [h2] at h
  rcases h3 : env.marshal (pl.set "CFBundleSupportedPlatforms" supportedPlatforms) format
    with e3 | data'
  · simp only [h3, Prod.mk.injEq] at h
    rw [← h.2]; exact E1
  simp only [h3] at h
  rcases h4 : ioutilWriteFile w1 (pathJoin [os, name ++ ".framework/Info.plist"]) data' 0o644
    with ⟨_ | e4, w2⟩
  · simp only [h4, Prod.mk.injEq] at h
    rw [← h.2]
    exact quiet_trans _ _ _ E1 (writeFile_extends _ _ _ _ _ _ h4)
  · simp only [h4, Prod.mk.injEq] at h
    rw [← h.2]
    exact quiet_trans _ _ _ E1 (writeFile_extends _ _ _ _ _ _ h4)

theorem combine_extends (env : Env) (fuel : Nat) (w w' : World)
    (name sim os out : String) (r : Option Error)
    (h : combineStaticLibraries env fuel w name sim os out = some (r, w')) : w.Extends w' := by
  unfold combineStaticLibraries at h
  rcases h1 : mergeLibraries env w name sim os with ⟨_ | e1, w1⟩
  swap
  · simp only [h1, Option.some.injEq, Prod.mk.injEq] at h
    rw [← h.2]
    exact (mergeLibraries_extends _ _ _ _ _ _ _ h1).1
  simp only [h1] at h
  have E1 := (mergeLibraries_extends _ _ _ _ _ _ _ h1).1
  rcases h2 : patchInfoPlist env w1 name os with ⟨_ | e2, w2⟩
  swap
  · simp only [h2, Option.some.injEq, Prod.mk.injEq] at h
    rw [← h.2]
    exact E1.trans (patchInfoPlist_extends _ _ _ _ _ _ h2).1
  simp only [h2] at h
  exact E1.trans ((patchInfoPlist_extends _ _ _ _ _ _ h2).1.trans (copyDir_frame fuel _ _ _ _ _ h).1)

/-- With enough fuel `combineStaticLibraries` returns. -/
theorem combine_returns (env : Env) (fuel : Nat) (w : World) (name sim os out : String)
    (hfuel : w.depthBound ≤ fuel) :
    ∃ r w', combineStaticLibraries env fuel w name sim os out = some (r, w') := by
  unfold combineStaticLibraries
  rcases h1 : mergeLibraries env w name sim os with ⟨_ | e1, w1⟩
  swap
  · simp only [h1]
    exact ⟨_, _, rfl⟩
  have E1 := (mergeLibraries_extends _ _ _ _ _ _ _ h1).1
  rcases h2 : patchInfoPlist env w1 name os with ⟨_ | e2, w2⟩
  swap
  · simp only [h1, h2]
    exact ⟨_, _, rfl⟩
  have E2 := (patchInfoPlist_extends _ _ _ _ _ _ h2).1
  simp only [h1, h2]
  apply copyDir_returns
  rw [depthBound_of_extends w w2 (E1.trans E2)]
  exact hfuel

theorem pathExists_spec (w w' : World) (path : String) (r : Bool × Option Error)
    (h : pathExists w path = (r, w')) :
    ∃ f, w' = w.record w.fs ⟨"stat", [path], f⟩ := by
  unfold pathExists at h
  rcases h1 : osStat w path with ⟨e | fi, w1⟩
  · obtain ⟨_, hw⟩ := osStat_error _ _ _ _ h1
    simp only [h1] at h
    split at h
    · simp only [Prod.mk.injEq] at h; exact ⟨true, by rw [← h.2, hw]⟩
    · simp only [Prod.mk.injEq] at h; exact ⟨true, by rw [← h.2, hw]⟩
  · obtain ⟨_, _, hw⟩ := osStat_ok _ _ _ _ h1
    simp only [h1, Prod.mk.injEq] at h
    exact ⟨false, by rw [← h.2, hw]⟩

theorem mainExit_trace (x : Option (Option Error × World)) (r : Nat) (w' : World)
    (h : mainExit x = some (r, w')) : ∃ r0 w0, x = some (r0, w0) ∧ w'.trace = w0.trace ∧
      w'.fs = w0.fs := by
  unfold mainExit at h
  split at h
  · cases h
  · rename_i err w0
    simp only [logFatalf, Option.some.injEq, Prod.mk.injEq] at h
    exact ⟨_, _, rfl, by rw [← h.2], by rw [← h.2]⟩
  · rename_i w0
    simp only [Option.some.injEq, Prod.mk.injEq] at h
    exact ⟨_, _, rfl, by rw [← h.2], by rw [← h.2]⟩

/-- Once the four required flags are set, a run of `main` begins with the stat of
the derived-data folder, and with enough fuel it ends. -/
theorem main_past_flags (env : Env) (fuel : Nat) (w : World) (args : List (String × String))
    (fl : Flags) (hp : flagParse flagDefaults args = some fl)
    (h1 : fl.user ≠ "") (h2 : fl.sdkProjectName ≠ "") (h3 : fl.frameworkName ≠ "")
    (h4 : fl.outputFolder ≠ "") :
    (w.depthBound ≤ fuel → ∃ r w', main env fuel w args = some (r, w')) ∧
      (∀ r w', main env fuel w args = some (r, w') →
        ∃ f rest, w'.trace = w.trace ++ ⟨"stat", [derivedDataPathOf fl.user], f⟩ :: rest) := by
  rcases he : pathExists w (derivedDataPathOf fl.user) with ⟨⟨ex, oerr⟩, w1⟩
  obtain ⟨f, hw1⟩ := pathExists_spec _ _ _ _ he
  have t1 : w1.trace = w.trace ++ [⟨"stat", [derivedDataPathOf fl.user], f⟩] := by
    rw [hw1]; rfl
  have E1 : w.Extends w1 := by rw [hw1]; exact (World.extends_record _ _ _).1
  have hstop : ∀ msg, (logFatalf w1 msg).2.trace
      = w.trace ++ ⟨"stat", [derivedDataPathOf fl.user], f⟩ :: [] := fun _ => t1
  cases oerr with
  | some err =>
    have hm : main env fuel w args = some (logFatalf w1
        ("failed to os.Stat() derived data folder: " ++ err.toStr ++ "\n")) := by
      unfold derivedDataPathOf at he
      unfold main
      simp only [hp, h1, h2, h3, h4, if_false, he]
    refine ⟨fun _ => ⟨_, _, hm⟩, fun r w' h => ?_⟩
    rw [hm] at h
    simp only [Option.some.injEq] at h
    exact ⟨f, [], by rw [← hstop, h]⟩
  | none =>
    cases ex with
    | false =>
      have hm : main env fuel w args
          = some (logFatalf w1 "can't find Xcode derived data folder\n") := by
        unfold derivedDataPathOf at he
        unfold main
        simp only [hp, h1, h2, h3, h4, if_false, he]
      refine ⟨fun _ => ⟨_, _, hm⟩, fun r w' h => ?_⟩
      rw [hm] at h
      simp only [Option.some.injEq] at h
      exact ⟨f, [], by rw [← hstop, h]⟩
    | true =>
      rcases hr : ioutilReadDir w1 (derivedDataPathOf fl.user) with ⟨err | files, w2⟩
      · have hm : main env fuel w args = some (logFatalf w2
            ("failed to read contents of derived data path: " ++ err.toStr ++ "\n")) := by
          unfold derivedDataPathOf at he hr
          unfold main
          simp only [hp, h1, h2, h3, h4, if_false, he, hr]
        obtain ⟨_, hw2⟩ := ioutilReadDir_error _ _ _ _ hr
        obtain ⟨_, _, _, E2, _⟩ := record_facts _ _ _ _ hw2
        refine ⟨fun _ => ⟨_, _, hm⟩, fun r w' h => ?_⟩
        rw [hm] at h
        simp only [Option.some.injEq] at h
        obtain ⟨rest, hrest⟩ := trace_first w w1 w2 _ t1 E2.1
        have hw' : w' = (logFatalf w2
            ("failed to read contents of derived data path: " ++ err.toStr ++ "\n")).2 := by
          rw [h]
        exact ⟨f, rest, by rw [hw']; exact hrest⟩
      · have hm := main_reach env fuel w w1 w2 args fl files hp h1 h2 h3 h4 he hr
        obtain ⟨_, _, hw2⟩ := ioutilReadDir_ok _ _ _ _ hr
        obtain ⟨_, _, _, E2, _⟩ := record_facts _ _ _ _ hw2
        refine ⟨fun hfuel => ?_, fun r w' h => ?_⟩
        · obtain ⟨r0, w0, h0⟩ := combine_returns env fuel w2 fl.frameworkName
            (simulatorBuildPathOf
              (findProject (derivedDataPathOf fl.user) fl.sdkProjectName files) fl.buildConfig)
            (osBuildPathOf
              (findProject (derivedDataPathOf fl.user) fl.sdkProjectName files) fl.buildConfig)
            fl.outputFolder (by rw [depthBound_of_extends w w2 (E1.trans E2.1)]; exact hfuel)
          rw [hm, h0]
          cases r0 with
          | none => exact ⟨_, _, rfl⟩
          | some e => exact ⟨_, _, rfl⟩
        · rw [hm] at h
          obtain ⟨r0, w0, h0, ht, _⟩ := mainExit_trace _ _ _ h
          have E3 := combine_extends _ _ _ _ _ _ _ _ _ h0
          obtain ⟨rest, hrest⟩ := trace_first w w1 w0 _ t1 (E2.1.trans E3)
          exact ⟨f, rest, by rw [ht, hrest]⟩

/-! ## The directory copier -/

/-- C3. Copy error policy. With enough fuel for the path-length limit `copyDir`
returns, and: (i) when the stat of the source fails, or the creation of the
destination, it returns that error, the file system is as it was, nothing was
printed and no other call was made; (ii) when the root has been stat'ed, created
and listed it returns nil, whatever the entries do: the loop reaches every entry
of the listing, runs `copyFile` on it or `copyDir` when it is a directory, and
when that returns an error the error is a line of the standard output. -/
theorem copyDir_error_policy (fuel : Nat) (w : World) (src dst : String)
    (hfuel : w.depthBound ≤ fuel + 1) :
    ∃ r w', copyDir (fuel + 1) w src dst = some (r, w') ∧
      (∀ err w1, osStat w src = (.error err, w1) →
        r = some err ∧ w' = w1 ∧ w'.fs = w.fs ∧ w'.stdout = w.stdout ∧
          w'.trace = w.trace ++ [⟨"stat", [src], true⟩]) ∧
      (∀ fi w1 err w2, osStat w src = (.ok fi, w1) →
        osMkdirAll w1 dst fi.mode = (some err, w2) →
        r = some err ∧ w' = w2 ∧ w'.fs = w.fs ∧ w'.stdout = w.stdout ∧
          w'.trace = w.trace ++ [⟨"stat", [src], false⟩, ⟨"mkdirall", [dst], true⟩]) ∧
      (∀ fi w1 w2 fds w3, osStat w src = (.ok fi, w1) →
        osMkdirAll w1 dst fi.mode = (none, w2) → ioutilReadDir w2 src = (.ok fds, w3) →
        r = none ∧ ∀ pre fd post, fds = pre ++ fd :: post →
          ∃ wa res wb, copyEntries (copyDir fuel) src dst w3 pre = some wa ∧
            (if fd.isDir = true
              then copyDir fuel wa (pathJoin [src, fd.name]) (pathJoin [dst, fd.name])
                = some (res, wb)
              else copyFile wa (pathJoin [src, fd.name]) (pathJoin [dst, fd.name])
                = (res, wb)) ∧
            (∀ e, res = some e → (wb.stdout ++ [e.toStr]) <+: w'.stdout) ∧
            wb.Extends w') :=
  copyDir_policy_aux fuel w src dst hfuel

/-- The policy at work. Copying `/s` to `/d` where `a` cannot be created (a
directory has the name) and `b` cannot be made (a file has the name), `copyDir`
returns nil, both errors are printed, and `c`, the entry after them, is copied.
Copying a `/nowhere` that is not there returns the error of the stat; copying
`/s` to the place of the file `/d/b` returns the error of the creation; both
leave the file system as it was and print nothing. -/
theorem copyDir_error_policy_witness :
    (worldOf clashFS).depthBound ≤ 66 + 1 ∧
      (∃ w', copyDir 67 (worldOf clashFS) "/s" "/d" = some (none, w') ∧
        w'.stdout = ["open /d/a: is a directory", "mkdir /d/b: not a directory"] ∧
        w'.fs.node ["d", "c"] = some (Node.file 0o640 [4])) ∧
      (∃ w', copyDir 67 (worldOf clashFS) "/nowhere" "/d"
          = some (some (Error.path "stat" "/nowhere" Errno.ENOENT), w') ∧
        w'.fs = clashFS ∧ w'.stdout = []) ∧
      (∃ w', copyDir 67 (worldOf clashFS) "/s" "/d/b"
          = some (some (Error.path "mkdir" "/d/b" Errno.ENOTDIR), w') ∧
        w'.fs = clashFS ∧ w'.stdout = []) := by
  refine ⟨by decide, ?_, ?_, ?_⟩
  · obtain ⟨r, w', h, -, -, h3⟩ :=
      copyDir_error_policy 66 (worldOf clashFS) "/s" "/d" (by decide)
    have hr := (h3 _ _ _ _ _ (by rfl) (by rfl) (by rfl)).1
    subst hr
    have e : (copyDir 67 (worldOf clashFS) "/s" "/d").map
        (fun x => (x.2.stdout, x.2.fs.node ["d", "c"]))
        = some (["open /d/a: is a directory", "mkdir /d/b: not a directory"],
            some (Node.file 0o640 [4])) := by decide
    rw [h] at e
    simp only [Option.map_some', Option.some.injEq, Prod.mk.injEq] at e
    exact ⟨w', h, e.1, e.2⟩
  · obtain ⟨r, w', h, h1, -, -⟩ :=
      copyDir_error_policy 66 (worldOf clashFS) "/nowhere" "/d" (by decide)
    obtain ⟨hr, -, hfs, hout, -⟩ := h1 _ _ (by rfl)
    subst hr
    exact ⟨w', h, hfs, hout⟩
  · obtain ⟨r, w', h, -, h2, -⟩ :=
      copyDir_error_policy 66 (worldOf clashFS) "/s" "/d/b" (by decide)
    obtain ⟨hr, -, hfs, hout, -⟩ := h2 _ _ _ _ (by rfl) (by rfl)
    subst hr
    exact ⟨w', h, hfs, hout⟩

/-- C2, as amended. Directory copy is a structural mirror when source and
destination are apart (neither at or under the other). With enough fuel for the
path-length limit `copyDir` returns. An error it returns (the stat, the creation
or the listing of the root failed) is not printed. When it returns nil: the
lines it printed are the errors of the calls that failed, one line for each
failed call, in order; and every entry of the source tree (the root included)
on which no call failed, nor on a directory on the way to it, is in the
destination at the same relative path: a file as a file with the content and the
permission bits of the source file, a directory as a directory. -/
theorem copyDir_mirror (fuel : Nat) (w : World) (src dst : String)
    (hfuel : w.depthBound ≤ fuel)
    (hA : Apart (resolve w.cwd src) (resolve w.cwd dst)) :
    ∃ r w', copyDir fuel w src dst = some (r, w') ∧
      (∀ err, r = some err → w'.stdout = w.stdout) ∧
      (r = none →
        Printed (w'.trace.drop w.trace.length) (w'.stdout.drop w.stdout.length) ∧
        ∀ (rel : List String) (x : Node),
          w.fs.reaches (resolve w.cwd src) rel →
          w.fs.node (resolve w.cwd src ++ rel) = some x →
          copyFailed (w'.trace.drop w.trace.length) src dst rel ∨
            Copied (w'.fs.node (resolve w.cwd dst ++ rel)) x) := by
  obtain ⟨r, w', h⟩ := copyDir_returns fuel w src dst hfuel
  refine ⟨r, w', h, ?_, ?_⟩
  · intro err hr
    subst hr
    exact copyDir_error_quiet fuel w w' src dst err h
  · intro hr
    subst hr
    refine ⟨(copyDir_logged fuel w w' src dst none h).printed, ?_⟩
    intro rel x hreach hx
    rcases copyDir_mirror_all fuel w w' src dst h hA rel x hreach hx with hf | hm
    · exact Or.inl hf
    · exact Or.inr hm.copied

/-- The mirror at work: `/s` copied to a `/d` in which `a` cannot be created (a
directory has the name) and `b` cannot be made (a file has the name). The copy
returns nil; two calls failed, the creation of `/d/a` and of `/d/b`, and the two
lines printed are their errors; no call on `c` failed, and `c` is in `/d` with
the content and the permission bits it has in `/s`. -/
theorem copyDir_mirror_witness :
    (worldOf clashFS).depthBound ≤ 67 ∧ Apart ["s"] ["d"] ∧
      (worldOf clashFS).fs.reaches ["s"] ["c"] ∧
      ∃ w', copyDir 67 (worldOf clashFS) "/s" "/d" = some (none, w') ∧
        w'.trace.filter (fun ev => ev.failed)
          = [⟨"create", ["/d/a"], true⟩, ⟨"mkdirall", ["/d/b"], true⟩] ∧
        w'.stdout = ["open /d/a: is a directory", "mkdir /d/b: not a directory"] ∧
        Printed (w'.trace.drop 0) (w'.stdout.drop 0) ∧
        w'.fs.node ["d", "c"] = some (Node.file 0o640 [4]) := by
  have hA : Apart ["s"] ["d"] := by unfold Apart; decide
  have hreach : (worldOf clashFS).fs.reaches ["s"] ["c"] :=
    ⟨by decide, ⟨0o755, by decide⟩, trivial⟩
  refine ⟨by decide, hA, hreach, ?_⟩
  obtain ⟨r, w', h, -, hm⟩ := copyDir_mirror 67 (worldOf clashFS) "/s" "/d" (by decide) hA
  have e : (copyDir 67 (worldOf clashFS) "/s" "/d").map
      (fun x => (x.1, x.2.trace.filter (fun ev => ev.failed), x.2.stdout))
      = some (none, [⟨"create", ["/d/a"], true⟩, ⟨"mkdirall", ["/d/b"], true⟩],
          ["open /d/a: is a directory", "mkdir /d/b: not a directory"]) := by decide
  rw [h] at e
  simp only [Option.map_some', Option.some.injEq, Prod.mk.injEq] at e
  obtain ⟨hr, hcalls, hout⟩ := e
  subst hr
  obtain ⟨hp, hall⟩ := hm rfl
  refine ⟨w', h, hcalls, hout, hp, ?_⟩
  rcases hall ["c"] (Node.file 0o640 [4]) hreach (by decide) with hf | hc
  · exfalso
    obtain ⟨k, hk1, hk2, ev, hev, hfail, harg⟩ := hf
    have hk : k = 1 := by
      have : k ≤ 1 := hk2
      omega
    subst hk
    have hmem : ev ∈ w'.trace.filter (fun ev => ev.failed) :=
      List.mem_filter.2 ⟨by simpa using hev, hfail⟩
    rw [hcalls] at hmem
    simp only [List.mem_cons, List.mem_singleton, List.not_mem_nil, or_false] at hmem
    rcases hmem with rfl | rfl
    · revert harg; decide
    · revert harg; decide
  · exact hc

/-- C2, as stated, fails. Copying `/s` onto itself returns nil, no call fails and
nothing is printed, and the file `/s/a`, which held `1 2 3`, is empty: its copy
was made by emptying it and reading what was left. -/
theorem copyDir_mirror_counterexample :
    (copyDir 67 (worldOf treeFS) "/s" "/s").map
        (fun x => (x.1, x.2.trace.filter (fun ev => ev.failed), x.2.stdout,
          x.2.fs.node ["s", "a"]))
        = some (none, [], [], some (Node.file 0o644 [])) ∧
      (worldOf treeFS).fs.node ["s", "a"] = some (Node.file 0o644 [1, 2, 3]) := by
  decide

/-- The permission bits of the directories of a copy are not always those of the
source. `copyDir` hands the mode of the source directory to `os.MkdirAll` and
has no `os.Chmod` for directories, as `copyFile` has for files: copying `/s` to
a `/d` that has a directory `b` already leaves `/d/b` with its own bits (`0700`,
not the `0750` of `/s/b`), and under umask `077` the directory made for `/s`
(`0755`) has `0700`. No call fails in these runs and nothing is printed. -/
theorem copyDir_directory_bits :
    ((copyDir 67 (worldOf staleFS) "/s" "/d").map
        (fun x => (x.1, x.2.stdout, x.2.fs.node ["d", "b"]))
        = some (none, [], some (Node.dir 0o700)) ∧
      (worldOf staleFS).fs.node ["s", "b"] = some (Node.dir 0o750)) ∧
    ((copyDir 67 { worldOf treeFS with umask := 0o077 } "/s" "/t").map
        (fun x => (x.1, x.2.stdout, x.2.fs.node ["t"]))
        = some (none, [], some (Node.dir 0o700)) ∧
      (worldOf treeFS).fs.node ["s"] = some (Node.dir 0o755)) := by
  decide

/-! ## Claims about `main` -/

theorem stringsHasPrefix_iff (s pre : String) :
    stringsHasPrefix s pre = true ↔ ∃ t, s = pre ++ t := by
  unfold stringsHasPrefix
  rw [List.isPrefixOf_iff_prefix]
  constructor
  · rintro ⟨t, ht⟩
    exact ⟨String.mk t, by apply String.ext; simp [String.data_append, ht]⟩
  · rintro ⟨t, rfl⟩
    exact ⟨t.data, by simp [String.data_append]⟩

theorem findProject_first (root pre : String) (before : List FileInfo) (f : FileInfo)
    (after : List FileInfo) (hb : ∀ x ∈ before, stringsHasPrefix x.name pre = false)
    (hf : stringsHasPrefix f.name pre = true) :
    findProject root pre (before ++ f :: after) = pathJoin [root, f.name] := by
  induction before with
  | nil => simp [findProject, hf]
  | cons x before ih =>
    have hx := hb x (by simp)
    simp only [List.cons_append, findProject, hx, Bool.false_eq_true, if_false]
    exact ih (fun y hy => hb y (List.mem_cons_of_mem _ hy))

theorem findProject_none (root pre : String) (files : List FileInfo)
    (h : ∀ x ∈ files, stringsHasPrefix x.name pre = false) : findProject root pre files = "" := by
  induction files with
  | nil => rfl
  | cons x files ih =>
    have hx := h x (by simp)
    simp only [findProject, hx, Bool.false_eq_true, if_false]
    exact ih (fun y hy => h y (List.mem_cons_of_mem _ hy))

theorem osStat_missing (w : World) (p : String)
    (h : w.fs.node (resolve w.cwd p) = none) :
    ∃ e, osStat w p = (.error (Error.path "stat" p e), w.record w.fs ⟨"stat", [p], true⟩) ∧
      (w.faults.head? ≠ some true → p.data ≠ [] → byteLen p ≤ w.pathMax →
        w.fs.missing (resolve w.cwd p) = Errno.ENOENT → e = Errno.ENOENT) := by
  rcases hs : osStat w p with ⟨err | fi, w1⟩
  · obtain ⟨⟨e, he⟩, hw⟩ := osStat_error _ _ _ _ hs
    subst he hw
    refine ⟨e, rfl, ?_⟩
    intro hf hp hlen hmiss
    have hloc : w.locate p = .ok (resolve w.cwd p) := (World.locate_ok w p _).2 ⟨hp, hlen, rfl⟩
    unfold osStat World.sys at hs
    simp only [hf, if_false, hloc, FS.stat, h, hmiss, bind, Except.bind, withError,
      Prod.mk.injEq, Except.error.injEq, Error.path.injEq, true_and] at hs
    exact hs.1.symm
  · obtain ⟨_, ⟨n, nm, hn, _⟩, _⟩ := osStat_ok _ _ _ _ hs
    rw [h] at hn
    cases hn

/-- C7. Missing required flag. Whatever the command line sets the flags to: when
one of `-user`, `-project`, `-framework`, `-output` is empty, `main` ends with exit
status 1 in the state it started in but for one line on standard error (no system
call and no command in the record, the file system as it was); `-buildconfig` is
the one flag whose default is not empty (`Release`); and when the four are set,
whatever `-buildconfig` is, the run goes past the check: it begins with the stat
of the derived-data folder, and with enough fuel it ends. -/
theorem main_missing_flag (env : Env) (fuel : Nat) (w : World) (args : List (String × String))
    (fl : Flags) (hp : flagParse flagDefaults args = some fl) :
    ((fl.user = "" ∨ fl.sdkProjectName = "" ∨ fl.frameworkName = "" ∨ fl.outputFolder = "") →
        ∃ msg, main env fuel w args = some (1, { w with stderr := w.stderr ++ [msg] }) ∧
          (msg = "user must be set\n" ∨ msg = "project must be set\n" ∨
            msg = "framework must be set\n" ∨ msg = "output must be set\n")) ∧
      flagParse flagDefaults [] = some ⟨"", "", "Release", "", ""⟩ ∧
      (fl.user ≠ "" → fl.sdkProjectName ≠ "" → fl.frameworkName ≠ "" → fl.outputFolder ≠ "" →
        (w.depthBound ≤ fuel → ∃ r w', main env fuel w args = some (r, w')) ∧
          (∀ r w', main env fuel w args = some (r, w') →
            ∃ f rest,
              w'.trace = w.trace ++ ⟨"stat", [derivedDataPathOf fl.user], f⟩ :: rest)) :=
  ⟨main_flag_missing env fuel w args fl hp, rfl,
    fun h1 h2 h3 h4 => main_past_flags env fuel w args fl hp h1 h2 h3 h4⟩

/-- A command line without `-framework`: `main` stops at the check. -/
theorem main_missing_flag_witness :
    flagParse flagDefaults [("user", "u"), ("project", "Proj"), ("output", "/out")]
        = some ⟨"u", "Proj", "Release", "", "/out"⟩ ∧
      ∃ msg, main demoEnv 0 (worldOf derivedFS)
          [("user", "u"), ("project", "Proj"), ("output", "/out")]
          = some (1, { worldOf derivedFS with stderr := [msg] }) ∧
        (msg = "user must be set\n" ∨ msg = "project must be set\n" ∨
          msg = "framework must be set\n" ∨ msg = "output must be set\n") :=
  ⟨by decide,
    (main_missing_flag demoEnv 0 (worldOf derivedFS)
      [("user", "u"), ("project", "Proj"), ("output", "/out")]
      ⟨"u", "Proj", "Release", "", "/out"⟩ (by decide)).1 (Or.inr (Or.inr (Or.inl rfl)))⟩

/-- C8. Missing derived-data directory. For flags that pass the check: the path
`main` stats is `/Users/<user>/Library/Developer/Xcode/DerivedData` as
`path.Join` cleans it, which is that very path when the user name can be the name
of a directory; when nothing is at the location it names, `main` ends with exit
status 1 and one line on standard error, after one failed stat and nothing else:
no listing, no command, the file system as it was. The line is
`can't find Xcode derived data folder`, or the stat's own error when the stat
failed for another reason than the path not existing. -/
theorem derived_data_missing (env : Env) (fuel : Nat) (w : World)
    (args : List (String × String)) (fl : Flags)
    (hp : flagParse flagDefaults args = some fl)
    (h1 : fl.user ≠ "") (h2 : fl.sdkProjectName ≠ "") (h3 : fl.frameworkName ≠ "")
    (h4 : fl.outputFolder ≠ "")
    (hmissing : w.fs.node (resolve w.cwd (derivedDataPathOf fl.user)) = none) :
    derivedDataPathOf fl.user
        = pathClean ("/Users/" ++ fl.user ++ "/Library/Developer/Xcode/DerivedData") ∧
      (validName fl.user = true → derivedDataPathOf fl.user
        = "/Users/" ++ fl.user ++ "/Library/Developer/Xcode/DerivedData") ∧
      ∃ msg, main env fuel w args
          = some (1, { w.record w.fs ⟨"stat", [derivedDataPathOf fl.user], true⟩ with
              stderr := w.stderr ++ [msg] }) ∧
        (msg = "can't find Xcode derived data folder\n" ∨
          ∃ err, osIsNotExist err = false ∧
            msg = "failed to os.Stat() derived data folder: " ++ err.toStr ++ "\n") ∧
        (w.faults.head? ≠ some true → byteLen (derivedDataPathOf fl.user) ≤ w.pathMax →
          w.fs.missing (resolve w.cwd (derivedDataPathOf fl.user)) = Errno.ENOENT →
          msg = "can't find Xcode derived data folder\n") := by
  refine ⟨derivedDataPathOf_clean fl.user, derivedDataPathOf_plain fl.user, ?_⟩
  obtain ⟨e, hs, hplain⟩ := osStat_missing w (derivedDataPathOf fl.user) hmissing
  have hne : (derivedDataPathOf fl.user).data ≠ [] := by
    rw [derivedDataPathOf_eq]; exact pathClean_ne_nil _
  by_cases he : e = Errno.ENOENT
  · subst he
    refine ⟨"can't find Xcode derived data folder\n", ?_, Or.inl rfl, fun _ _ _ => rfl⟩
    unfold derivedDataPathOf at hs
    unfold main
    simp only [hp, h1, h2, h3, h4, if_false, pathExists, hs, osIsNotExist, if_true, logFatalf]
    rfl
  · have hnot : osIsNotExist (Error.path "stat" (derivedDataPathOf fl.user) e) = false := by
      cases e <;> first | rfl | exact absurd rfl he
    refine ⟨"failed to os.Stat() derived data folder: "
      ++ (Error.path "stat" (derivedDataPathOf fl.user) e).toStr ++ "\n", ?_,
      Or.inr ⟨_, hnot, rfl⟩, fun hf hl hm => absurd (hplain hf hne hl hm) he⟩
    unfold derivedDataPathOf at hs hnot
    unfold main
    simp only [hp, h1, h2, h3, h4, if_false, pathExists, hs, hnot, Bool.false_eq_true,
      logFatalf]
    rfl

/-- In a world without `/Users`, `main` stops at the stat. -/
theorem derived_data_missing_witness :
    flagParse flagDefaults demoArgs = some ⟨"u", "Proj", "Release", "Lib", "/out"⟩ ∧
      (worldOf treeFS).fs.node ["Users", "u", "Library", "Developer", "Xcode", "DerivedData"]
        = none ∧
      derivedDataPathOf "u" = "/Users/u/Library/Developer/Xcode/DerivedData" ∧
      main demoEnv 0 (worldOf treeFS) demoArgs
        = some (1, { (worldOf treeFS).record treeFS
            ⟨"stat", ["/Users/u/Library/Developer/Xcode/DerivedData"], true⟩ with
            stderr := ["can't find Xcode derived data folder\n"] }) := by
  obtain ⟨_, hpath, msg, hm, _, hplain⟩ :=
    derived_data_missing demoEnv 0 (worldOf treeFS) demoArgs
      ⟨"u", "Proj", "Release", "Lib", "/out"⟩ (by decide) (by decide) (by decide) (by decide)
      (by decide) (by decide)
  have hmsg := hplain (by decide) (by decide) (by decide)
  subst hmsg
  exact ⟨by decide, by decide, hpath (by decide), hm⟩

/-- C9, as amended. Project directory selection. For every listing and every
prefix, the project path is the derived-data path joined with the name of the
first entry of the listing, file or directory, whose name starts with the
prefix: the entries before it, whose names do not start with the prefix, and the
entries after it have no influence. A name starts with the prefix when it is the
prefix followed by something. -/
theorem project_selection (derivedDataPath sdkProjectName : String)
    (before : List FileInfo) (f : FileInfo) (after : List FileInfo)
    (hb : ∀ x ∈ before, stringsHasPrefix x.name sdkProjectName = false)
    (hf : stringsHasPrefix f.name sdkProjectName = true) :
    findProject derivedDataPath sdkProjectName (before ++ f :: after)
        = pathJoin [derivedDataPath, f.name] ∧
      ∃ t, f.name = sdkProjectName ++ t :=
  ⟨findProject_first derivedDataPath sdkProjectName before f after hb hf,
    (stringsHasPrefix_iff f.name sdkProjectName).1 hf⟩

/-- The listing of a derived-data folder in which a folder that does not match
comes first, then a file that does, then a folder that does: the file is taken. -/
theorem project_selection_witness :
    (∀ x ∈ [(⟨"Other-abc", 0o755, true⟩ : FileInfo)], stringsHasPrefix x.name "Proj" = false) ∧
      stringsHasPrefix "Proj-build.log" "Proj" = true ∧
      projectsFS.readDir (resolve [] (derivedDataPathOf "u"))
        = .ok ([⟨"Other-abc", 0o755, true⟩] ++ ⟨"Proj-build.log", 0o644, false⟩ ::
            [⟨"Proj-fgh", 0o755, true⟩]) ∧
      findProject (derivedDataPathOf "u") "Proj"
          ([⟨"Other-abc", 0o755, true⟩] ++ ⟨"Proj-build.log", 0o644, false⟩ ::
            [⟨"Proj-fgh", 0o755, true⟩])
        = pathJoin [derivedDataPathOf "u", "Proj-build.log"] ∧
      ∃ t, "Proj-build.log" = "Proj" ++ t :=
  ⟨by decide, by decide, by decide,
    project_selection (derivedDataPathOf "u") "Proj" [⟨"Other-abc", 0o755, true⟩]
      ⟨"Proj-build.log", 0o644, false⟩ [⟨"Proj-fgh", 0o755, true⟩] (by decide) (by decide)⟩

/-- C9, as stated, fails. The derived-data folder of `u` holds the folder
`Other-abc`, the file `Proj-build.log` and the folder `Proj-fgh`, listed in this
order. The first immediate subdirectory whose name starts with `Proj` is
`Proj-fgh`; the project path is that of the file `Proj-build.log`, and `main`
runs `lipo` on paths under it. -/
theorem project_selection_counterexample :
    (ioutilReadDir (worldOf projectsFS) (derivedDataPathOf "u")).1
        = .ok [⟨"Other-abc", 0o755, true⟩, ⟨"Proj-build.log", 0o644, false⟩,
            ⟨"Proj-fgh", 0o755, true⟩] ∧
      findProject (derivedDataPathOf "u") "Proj"
          [⟨"Other-abc", 0o755, true⟩, ⟨"Proj-build.log", 0o644, false⟩,
            ⟨"Proj-fgh", 0o755, true⟩]
        = "/Users/u/Library/Developer/Xcode/DerivedData/Proj-build.log" ∧
      pathJoin [derivedDataPathOf "u", "Proj-fgh"]
        = "/Users/u/Library/Developer/Xcode/DerivedData/Proj-fgh" ∧
      (main demoEnv 70 (worldOf projectsFS) demoArgs).map
          (fun x => (x.2.trace.filter (fun e => e.op = "lipo")).map (fun e => e.args))
        = some [["-create",
            "/Users/u/Library/Developer/Xcode/DerivedData/Proj-build.log/Build/Products/Release-iphonesimulator/Lib.framework/Lib",
            "/Users/u/Library/Developer/Xcode/DerivedData/Proj-build.log/Build/Products/Release-iphoneos/Lib.framework/Lib",
            "-output",
            "/Users/u/Library/Developer/Xcode/DerivedData/Proj-build.log/Build/Products/Release-iphoneos/Lib"]] := by
  decide

/-- C10. No matching project directory. When no name of the listing starts with
the prefix, nothing fails: the project path is the empty string and `main` goes on
to call `combineStaticLibraries`, with the two build paths made from the template:
each is `Build/Products/<config>-iphonesimulator`, resp. `-iphoneos`, as
`path.Join` cleans it, which is a relative path, and the template itself when the
configuration name has no slash. -/
theorem no_matching_project (env : Env) (fuel : Nat) (w w1 w2 : World)
    (args : List (String × String)) (fl : Flags) (files : List FileInfo)
    (hp : flagParse flagDefaults args = some fl)
    (h1 : fl.user ≠ "") (h2 : fl.sdkProjectName ≠ "") (h3 : fl.frameworkName ≠ "")
    (h4 : fl.outputFolder ≠ "")
    (he : pathExists w (derivedDataPathOf fl.user) = ((true, none), w1))
    (hr : ioutilReadDir w1 (derivedDataPathOf fl.user) = (.ok files, w2))
    (hno : ∀ x ∈ files, stringsHasPrefix x.name fl.sdkProjectName = false) :
    findProject (derivedDataPathOf fl.user) fl.sdkProjectName files = "" ∧
      main env fuel w args =
        mainExit (combineStaticLibraries env fuel w2 fl.frameworkName
          (simulatorBuildPathOf "" fl.buildConfig) (osBuildPathOf "" fl.buildConfig)
          fl.outputFolder) ∧
      (simulatorBuildPathOf "" fl.buildConfig
          = pathClean ("Build/Products/" ++ fl.buildConfig ++ "-iphonesimulator") ∧
        isRooted (simulatorBuildPathOf "" fl.buildConfig).data = false ∧
        ('/' ∉ fl.buildConfig.data → simulatorBuildPathOf "" fl.buildConfig
          = "Build/Products/" ++ fl.buildConfig ++ "-iphonesimulator")) ∧
      (osBuildPathOf "" fl.buildConfig
          = pathClean ("Build/Products/" ++ fl.buildConfig ++ "-iphoneos") ∧
        isRooted (osBuildPathOf "" fl.buildConfig).data = false ∧
        ('/' ∉ fl.buildConfig.data → osBuildPathOf "" fl.buildConfig
          = "Build/Products/" ++ fl.buildConfig ++ "-iphoneos")) := by
  have hnone := findProject_none (derivedDataPathOf fl.user) fl.sdkProjectName files hno
  have hm := main_reach env fuel w w1 w2 args fl files hp h1 h2 h3 h4 he hr
  rw [hnone] at hm
  obtain ⟨s1, s2⟩ := buildPath_of_empty fl.buildConfig "-iphonesimulator"
  obtain ⟨o1, o2⟩ := buildPath_of_empty fl.buildConfig "-iphoneos"
  refine ⟨hnone, hm, ⟨s1, s2, fun hc => ?_⟩, ⟨o1, o2, fun hc => ?_⟩⟩
  · exact s1.trans (buildTemplate_clean fl.buildConfig "-iphonesimulator" hc (by decide)
      (by decide))
  · exact o1.trans (buildTemplate_clean fl.buildConfig "-iphoneos" hc (by decide) (by decide))

/-- With a derived-data folder that holds `Other-abc` only and the project prefix
`Proj`, `main` calls `combineStaticLibraries` with `Build/Products/Release-iphonesimulator`
and `Build/Products/Release-iphoneos`. -/
theorem no_matching_project_witness :
    flagParse flagDefaults demoArgs = some ⟨"u", "Proj", "Release", "Lib", "/out"⟩ ∧
      ioutilReadDir ((worldOf derivedFS).record derivedFS ⟨"stat", [derivedDataPathOf "u"], false⟩)
          (derivedDataPathOf "u")
        = (.ok [⟨"Other-abc", 0o755, true⟩],
            ((worldOf derivedFS).record derivedFS
              ⟨"stat", [derivedDataPathOf "u"], false⟩).record derivedFS
              ⟨"readdir", [derivedDataPathOf "u"], false⟩) ∧
      main demoEnv 70 (worldOf derivedFS) demoArgs =
        mainExit (combineStaticLibraries demoEnv 70
          (((worldOf derivedFS).record derivedFS
            ⟨"stat", [derivedDataPathOf "u"], false⟩).record derivedFS
            ⟨"readdir", [derivedDataPathOf "u"], false⟩)
          "Lib" "Build/Products/Release-iphonesimulator" "Build/Products/Release-iphoneos"
          "/out") := by
  have h := no_matching_project demoEnv 70 (worldOf derivedFS)
    ((worldOf derivedFS).record derivedFS ⟨"stat", [derivedDataPathOf "u"], false⟩)
    (((worldOf derivedFS).record derivedFS
      ⟨"stat", [derivedDataPathOf "u"], false⟩).record derivedFS
      ⟨"readdir", [derivedDataPathOf "u"], false⟩)
    demoArgs ⟨"u", "Proj", "Release", "Lib", "/out"⟩ [⟨"Other-abc", 0o755, true⟩]
    (by decide) (by decide) (by decide) (by decide) (by decide) (by decide) (by decide)
    (by decide)
  obtain ⟨_, hm, ⟨_, _, hs⟩, ⟨_, _, ho⟩⟩ := h
  rw [hs (by decide), ho (by decide)] at hm
  exact ⟨by decide, by decide, hm⟩

/-! ## Claims about `combineStaticLibraries` -/

theorem execRun_failed (env : Env) (w : World) (name : String) (args : List String)
    (msg : String) (fs1 : FS) (hl : env.lipo args w.cwd w.fs = (some msg, fs1)) :
    execRun env w name args
      = (some (Error.text msg), { w with fs := fs1, trace := w.trace ++ [⟨name, args, true⟩] }) := by
  unfold execRun
  simp only [hl]

theorem combine_lipo_failed (env : Env) (fuel : Nat) (w : World)
    (name sim os out msg : String) (fs1 : FS)
    (hl : env.lipo (lipoArgs name sim os) w.cwd w.fs = (some msg, fs1)) :
    combineStaticLibraries env fuel w name sim os out
      = some (some (Error.text ("failed to run lipo to combine static libraries: " ++ msg)),
          { w with fs := fs1, trace := w.trace ++ [⟨"lipo", lipoArgs name sim os, true⟩] }) := by
  have h := execRun_failed env w "lipo" (lipoArgs name sim os) msg fs1 hl
  unfold lipoArgs at h
  unfold combineStaticLibraries mergeLibraries
  simp only [h]
  rfl

/-- C5. Merge failure short-circuits. When the `lipo` command fails,
`combineStaticLibraries` returns the error `failed to run lipo to combine static
libraries: ` followed by the command's error, in a state that differs from the one
it was called in by what the command left of the file system and by one entry in
the record of calls, the failed command: no rename, no read or write of
`Info.plist`, no call of the copier. And `main`, having reached the call, then
writes the error to standard error and exits with status 1. -/
theorem merge_failure_short_circuits (env : Env) (fuel : Nat) (w : World)
    (name sim os out msg : String) (fs1 : FS)
    (hl : env.lipo (lipoArgs name sim os) w.cwd w.fs = (some msg, fs1)) :
    combineStaticLibraries env fuel w name sim os out
        = some (some (Error.text ("failed to run lipo to combine static libraries: " ++ msg)),
            { w with fs := fs1, trace := w.trace ++ [⟨"lipo", lipoArgs name sim os, true⟩] }) ∧
      ∀ (w0 w1 : World) (args : List (String × String)) (fl : Flags) (files : List FileInfo),
        flagParse flagDefaults args = some fl →
        fl.user ≠ "" → fl.sdkProjectName ≠ "" → fl.frameworkName ≠ "" → fl.outputFolder ≠ "" →
        pathExists w0 (derivedDataPathOf fl.user) = ((true, none), w1) →
        ioutilReadDir w1 (derivedDataPathOf fl.user) = (.ok files, w) →
        name = fl.frameworkName →
        sim = simulatorBuildPathOf
          (findProject (derivedDataPathOf fl.user) fl.sdkProjectName files) fl.buildConfig →
        os = osBuildPathOf
          (findProject (derivedDataPathOf fl.user) fl.sdkProjectName files) fl.buildConfig →
        main env fuel w0 args
          = some (1, { w with
              fs := fs1,
              trace := w.trace ++ [⟨"lipo", lipoArgs name sim os, true⟩],
              stderr := w.stderr ++
                ["failed to run lipo to combine static libraries: " ++ msg ++ "\n"] }) := by
  refine ⟨combine_lipo_failed env fuel w name sim os out msg fs1 hl, ?_⟩
  intro w0 w1 args fl files hp h1 h2 h3 h4 he hr hname hsim hos
  subst hname hsim hos
  rw [main_reach env fuel w0 w1 w args fl files hp h1 h2 h3 h4 he hr,
    combine_lipo_failed env fuel w _ _ _ fl.outputFolder msg fs1 hl]
  rfl

/-- Where the builds are missing the stand-in for `lipo` fails, and `main` exits
with status 1 after the failed command. -/
theorem merge_failure_short_circuits_witness :
    demoEnv.lipo (lipoArgs "Lib" "Build/Products/Release-iphonesimulator"
        "Build/Products/Release-iphoneos") listedWorld.cwd listedWorld.fs
        = (some "exit status 1", derivedFS) ∧
      main demoEnv 0 (worldOf derivedFS) demoArgs
        = some (1, { listedWorld with
            fs := derivedFS,
            trace := listedWorld.trace ++ [⟨"lipo", lipoArgs "Lib"
              "Build/Products/Release-iphonesimulator" "Build/Products/Release-iphoneos", true⟩],
            stderr := ["failed to run lipo to combine static libraries: exit status 1\n"] }) :=
  ⟨by decide,
    (merge_failure_short_circuits demoEnv 0 listedWorld "Lib"
      "Build/Products/Release-iphonesimulator" "Build/Products/Release-iphoneos" "/out"
      "exit status 1" derivedFS (by decide)).2 (worldOf derivedFS)
      ((worldOf derivedFS).record derivedFS ⟨"stat", [derivedDataPathOf "u"], false⟩)
      demoArgs ⟨"u", "Proj", "Release", "Lib", "/out"⟩ [⟨"Other-abc", 0o755, true⟩]
      (by decide) (by decide) (by decide) (by decide) (by decide) (by decide) (by decide)
      rfl (by decide) (by decide)⟩

theorem combine_after_merge (env : Env) (fuel : Nat) (w w1 : World)
    (name sim os out : String) (hm : mergeLibraries env w name sim os = (none, w1)) :
    combineStaticLibraries env fuel w name sim os out =
      match patchInfoPlist env w1 name os with
      | (some err, w2) => some (some err, w2)
      | (none, w2) => copyDir fuel w2 (bundlePathOf name os) (bundlePathOf name out) := by
  unfold combineStaticLibraries
  simp only [hm]
  rfl

/-- C6. Metadata failure is fatal and precedes the copy. After the merge step:
when the read of `Info.plist` fails, or its decoding, or the encoding, or the
write, `combineStaticLibraries` returns an error made of the name of the step
and the error of the failing call, in a state whose file system is the one the
merge step left and whose record of calls has gained the read, and the write if
it came to that: the copier has not been called. When the write succeeds,
`combineStaticLibraries` is the run of the copier from the state the write left. -/
theorem metadata_failure_is_fatal (env : Env) (fuel : Nat) (w w1 : World)
    (name sim os out : String) (hm : mergeLibraries env w name sim os = (none, w1)) :
    (∀ e w2, ioutilReadFile w1 (plistPathOf name os) = (.error e, w2) →
        combineStaticLibraries env fuel w name sim os out
            = some (some (Error.text ("failed to read info plist file: " ++ e.toStr)), w2) ∧
          w2.fs = w1.fs ∧ w2.stdout = w1.stdout ∧
          w2.trace = w1.trace ++ [⟨"readfile", [plistPathOf name os], true⟩]) ∧
      (∀ data w2 msg, ioutilReadFile w1 (plistPathOf name os) = (.ok data, w2) →
        env.unmarshal data = .error msg →
        combineStaticLibraries env fuel w name sim os out
            = some (some (Error.text ("failed to unmarshal plist file: " ++ msg)), w2) ∧
          w2.fs = w1.fs ∧ w2.stdout = w1.stdout ∧
          w2.trace = w1.trace ++ [⟨"readfile", [plistPathOf name os], false⟩]) ∧
      (∀ data w2 pl format msg, ioutilReadFile w1 (plistPathOf name os) = (.ok data, w2) →
        env.unmarshal data = .ok (pl, format) →
        env.marshal (pl.set "CFBundleSupportedPlatforms" supportedPlatforms) format
          = .error msg →
        combineStaticLibraries env fuel w name sim os out
            = some (some (Error.text ("failed to marshal plist file: " ++ msg)), w2) ∧
          w2.fs = w1.fs ∧ w2.stdout = w1.stdout ∧
          w2.trace = w1.trace ++ [⟨"readfile", [plistPathOf name os], false⟩]) ∧
      (∀ data w2 pl format data' e w3,
        ioutilReadFile w1 (plistPathOf name os) = (.ok data, w2) →
        env.unmarshal data = .ok (pl, format) →
        env.marshal (pl.set "CFBundleSupportedPlatforms" supportedPlatforms) format
          = .ok data' →
        ioutilWriteFile w2 (plistPathOf name os) data' 0o644 = (some e, w3) →
        combineStaticLibraries env fuel w name sim os out
            = some (some (Error.text ("failed to write plist file: " ++ e.toStr)), w3) ∧
          w3.fs = w1.fs ∧ w3.stdout = w1.stdout ∧
          w3.trace = w1.trace ++ [⟨"readfile", [plistPathOf name os], false⟩,
            ⟨"writefile", [plistPathOf name os], true⟩]) ∧
      (∀ data w2 pl format data' w3,
        ioutilReadFile w1 (plistPathOf name os) = (.ok data, w2) →
        env.unmarshal data = .ok (pl, format) →
        env.marshal (pl.set "CFBundleSupportedPlatforms" supportedPlatforms) format
          = .ok data' →
        ioutilWriteFile w2 (plistPathOf name os) data' 0o644 = (none, w3) →
        combineStaticLibraries env fuel w name sim os out
            = copyDir fuel w3 (bundlePathOf name os) (bundlePathOf name out) ∧
          w3.trace = w1.trace ++ [⟨"readfile", [plistPathOf name os], false⟩,
            ⟨"writefile", [plistPathOf name os], false⟩]) := by
  have hc := combine_after_merge env fuel w w1 name sim os out hm
  refine ⟨?_, ?_, ?_, ?_, ?_⟩
  · intro e w2 h1
    obtain ⟨_, hw⟩ := ioutilReadFile_error _ _ _ _ h1
    obtain ⟨f, _, _, E, t⟩ := record_facts _ _ _ _ hw
    refine ⟨?_, f, E.2, t⟩
    unfold plistPathOf at h1
    rw [hc]
    simp only [patchInfoPlist, h1]
    rfl
  · intro data w2 msg h1 h2
    obtain ⟨_, hw⟩ := ioutilReadFile_ok _ _ _ _ h1
    obtain ⟨f, _, _, E, t⟩ := record_facts _ _ _ _ hw
    refine ⟨?_, f, E.2, t⟩
    unfold plistPathOf at h1
    rw [hc]
    simp only [patchInfoPlist, h1, h2]
    rfl
  · intro data w2 pl format msg h1 h2 h3
    obtain ⟨_, hw⟩ := ioutilReadFile_ok _ _ _ _ h1
    obtain ⟨f, _, _, E, t⟩ := record_facts _ _ _ _ hw
    refine ⟨?_, f, E.2, t⟩
    unfold plistPathOf at h1
    rw [hc]
    simp only [patchInfoPlist, h1, h2, h3]
    rfl
  · intro data w2 pl format data' e w3 h1 h2 h3 h4
    obtain ⟨_, hw⟩ := ioutilReadFile_ok _ _ _ _ h1
    obtain ⟨f, _, _, E, t⟩ := record_facts _ _ _ _ hw
    obtain ⟨_, hw3⟩ := ioutilWriteFile_error _ _ _ _ _ _ h4
    obtain ⟨f3, _, _, E3, t3⟩ := record_facts _ _ _ _ hw3
    refine ⟨?_, by rw [f3, f], by rw [E3.2, E.2], by rw [t3, t]; simp⟩
    unfold plistPathOf at h1 h4
    rw [hc]
    simp only [patchInfoPlist, h1, h2, h3, h4]
    rfl
  · intro data w2 pl format data' w3 h1 h2 h3 h4
    obtain ⟨_, hw⟩ := ioutilReadFile_ok _ _ _ _ h1
    obtain ⟨f, _, _, E, t⟩ := record_facts _ _ _ _ hw
    obtain ⟨_, _, _, _, hw3⟩ := ioutilWriteFile_ok _ _ _ _ _ h4
    obtain ⟨f3, _, _, E3, t3⟩ := record_facts _ _ _ _ hw3
    refine ⟨?_, by rw [t3, t]; simp⟩
    unfold plistPathOf at h1 h4
    rw [hc]
    simp only [patchInfoPlist, h1, h2, h3, h4]

/-- Two failures of the patch: an `Info.plist` that does not decode, and a write
that is made to fail. Neither run gets to the copier. -/
theorem metadata_failure_is_fatal_witness :
    ((mergeLibraries demoEnv (worldOf brokenFS) "Lib" "/b/sim" "/b/os").1 = none ∧
      (combineStaticLibraries demoEnv 67 (worldOf brokenFS) "Lib" "/b/sim" "/b/os" "/out").map
          (fun x => (x.1, x.2.fs.node ["out", "Lib.framework"], x.2.trace.map (fun e => e.op)))
        = some (some (Error.text "failed to unmarshal plist file: unexpected plist data"),
            none, ["lipo", "rename", "readfile"])) ∧
    ((mergeLibraries demoEnv { worldOf bundleFS with faults := [false, false, true] }
        "Lib" "/b/sim" "/b/os").1 = none ∧
      (combineStaticLibraries demoEnv 67 { worldOf bundleFS with faults := [false, false, true] }
          "Lib" "/b/sim" "/b/os" "/out").map
          (fun x => (x.1, x.2.fs.node ["out", "Lib.framework"], x.2.trace.map (fun e => e.op)))
        = some (some (Error.text
            "failed to write plist file: open /b/os/Lib.framework/Info.plist: permission denied"),
            none, ["lipo", "rename", "readfile", "writefile"])) := by
  refine ⟨⟨by decide, ?_⟩, ⟨by decide, ?_⟩⟩
  · have h := (metadata_failure_is_fatal demoEnv 67 (worldOf brokenFS)
      (mergeLibraries demoEnv (worldOf brokenFS) "Lib" "/b/sim" "/b/os").2
      "Lib" "/b/sim" "/b/os" "/out" (by decide)).2.1 [9, 9]
      (ioutilReadFile (mergeLibraries demoEnv (worldOf brokenFS) "Lib" "/b/sim" "/b/os").2
        (plistPathOf "Lib" "/b/os")).2
      "unexpected plist data" (by decide) (by rfl)
    rw [h.1]
    decide
  · have h := (metadata_failure_is_fatal demoEnv 67
      { worldOf bundleFS with faults := [false, false, true] }
      (mergeLibraries demoEnv { worldOf bundleFS with faults := [false, false, true] }
        "Lib" "/b/sim" "/b/os").2
      "Lib" "/b/sim" "/b/os" "/out" (by decide)).2.2.2.1 [0, 7]
      (ioutilReadFile (mergeLibraries demoEnv
        { worldOf bundleFS with faults := [false, false, true] } "Lib" "/b/sim" "/b/os").2
        (plistPathOf "Lib" "/b/os")).2
      [("CFBundleVersion", PValue.int 7)] Format.xml [1, 7]
      (Error.path "open" "/b/os/Lib.framework/Info.plist" Errno.EACCES)
      (ioutilWriteFile (ioutilReadFile (mergeLibraries demoEnv
        { worldOf bundleFS with faults := [false, false, true] } "Lib" "/b/sim" "/b/os").2
        (plistPathOf "Lib" "/b/os")).2 (plistPathOf "Lib" "/b/os") [1, 7] 0o644).2
      (by decide) (by rfl) (by rfl) (by decide)
    rw [h.1]
    decide

/-! ## The patch of `Info.plist` -/

theorem lookup_filter_ne (pl : Doc) (key k : String) (h : k ≠ key) :
    (pl.filter (fun e => e.1 ≠ key)).lookup k = pl.lookup k := by
  induction pl with
  | nil => rfl
  | cons e rest ih =>
    obtain ⟨k1, v1⟩ := e
    by_cases h1 : k1 = key
    · subst h1
      have hk : (k == k1) = false := by simpa using h
      rw [List.filter_cons]
      simp only [ne_eq, not_true_eq_false, decide_False, Bool.false_eq_true, if_false,
        List.lookup, hk]
      exact ih
    · rw [List.filter_cons]
      simp only [ne_eq, h1, not_false_eq_true, decide_True, if_true, List.lookup]
      cases k == k1
      · exact ih
      · rfl

/-- What Go's map assignment does to a document. -/
theorem Doc.lookup_set (pl : Doc) (key k : String) (v : PValue) :
    (pl.set key v).lookup k = if k = key then some v else pl.lookup k := by
  unfold Doc.set
  by_cases h : k = key
  · subst h
    simp [List.lookup]
  · have : (k == key) = false := by simpa using h
    simp only [List.lookup, this, h, if_false]
    exact lookup_filter_ne pl key k h

/-- C1. Metadata patch round-trip. Given a plist codec that decodes what it
encodes (to a document with the same value under every key, in the format it
was encoded in): when the patch step succeeds, the file at the device bundle's
`Info.plist` held data that decoded to a document `pl` in a format `format`; the
file now holds, under the permission bits it had, the encoding in that very
`format` of a document; and decoding it yields a document that has exactly the
keys of `pl` and `CFBundleSupportedPlatforms`, the array of `iPhoneOS` and
`iPhoneSimulator` under that key whatever `pl` had there, and under every other
key the value `pl` has. -/
theorem patch_round_trip (env : Env) (w w' : World) (name os : String)
    (hcodec : ∀ d f b, env.marshal d f = .ok b →
      ∃ d', env.unmarshal b = .ok (d', f) ∧ ∀ k, d'.lookup k = d.lookup k)
    (h : patchInfoPlist env w name os = (none, w')) :
    ∃ m data pl format data' pl',
      w.fs.node (resolve w.cwd (plistPathOf name os)) = some (Node.file m data) ∧
      env.unmarshal data = .ok (pl, format) ∧
      w'.fs.node (resolve w.cwd (plistPathOf name os)) = some (Node.file m data') ∧
      env.marshal (pl.set "CFBundleSupportedPlatforms" supportedPlatforms) format
        = .ok data' ∧
      env.unmarshal data' = .ok (pl', format) ∧
      (∀ k, (pl'.lookup k).isSome = true ↔
        ((pl.lookup k).isSome = true ∨ k = "CFBundleSupportedPlatforms")) ∧
      pl'.lookup "CFBundleSupportedPlatforms" = some supportedPlatforms ∧
      (∀ k, k ≠ "CFBundleSupportedPlatforms" → pl'.lookup k = pl.lookup k) := by
  obtain ⟨data, w1, pl, format, data', h1, h2, h3, h4⟩ := patchInfoPlist_ok env w w' name os h
  obtain ⟨hrd, hw1⟩ := ioutilReadFile_ok _ _ _ _ h1
  obtain ⟨f1, c1, _, _, _⟩ := record_facts _ _ _ _ hw1
  obtain ⟨m, hm⟩ := FS.readFile_spec _ _ _ hrd
  obtain ⟨⟨m', hm', hmode⟩, _, _⟩ := writeFile_node _ _ _ _ _ h4
  rw [c1] at hm' hmode
  rw [f1] at hmode
  have hmm := hmode m data hm
  subst hmm
  obtain ⟨pl', hdec, hsame⟩ := hcodec _ _ _ h3
  refine ⟨m', data, pl, format, data', pl', hm, h2, hm', h3, hdec, ?_, ?_, ?_⟩
  · intro k
    rw [hsame k, Doc.lookup_set]
    by_cases hk : k = "CFBundleSupportedPlatforms"
    · simp [hk]
    · simp [hk]
  · rw [hsame, Doc.lookup_set]
    simp
  · intro k hk
    rw [hsame, Doc.lookup_set]
    simp [hk]

theorem demoEnv_round_trip : ∀ d f b, demoEnv.marshal d f = .ok b →
    ∃ d', demoEnv.unmarshal b = .ok (d', f) ∧ ∀ k, d'.lookup k = d.lookup k := by
  intro d f b h
  simp only [demoEnv] at h ⊢
  unfold demoMarshal at h
  split at h
  · rename_i k1 a b1 k2 n
    split at h
    · rename_i hc
      obtain ⟨rfl, rfl, rfl, rfl⟩ := hc
      cases h
      exact ⟨_, rfl, fun _ => rfl⟩
    · cases h
  · cases h

/-- The patch at work on the device bundle of the example, whose `Info.plist`
holds a version number and no supported platforms. -/
theorem patch_round_trip_witness :
    (∀ d f b, demoEnv.marshal d f = .ok b →
      ∃ d', demoEnv.unmarshal b = .ok (d', f) ∧ ∀ k, d'.lookup k = d.lookup k) ∧
    ∃ w', patchInfoPlist demoEnv (worldOf bundleFS) "Lib" "/b/os" = (none, w') ∧
      ∃ m data pl format data' pl',
        (worldOf bundleFS).fs.node (resolve [] (plistPathOf "Lib" "/b/os"))
          = some (Node.file m data) ∧
        demoEnv.unmarshal data = .ok (pl, format) ∧
        w'.fs.node (resolve [] (plistPathOf "Lib" "/b/os")) = some (Node.file m data') ∧
        demoEnv.marshal (pl.set "CFBundleSupportedPlatforms" supportedPlatforms) format
          = .ok data' ∧
        demoEnv.unmarshal data' = .ok (pl', format) ∧
        (∀ k, (pl'.lookup k).isSome = true ↔
          ((pl.lookup k).isSome = true ∨ k = "CFBundleSupportedPlatforms")) ∧
        pl'.lookup "CFBundleSupportedPlatforms" = some supportedPlatforms ∧
        (∀ k, k ≠ "CFBundleSupportedPlatforms" → pl'.lookup k = pl.lookup k) :=
  ⟨demoEnv_round_trip,
    (patchInfoPlist demoEnv (worldOf bundleFS) "Lib" "/b/os").2,
    by decide,
    patch_round_trip demoEnv (worldOf bundleFS) _ "Lib" "/b/os" demoEnv_round_trip (by decide)⟩

/-! ## The effect of a successful merge -/

/-- The states a successful run of `combineStaticLibraries` goes through. -/
theorem combine_ok_steps (env : Env) (fuel : Nat) (w w' : World)
    (name sim os out : String)
    (h : combineStaticLibraries env fuel w name sim os out = some (none, w')) :
    (env.lipo (lipoArgs name sim os) w.cwd w.fs).1 = none ∧
      ∃ fs2 w4,
        (env.lipo (lipoArgs name sim os) w.cwd w.fs).2.rename
            (resolve w.cwd (pathJoin [os, name])) (resolve w.cwd (libraryPathOf name os))
          = .ok fs2 ∧
        (∀ p, p ≠ resolve w.cwd (plistPathOf name os) → w4.fs.node p = fs2.node p) ∧
        w4.cwd = w.cwd ∧
        copyDir fuel w4 (bundlePathOf name os) (bundlePathOf name out) = some (none, w') := by
  unfold combineStaticLibraries at h
  rcases h1 : mergeLibraries env w name sim os with ⟨_ | e1, w2⟩
  swap
  · simp [h1] at h
  simp only [h1] at h
  rcases h2 : patchInfoPlist env w2 name os with ⟨_ | e2, w4⟩
  swap
  · simp [h2] at h
  simp only [h2] at h
  obtain ⟨w1, fs2, hx, hren, hw2⟩ := mergeLibraries_ok env w w2 name sim os h1
  obtain ⟨hw1, hres⟩ := execRun_spec _ _ _ _ _ _ hx
  obtain ⟨f2, c2, _, _, _⟩ := record_facts _ _ _ _ hw2
  have f1 : w1.fs = (env.lipo (lipoArgs name sim os) w.cwd w.fs).2 := by rw [hw1]
  have c1 : w1.cwd = w.cwd := by rw [hw1]
  obtain ⟨data, w3, pl, format, data', hr, _, _, hwr⟩ := patchInfoPlist_ok env w2 w4 name os h2
  obtain ⟨hrd, hw3⟩ := ioutilReadFile_ok _ _ _ _ hr
  obtain ⟨f3, c3, _, _, _⟩ := record_facts _ _ _ _ hw3
  obtain ⟨_, hframe, E4⟩ := writeFile_node _ _ _ _ _ hwr
  rw [f1] at hren
  refine ⟨?_, fs2, w4, hren, ?_, ?_, h⟩
  · cases hl : (env.lipo (lipoArgs name sim os) w.cwd w.fs).1 with
    | none => rfl
    | some msg => rw [hl] at hres; cases hres
  · intro p hp
    rw [hframe p (by rw [c3, c2, c1]; exact hp), f3, f2]
  · rw [E4.1.1, c3, c2, c1]

/-- C4, as amended. Successful merge effect. When `combineStaticLibraries`
returns nil, the command has succeeded, and: (a) provided the path of the device
binary is not the path of `Info.plist` and is not at or under the output bundle,
the node at `<device build path>/<Name>.framework/<Name>` is the one the command
left at the temporary path `<device build path>/<Name>`; (b) provided the
simulator bundle is apart from the temporary path, the device binary, the device
`Info.plist` and the output bundle, every node of the simulator bundle that the
command itself left as it was is as it was before the call. -/
theorem combine_success_effect (env : Env) (fuel : Nat) (w w' : World)
    (name sim os out : String)
    (h : combineStaticLibraries env fuel w name sim os out = some (none, w')) :
    (env.lipo (lipoArgs name sim os) w.cwd w.fs).1 = none ∧
      (resolve w.cwd (libraryPathOf name os) ≠ resolve w.cwd (plistPathOf name os) →
        ¬ resolve w.cwd (bundlePathOf name out) <+: resolve w.cwd (libraryPathOf name os) →
        ∃ x, (env.lipo (lipoArgs name sim os) w.cwd w.fs).2.node
              (resolve w.cwd (pathJoin [os, name])) = some x ∧
          w'.fs.node (resolve w.cwd (libraryPathOf name os)) = some x) ∧
      (Apart (resolve w.cwd (bundlePathOf name sim)) (resolve w.cwd (pathJoin [os, name])) →
        Apart (resolve w.cwd (bundlePathOf name sim)) (resolve w.cwd (libraryPathOf name os)) →
        Apart (resolve w.cwd (bundlePathOf name sim)) (resolve w.cwd (plistPathOf name os)) →
        Apart (resolve w.cwd (bundlePathOf name sim)) (resolve w.cwd (bundlePathOf name out)) →
        ∀ p x, resolve w.cwd (bundlePathOf name sim) <+: p → w.fs.node p = some x →
          (env.lipo (lipoArgs name sim os) w.cwd w.fs).2.node p = some x →
          w'.fs.node p = some x) := by
  obtain ⟨hl, fs2, w4, hren, hpatch, c4, hcopy⟩ := combine_ok_steps env fuel w w' name sim os out h
  obtain ⟨⟨src, hsrc⟩, hnew, hother⟩ := FS.rename_spec _ _ _ _ hren
  have hF := (copyDir_frame fuel _ _ _ _ _ hcopy).2
  rw [c4] at hF
  refine ⟨hl, ?_, ?_⟩
  · intro hne hout
    refine ⟨src, hsrc, ?_⟩
    apply (hF _ hout).2
    rw [hpatch _ hne, hnew]
    exact hsrc
  · intro a1 a2 a3 a4 p x hp hx hlipo
    have away : ∀ q, Apart (resolve w.cwd (bundlePathOf name sim)) q → ¬ q <+: p := by
      intro q hq hqp
      rcases List.prefix_or_prefix_of_prefix hp hqp with y | y
      · exact hq.1 y
      · exact hq.2 y
    apply (hF p (away _ a4)).2
    rw [hpatch p (fun e => a3.1 (e ▸ hp)), hother p (away _ a1) (away _ a2)]
    exact hlipo

/-- A successful run on the example: the device binary is what the command made
of the two binaries, and the simulator binary is as it was. -/
theorem combine_success_effect_witness :
    ∃ w', combineStaticLibraries demoEnv 67 (worldOf bundleFS) "Lib" "/b/sim" "/b/os" "/out"
        = some (none, w') ∧
      (∃ x, (demoEnv.lipo (lipoArgs "Lib" "/b/sim" "/b/os") [] bundleFS).2.node ["b", "os", "Lib"]
          = some x ∧ w'.fs.node ["b", "os", "Lib.framework", "Lib"] = some x) ∧
      w'.fs.node ["b", "sim", "Lib.framework", "Lib"] = some (Node.file 0o755 [1]) := by
  have hrun : ∃ w', combineStaticLibraries demoEnv 67 (worldOf bundleFS) "Lib" "/b/sim" "/b/os"
      "/out" = some (none, w') :=
    ⟨((combineStaticLibraries demoEnv 67 (worldOf bundleFS) "Lib" "/b/sim" "/b/os" "/out").map
      (fun x => x.2)).getD (worldOf bundleFS), by decide⟩
  obtain ⟨w', h⟩ := hrun
  obtain ⟨_, ha, hb⟩ := combine_success_effect demoEnv 67 (worldOf bundleFS) w'
    "Lib" "/b/sim" "/b/os" "/out" h
  refine ⟨w', h, ha (by decide) (by decide), ?_⟩
  exact hb (by unfold Apart; decide) (by unfold Apart; decide) (by unfold Apart; decide)
    (by unfold Apart; decide) ["b", "sim", "Lib.framework", "Lib"] _ (by decide) (by decide)
    (by decide)

/-- C4, as stated, fails. With the simulator build folder as the output folder
the call succeeds and the simulator binary, `[1]` before, is the merged binary
after; with the device build folder as the output folder the call succeeds and
the device binary is empty, not what the command produced. -/
theorem combine_success_effect_counterexample :
    ((combineStaticLibraries demoEnv 67 (worldOf bundleFS) "Lib" "/b/sim" "/b/os" "/b/sim").map
        (fun x => (x.1, x.2.fs.node ["b", "sim", "Lib.framework", "Lib"]))
        = some (none, some (Node.file 0o644 [1, 2])) ∧
      (worldOf bundleFS).fs.node ["b", "sim", "Lib.framework", "Lib"]
        = some (Node.file 0o755 [1])) ∧
    ((combineStaticLibraries demoEnv 67 (worldOf bundleFS) "Lib" "/b/sim" "/b/os" "/b/os").map
        (fun x => (x.1, x.2.fs.node ["b", "os", "Lib.framework", "Lib"]))
        = some (none, some (Node.file 0o644 [])) ∧
      (demoEnv.lipo (lipoArgs "Lib" "/b/sim" "/b/os") [] bundleFS).2.node ["b", "os", "Lib"]
        = some (Node.file 0o644 [1, 2])) := by
  decide

end Simfatlib
